import Mathlib

/-!
A shallow embedding of `tinyfcgi.hpp`

The C++ header overlays small classes (`header`, `param`, `begin_request_body`,
`end_request_body`) on a caller supplied `char` buffer and builds or parses FastCGI
records in place.  The embedding keeps that shape:

* memory is a function from byte offsets to byte values (`Mem`); offset `0` is the
  first byte of the buffer a `message` or reader is bound to, and offsets at or
  beyond the capacity are the bytes that follow the buffer in memory;
* a pointer is the offset it points at; a pointer difference that the source computes
  before any bound is known (`terminator()`) is an `Int`;
* a method that mutates the object under `this` takes the memory and the offset of
  `this` and returns the new memory;
* a `string_ref` argument (bytes handed in by the caller) is the list of its bytes,
  a `string_ref` result (a view into the buffer) is the list of bytes it covers;
* stores into `unsigned char` fields truncate with `% 256`, conversions to
  `uint16_t` with `% 65536`;
* `size_t` has 64 bits in the definitions that carry the names of the source.  Sizes
  of caller strings and offsets into the buffer stay far below `2^64` and are added
  as they are; the one sum of decoded, untrusted lengths, in `param::size()`, is
  reduced `% 2^64`.  The source does not fix the target: the definitions with the
  suffix `_w` are the parameter reader for a `size_t` of `w` bits.
-/

namespace tinyfcgi

/-! ## Memory -/

/-- Byte addressed memory, relative to the start of the bound buffer. -/
abbrev Mem := Nat → Nat

/-- Store into one `unsigned char` cell (the value is truncated to eight bits). -/
def store (mem : Mem) (a v : Nat) : Mem :=
  fun i => if i = a then v % 256 else mem i

/-- `memcpy(dst, src.data(), src.size())` for a caller supplied byte string. -/
def memcpy (mem : Mem) (dst : Nat) (src : List Nat) : Mem :=
  fun i => if dst ≤ i ∧ i < dst + src.length then src.getD (i - dst) 0 else mem i

/-- `memmove(dst, src, n)` inside one memory. -/
def memmove (mem : Mem) (dst src n : Nat) : Mem :=
  fun i => if dst ≤ i ∧ i < dst + n then mem (src + (i - dst)) else mem i

/-- The bytes a `string_ref(data, size)` into the memory covers. -/
def string_ref (mem : Mem) (data size : Nat) : List Nat :=
  (List.range size).map fun i => mem (data + i)

/-! ## Constants of `fastcgi.h` -/

/-- Modelled from the spec: `fastcgi.h` is not among the sources; the protocol version
constant has value 1 (spec §6). -/
abbrev FCGI_VERSION_1 : Nat := 1
/-- Modelled from the spec: record type 1 = BEGIN_REQUEST (spec §6). -/
abbrev FCGI_BEGIN_REQUEST : Nat := 1
/-- Modelled from the spec: record type 3 = END_REQUEST (spec §6). -/
abbrev FCGI_END_REQUEST : Nat := 3
/-- Modelled from the spec: record type 4 = PARAMS (spec §6). -/
abbrev FCGI_PARAMS : Nat := 4
/-- Modelled from the spec: record type 5 = STDIN (spec §6). -/
abbrev FCGI_STDIN : Nat := 5
/-- Modelled from the spec: record type 6 = STDOUT (spec §6). -/
abbrev FCGI_STDOUT : Nat := 6
/-- Modelled from the spec: record type 7 = STDERR (spec §6). -/
abbrev FCGI_STDERR : Nat := 7
/-- Modelled from the spec: the upper sentinel of the record types; `fastcgi.h`
defines it as `FCGI_UNKNOWN_TYPE`, 11. -/
abbrev FCGI_MAXTYPE : Nat := 11
/-- Modelled from the spec: protocol status "overloaded" (spec §4.4); `fastcgi.h`
gives it the value 2. -/
abbrev FCGI_OVERLOADED : Nat := 2
/-- Modelled from the spec: the record header is 8 bytes: version, type, requestIdB1,
requestIdB0, contentLengthB1, contentLengthB0, paddingLength, reserved (spec §3, §6). -/
abbrev sizeof_FCGI_Header : Nat := 8
/-- Modelled from the spec: the begin-request body is 8 bytes: roleB1, roleB0, flags,
reserved[5] (spec §3). -/
abbrev sizeof_FCGI_BeginRequestBody : Nat := 8
/-- Modelled from the spec: the end-request body is 8 bytes: appStatusB3..B0,
protocolStatus, reserved[3] (spec §3). -/
abbrev sizeof_FCGI_EndRequestBody : Nat := 8

/-! ## `header` -/

namespace header

/-- Field `version` of the header at `h`. -/
def version (mem : Mem) (h : Nat) : Nat := mem h
/-- Field `type` of the header at `h`. -/
def type (mem : Mem) (h : Nat) : Nat := mem (h + 1)
/-- Field `paddingLength` of the header at `h`. -/
def paddingLength (mem : Mem) (h : Nat) : Nat := mem (h + 6)

/-- `uint16_t header::size() const`. -/
def size (mem : Mem) (h : Nat) : Nat :=
  (mem (h + 4) * 256 + mem (h + 5)) % 65536

/-- `void header::size(uint16_t s, uint8_t p)`. -/
def set_size_p (mem : Mem) (h s p : Nat) : Mem :=
  let s := s % 65536
  let p := p % 256
  store (store (store mem (h + 4) (s / 256)) (h + 5) (s % 256)) (h + 6) p

/-- `void header::size(uint16_t s)`. -/
def set_size (mem : Mem) (h s : Nat) : Mem :=
  let s := s % 65536
  set_size_p mem h s ((8 - s % 8) % 8)

/-- `char* header::data()`. -/
def data (h : Nat) : Nat := h + sizeof_FCGI_Header

/-- `string_ref header::str() const`. -/
def str (mem : Mem) (h : Nat) : List Nat := string_ref mem (data h) (size mem h)

/-- `void header::str(const string_ref& s)`. -/
def set_str (mem : Mem) (h : Nat) (s : List Nat) : Mem :=
  set_size (memcpy mem (data h) s) h s.length

/-- `uint16_t header::id() const`. -/
def id (mem : Mem) (h : Nat) : Nat :=
  (mem (h + 2) * 256 + mem (h + 3)) % 65536

/-- `void header::id(uint16_t r)`. -/
def set_id (mem : Mem) (h r : Nat) : Mem :=
  let r := r % 65536
  store (store mem (h + 2) (r / 256)) (h + 3) (r % 256)

/-- `header* header::next()`. -/
def next (mem : Mem) (h : Nat) : Nat := data h + size mem h + paddingLength mem h

/-- `void header::merge_next()`. -/
def merge_next (mem : Mem) (h : Nat) : Mem :=
  let l := size mem h
  let n := next mem h
  let nl := size mem n
  let np := (paddingLength mem h + paddingLength mem n + sizeof_FCGI_Header) % 256
  set_size_p (memmove mem (data h + l) (data n) nl) h (l + nl) np

/-- `void header::append(const string_ref& str)`. -/
def append (mem : Mem) (h : Nat) (str : List Nat) : Mem :=
  let s := size mem h
  set_size (memcpy mem (data h + s) str) h (s + str.length)

/-- `bool header::valid() const`. -/
def valid (mem : Mem) (h : Nat) : Bool :=
  version mem h == FCGI_VERSION_1 && decide (type mem h ≥ FCGI_BEGIN_REQUEST)
    && decide (type mem h < FCGI_MAXTYPE)

end header

/-! ## `begin_request_body`, `end_request_body` -/

namespace begin_request_body

/-- `unsigned int begin_request_body::role() const`. -/
def role (mem : Mem) (b : Nat) : Nat := mem b * 256 + mem (b + 1)

/-- `void begin_request_body::role(unsigned int r)`. -/
def set_role (mem : Mem) (b r : Nat) : Mem :=
  store (store mem b (r / 256)) (b + 1) (r % 256)

/-- Field `flags` of the body at `b`. -/
def flags (mem : Mem) (b : Nat) : Nat := mem (b + 2)

end begin_request_body

namespace end_request_body

/-- `unsigned int end_request_body::app_status() const`. -/
def app_status (mem : Mem) (b : Nat) : Nat :=
  (mem b * 2 ^ 24 + mem (b + 1) * 2 ^ 16 + mem (b + 2) * 2 ^ 8 + mem (b + 3)) % 2 ^ 32

/-- `void end_request_body::app_status(unsigned int s)`. -/
def set_app_status (mem : Mem) (b s : Nat) : Mem :=
  store (store (store (store mem b (s / 2 ^ 24)) (b + 1) (s / 2 ^ 16)) (b + 2) (s / 2 ^ 8))
    (b + 3) (s % 256)

/-- Field `protocolStatus` of the body at `b`. -/
def protocolStatus (mem : Mem) (b : Nat) : Nat := mem (b + 4)

end end_request_body

/-! ## `param` -/

namespace param

/-- `const param& param::read(size_t& s) const`: the decoded length and the position
after the length prefix. -/
def read_len (mem : Mem) (d : Nat) : Nat × Nat :=
  if mem d / 128 ≠ 0 then
    ((mem d % 128) * 2 ^ 24 + mem (d + 1) * 2 ^ 16 + mem (d + 2) * 2 ^ 8 + mem (d + 3), d + 4)
  else
    (mem d, d + 1)

/-- `const param& param::read(string_ref& s, size_t size) const`: the bytes referred
to and the position after them. -/
def read_str (mem : Mem) (d size : Nat) : List Nat × Nat :=
  (string_ref mem d size, d + size)

/-- `param& param::write(size_t s)`: the new memory and the position after the
length prefix. -/
def write_len (mem : Mem) (d s : Nat) : Mem × Nat :=
  if s ≤ 127 then
    (store mem d (s % 128), d + 1)
  else
    (store (store (store (store mem d (128 ||| (s / 2 ^ 24))) (d + 1) (s / 2 ^ 16))
      (d + 2) (s / 2 ^ 8)) (d + 3) (s % 256), d + 4)

/-- `param& param::write(const string_ref& s)`. -/
def write_str (mem : Mem) (d : Nat) (s : List Nat) : Mem × Nat :=
  (memcpy mem d s, d + s.length)

/-- `const param& param::read(string_ref& name, string_ref& value) const`: name,
value and the position after the entry. -/
def read (mem : Mem) (d : Nat) : List Nat × List Nat × Nat :=
  let r1 := read_len mem d
  let r2 := read_len mem r1.2
  let n := read_str mem r2.2 r1.1
  let v := read_str mem n.2 r2.1
  (n.1, v.1, v.2)

/-- `param& param::write(const string_ref& name, const string_ref& value)`. -/
def write (mem : Mem) (d : Nat) (name value : List Nat) : Mem × Nat :=
  let w1 := write_len mem d name.length
  let w2 := write_len w1.1 w1.2 value.length
  let w3 := write_str w2.1 w2.2 name
  write_str w3.1 w3.2 value

/-- `size_t param::size() const` for a 64 bit `size_t`: the sum `res.data() - start +
name_len + value_len` is a `size_t` and wraps modulo `2^64`. -/
def size (mem : Mem) (d : Nat) : Nat :=
  let r1 := read_len mem d
  let r2 := read_len mem r1.2
  (r2.2 - d + r1.1 + r2.1) % 2 ^ 64

/-- `const param* param::next() const`. -/
def next (mem : Mem) (d : Nat) : Nat := d + size mem d

/-- `size_t param::size() const` on a target whose `size_t` has `w` bits: the sum
`res.data() - start + name_len + value_len` wraps modulo `2^w`. -/
def size_w (w : Nat) (mem : Mem) (d : Nat) : Nat :=
  let r1 := read_len mem d
  let r2 := read_len mem r1.2
  (r2.2 - d + r1.1 + r2.1) % 2 ^ w

/-- `const param* param::next() const` with a `w` bit `size_t`. -/
def next_w (w : Nat) (mem : Mem) (d : Nat) : Nat := d + size_w w mem d

end param

/-! ## `const_params`, `const_message` -/

/-- `class const_params`: the borrowed byte range `buf_` as start offset and size. -/
structure const_params where
  buf_data : Nat
  buf_size : Nat

namespace const_params

/-- `class const_params::iterator`: current position `p_` and end boundary `e_`. -/
structure iterator where
  p_ : Nat
  e_ : Nat
deriving DecidableEq

namespace iterator

/-- `bool not_valid() const`; the difference `e_ - p_` of two `const param*` counts
objects of `sizeof(param) = 2` bytes. -/
def not_valid (mem : Mem) (i : iterator) : Bool :=
  decide (i.p_ ≥ i.e_) || decide ((i.e_ - i.p_) / 2 < 1) || decide (param.next mem i.p_ > i.e_)

/-- `bool valid() const`. -/
def valid (mem : Mem) (i : iterator) : Bool := !not_valid mem i

/-- `iterator& operator++()`. -/
def incr (mem : Mem) (i : iterator) : iterator := { i with p_ := param.next mem i.p_ }

/-- `bool operator==(const iterator& a) const`. -/
def eq (mem : Mem) (i a : iterator) : Bool :=
  decide (i.p_ = a.p_) || (not_valid mem i && not_valid mem a)

/-- `bool operator!=(const iterator& a) const`. -/
def ne (mem : Mem) (i a : iterator) : Bool :=
  decide (i.p_ ≠ a.p_) && (valid mem i || valid mem a)

end iterator

/-- `iterator begin() const`. -/
def begin_ (c : const_params) : iterator :=
  { p_ := c.buf_data, e_ := c.buf_data + c.buf_size }

/-- `iterator end() const`. -/
def end_ (c : const_params) : iterator :=
  { p_ := c.buf_data + c.buf_size, e_ := c.buf_data + c.buf_size }

/-- The loop `for (i = p.begin(); i != p.end(); ++i) { i->read(name, value); ... }` of
`process_conn` (server.cpp) and of the synopsis, started at position `i`: the pairs
read, or `none` when `fuel` iterations did not reach the end. -/
def loop (mem : Mem) (e : iterator) : Nat → iterator → Option (List (List Nat × List Nat))
  | 0, _ => none
  | fuel + 1, i =>
    if iterator.ne mem i e then
      (loop mem e fuel (iterator.incr mem i)).map
        (fun rest => ((param.read mem i.p_).1, (param.read mem i.p_).2.1) :: rest)
    else some []

/-- The whole loop over a `const_params`, from `begin()` with `end()` as bound. -/
def read_all (mem : Mem) (c : const_params) (fuel : Nat) :
    Option (List (List Nat × List Nat)) :=
  loop mem (end_ c) fuel (begin_ c)

end const_params

/-- `class const_message`: the borrowed byte range `buf_` as start offset and size. -/
structure const_message where
  buf_data : Nat
  buf_size : Nat

namespace const_message

/-- `class const_message::iterator`: current position `h_` and end boundary `e_`. -/
structure iterator where
  h_ : Nat
  e_ : Nat
deriving DecidableEq

namespace iterator

/-- `bool not_valid() const`; the difference `e_ - h_` of two `const header*` counts
objects of `sizeof(header) = 8` bytes. -/
def not_valid (mem : Mem) (i : iterator) : Bool :=
  decide (i.h_ ≥ i.e_) || decide ((i.e_ - i.h_) / 8 < 1) || decide (header.next mem i.h_ > i.e_)

/-- `bool valid() const`. -/
def valid (mem : Mem) (i : iterator) : Bool := !not_valid mem i

/-- `iterator& operator++()`. -/
def incr (mem : Mem) (i : iterator) : iterator := { i with h_ := header.next mem i.h_ }

/-- `bool operator==(const iterator& a) const`. -/
def eq (mem : Mem) (i a : iterator) : Bool :=
  decide (i.h_ = a.h_) || (not_valid mem i && not_valid mem a)

/-- `bool operator!=(const iterator& a) const`. -/
def ne (mem : Mem) (i a : iterator) : Bool :=
  decide (i.h_ ≠ a.h_) && (valid mem i || valid mem a)

end iterator

/-- `iterator begin() const`. -/
def begin_ (c : const_message) : iterator :=
  { h_ := c.buf_data, e_ := c.buf_data + c.buf_size }

/-- `iterator end() const`. -/
def end_ (c : const_message) : iterator :=
  { h_ := c.buf_data + c.buf_size, e_ := c.buf_data + c.buf_size }

/-- The loop `for (i = m.begin(); i != m.end(); ++i) { ... *i ... }` of client.cpp,
server.cpp and the synopsis, started at position `i`: the offsets of the headers
visited, or `none` when `fuel` iterations did not reach the end. -/
def loop (mem : Mem) (e : iterator) : Nat → iterator → Option (List Nat)
  | 0, _ => none
  | fuel + 1, i =>
    if iterator.ne mem i e then
      (loop mem e fuel (iterator.incr mem i)).map (fun rest => i.h_ :: rest)
    else some []

/-- The whole loop over a `const_message`, from `begin()` with `end()` as bound. -/
def records (mem : Mem) (c : const_message) (fuel : Nat) : Option (List Nat) :=
  loop mem (end_ c) fuel (begin_ c)

end const_message

/-- The second loop of `process_conn` (server.cpp lines 54-73) restricted to what it
decodes: every record of the range is visited, and for a `FCGI_PARAMS` record
`const_params p(i->str())` is traversed and each entry read.  The result lists the
(name, value) pairs in the order they are read. -/
def process_conn_params (mem : Mem) (c : const_message) (fuel : Nat) :
    Option (List (List Nat × List Nat)) :=
  (const_message.records mem c fuel).bind fun hs =>
    hs.foldr (fun h acc =>
      if header.type mem h = FCGI_PARAMS then
        (const_params.read_all mem ⟨header.data h, header.size mem h⟩ fuel).bind
          fun ps => acc.map fun rest => ps ++ rest
      else acc) (some [])

/-! ## `message` -/

/-- `class message`: `buf_` is the memory seen from the bound buffer, `cur_header_`
the offset of the current header in it. -/
structure message where
  id_ : Nat
  buf_ : Mem
  capacity_ : Nat
  cur_header_ : Nat
  good_ : Bool
  terminated_ : Bool

namespace message

/-- The constructor `message::message(uint16_t id, char* buf, size_t capacity)`. -/
def new (id : Nat) (buf : Mem) (capacity : Nat) : message :=
  { id_ := id
    buf_ := store buf (0 + 1) 0
    capacity_ := capacity
    cur_header_ := 0
    good_ := decide (capacity ≥ sizeof_FCGI_Header + sizeof_FCGI_EndRequestBody)
    terminated_ := false }

/-- `void message::clear()`. -/
def clear (m : message) : message :=
  { m with
    cur_header_ := 0
    buf_ := store m.buf_ (0 + 1) 0
    good_ := decide (m.capacity_ ≥ sizeof_FCGI_Header + sizeof_FCGI_EndRequestBody)
    terminated_ := false }

/-- `message& message::id(uint16_t id)`. -/
def set_id (m : message) (id : Nat) : message := { m with id_ := id }

/-- `size_t message::size() const`. -/
def size (m : message) : Nat :=
  if header.type m.buf_ m.cur_header_ ≠ 0 then header.next m.buf_ m.cur_header_
  else m.cur_header_

/-- `const string_ref message::str() const`, as the byte range it covers. -/
def str (m : message) : const_message := { buf_data := 0, buf_size := m.size }

/-- `bool message::good() const`. -/
def good (m : message) : Bool := m.good_

/-- `char* message::terminator() const`, as a signed offset from `buf_`. -/
def terminator (m : message) : Int :=
  let res : Int := (m.capacity_ : Int) - sizeof_FCGI_Header
  if header.type m.buf_ 0 ≠ FCGI_BEGIN_REQUEST then res - sizeof_FCGI_EndRequestBody
  else res

/-- The number of trailing bytes `terminator()` withholds: `capacity_ - reserve` is
the offset `terminator()` returns. -/
def reserve (m : message) : Nat :=
  if header.type m.buf_ 0 ≠ FCGI_BEGIN_REQUEST then
    sizeof_FCGI_Header + sizeof_FCGI_EndRequestBody
  else sizeof_FCGI_Header

/-- Lines 633-636 of `message::add_header`: the header under `cur_header_` is
initialised and returned. -/
def open_header (m : message) (type size : Nat) : message × Option Nat :=
  let b1 := store m.buf_ (m.cur_header_ + 1) type
  let b2 := header.set_id b1 m.cur_header_ m.id_
  let b3 := store b2 m.cur_header_ FCGI_VERSION_1
  let b4 := header.set_size b3 m.cur_header_ size
  ({ m with buf_ := b4 }, some m.cur_header_)

/-- `header* message::add_header(unsigned char type, bool force, size_t size)`; the
call `overflow()` is the parameter `ovf`.  The result is the message afterwards and
the returned pointer (`none` for the null pointer). -/
def add_header_with (ovf : message → message) (m : message) (type : Nat) (force : Bool)
    (size : Nat) : message × Option Nat :=
  if m.good_ = false then (m, none)
  else if m.terminated_ = true then
    if type = FCGI_END_REQUEST ∨ type = FCGI_STDIN then (m, some m.cur_header_)
    else ({ m with good_ := false }, none)
  else if header.type m.buf_ m.cur_header_ ≠ type ∨ force = true then
    if header.type m.buf_ m.cur_header_ ≠ 0 then
      let n := header.next m.buf_ m.cur_header_
      if type = FCGI_END_REQUEST ∨ type = FCGI_STDIN then
        if (n : Int) > m.terminator then ({ m with good_ := false }, none)
        else open_header { m with cur_header_ := n } type size
      else
        if (n : Int) > m.terminator - sizeof_FCGI_Header - size then (ovf m, none)
        else open_header { m with cur_header_ := n } type size
    else open_header m type size
  else (m, some m.cur_header_)

/-- `message& message::begin_request(unsigned int role, unsigned char flags)`, with
`overflow()` as parameter. -/
def begin_request_with (ovf : message → message) (m : message) (role flags : Nat) : message :=
  let r := add_header_with ovf m FCGI_BEGIN_REQUEST true sizeof_FCGI_BeginRequestBody
  match r.2 with
  | some h =>
    let b1 := begin_request_body.set_role r.1.buf_ (header.data h) role
    { r.1 with buf_ := store b1 (header.data h + 2) flags }
  | none => r.1

/-- `message& message::end_request(unsigned int app_status, unsigned char
proto_status)`, with `overflow()` as parameter. -/
def end_request_with (ovf : message → message) (m : message) (app_status proto_status : Nat) :
    message :=
  let r := add_header_with ovf m FCGI_END_REQUEST true sizeof_FCGI_EndRequestBody
  match r.2 with
  | some h =>
    let b1 := end_request_body.set_app_status r.1.buf_ (header.data h) app_status
    { r.1 with buf_ := store b1 (header.data h + 4) proto_status }
  | none => r.1

/-- `message& message::end_stream(unsigned char type)`, with `overflow()` as
parameter. -/
def end_stream_with (ovf : message → message) (m : message) (type : Nat) : message :=
  let r := add_header_with ovf m type false 0
  let r2 : message × Option Nat :=
    match r.2 with
    | some h => if header.size r.1.buf_ h ≠ 0 then add_header_with ovf r.1 type true 0 else r
    | none => r
  match r2.2 with
  | some _ => if type = FCGI_STDIN then { r2.1 with terminated_ := true } else r2.1
  | none => r2.1

/-- `void message::overflow()`.  The source is mutually recursive (`add_header` calls
`overflow`, which calls `end_stream` or `end_request`, which call `add_header`); the
recursion is unrolled with a depth counter.  `overflow_fuel_succ` below shows that
depth 1 is already the fixed point: the inner `add_header` is entered with
`FCGI_STDIN` or `FCGI_END_REQUEST`, for which it never calls `overflow`. -/
def overflow_fuel : Nat → message → message
  | 0, m => m
  | k + 1, m =>
    if m.good_ = false then m
    else
      let m1 :=
        if header.type m.buf_ 0 = FCGI_BEGIN_REQUEST then
          end_stream_with (overflow_fuel k) m FCGI_STDIN
        else
          end_request_with (overflow_fuel k) m 0 FCGI_OVERLOADED
      { m1 with good_ := false }

/-- `void message::overflow()`. -/
def overflow (m : message) : message := overflow_fuel 2 m

/-- `header* message::add_header(unsigned char type, bool force = false, size_t size = 0)`. -/
def add_header (m : message) (type : Nat) (force : Bool) (size : Nat) : message × Option Nat :=
  add_header_with overflow m type force size

/-- `message& message::begin_request(unsigned int role, unsigned char flags)`. -/
def begin_request (m : message) (role flags : Nat) : message :=
  begin_request_with overflow m role flags

/-- `message& message::end_request(unsigned int app_status, unsigned char proto_status)`. -/
def end_request (m : message) (app_status proto_status : Nat) : message :=
  end_request_with overflow m app_status proto_status

/-- `message& message::end_stream(unsigned char type)`. -/
def end_stream (m : message) (type : Nat) : message :=
  end_stream_with overflow m type

/-- `message& message::append(unsigned char type, const string_ref& str)`. -/
def append (m : message) (type : Nat) (str : List Nat) : message :=
  let r := add_header m type false 0
  match r.2 with
  | some h =>
    if ((header.data h + header.size r.1.buf_ h + str.length : Nat) : Int) > r.1.terminator then
      overflow r.1
    else { r.1 with buf_ := header.append r.1.buf_ h str }
  | none => r.1

/-- `message& message::add_param(const string_ref& name, const string_ref& value)`. -/
def add_param (m : message) (name value : List Nat) : message :=
  let r := add_header m FCGI_PARAMS false 0
  match r.2 with
  | some h =>
    if ((header.data h + header.size r.1.buf_ h + name.length + value.length : Nat) : Int)
        > r.1.terminator then
      overflow r.1
    else
      let p := header.data h + header.size r.1.buf_ h
      let b1 := (param.write r.1.buf_ p name value).1
      { r.1 with buf_ := header.set_size b1 h (header.size b1 h + param.size b1 p) }
  | none => r.1

end message

/-- Zero-filled memory, for concrete runs. -/
def zero_mem : Mem := fun _ => 0

/-! ## The run of claim C1 -/

/-- The memory of the run of claim C1 after `begin_request(1, 1)` on the fresh message. -/
def c1_buf1 (buf : Mem) : Mem :=
  store (store (store (store (store (store (store (store (store (store (store buf 1 0) 1 1) 2 0)
    3 1) 0 1) 4 0) 5 8) 6 0) 8 0) 9 1) 10 1

/-- The memory of the run of claim C1 after `add_param("A", "1")`. -/
def c1_buf2 (buf : Mem) : Mem :=
  store (store (store (memcpy (memcpy (store (store (store (store (store (store (store (store
    (store (c1_buf1 buf) 17 4) 18 0) 19 1) 16 1) 20 0) 21 0) 22 0) 24 1) 25 1) 26 [65]) 27 [49])
    20 0) 21 4) 22 4

/-- The memory of the run of claim C1 after `add_param("B", "2")`. -/
def c1_buf3 (buf : Mem) : Mem :=
  store (store (store (memcpy (memcpy (store (store (c1_buf2 buf) 28 1) 29 1) 30 [66]) 31 [50])
    20 0) 21 8) 22 0

/-- The memory of the run of claim C1 after `append(FCGI_STDIN, "x")`. -/
def c1_buf4 (buf : Mem) : Mem :=
  store (store (store (memcpy (store (store (store (store (store (store (store (c1_buf3 buf) 33
    5) 34 0) 35 1) 32 1) 36 0) 37 0) 38 0) 40 [120]) 36 0) 37 1) 38 7

/-- The memory of the run of claim C1 after `append(FCGI_STDIN, "y")`. -/
def c1_buf5 (buf : Mem) : Mem :=
  store (store (store (memcpy (c1_buf4 buf) 41 [121]) 36 0) 37 2) 38 6

/-- The memory of the run of claim C1 after `end_stream(FCGI_STDIN)`. -/
def c1_buf6 (buf : Mem) : Mem :=
  store (store (store (store (store (store (store (c1_buf5 buf) 49 5) 50 0) 51 1) 48 1) 52 0) 53
    0) 54 0

/-- The message of claim C1: the build sequence of client.cpp (lines 50-58) on a 64 KiB
buffer with request id 1, with the parameters ("A","1"), ("B","2") and the STDIN
fragments "x" and "y". -/
def round_trip_request (buf : Mem) : message :=
  ((((((message.new 1 buf 65536).begin_request 1 1).add_param [65] [49]).add_param [66] [50]).append
    FCGI_STDIN [120]).append FCGI_STDIN [121]).end_stream FCGI_STDIN

/-! ## The parameter encoding, as sizes and as a layout in memory -/

/-- The number of bytes `param::write(size_t)` emits for the length `L`. -/
def enc_len (L : Nat) : Nat := if L ≤ 127 then 1 else 4

/-- The number of bytes `param::write(name, value)` emits for one pair. -/
def entry_size (p : List Nat × List Nat) : Nat :=
  enc_len p.1.length + enc_len p.2.length + p.1.length + p.2.length

/-- The total encoded size of a sequence of pairs. -/
def total_size (ps : List (List Nat × List Nat)) : Nat := (ps.map entry_size).sum

/-- The memory holds at `d` an encoded length that `param::read(size_t&)` decodes to
`L`, stopping after `enc_len L` bytes. -/
def LenAt (mem : Mem) (d L : Nat) : Prop := param.read_len mem d = (L, d + enc_len L)

/-- The memory holds at `d` the encoding of the pair `p`: both lengths, then the name
bytes, then the value bytes. -/
def EntryAt (mem : Mem) (d : Nat) (p : List Nat × List Nat) : Prop :=
  LenAt mem d p.1.length ∧ LenAt mem (d + enc_len p.1.length) p.2.length ∧
  string_ref mem (d + enc_len p.1.length + enc_len p.2.length) p.1.length = p.1 ∧
  string_ref mem (d + enc_len p.1.length + enc_len p.2.length + p.1.length) p.2.length = p.2

/-- The memory holds from `d` on the encodings of the pairs `ps`, back to back. -/
def ParamsAt (mem : Mem) : Nat → List (List Nat × List Nat) → Prop
  | _, [] => True
  | d, p :: ps => EntryAt mem d p ∧ ParamsAt mem (d + entry_size p) ps

/-- The calls `add_param(name, value)` for each pair of `ps`, in order. -/
def add_params (m : message) (ps : List (List Nat × List Nat)) : message :=
  ps.foldl (fun m p => m.add_param p.1 p.2) m

/-- The state in which the builder holds one open PARAMS record at offset 0 whose
content is the encoding of `ps`. -/
def ParamsOpen (m : message) (ps : List (List Nat × List Nat)) : Prop :=
  m.good_ = true ∧ m.terminated_ = false ∧ m.cur_header_ = 0 ∧
  header.type m.buf_ 0 = FCGI_PARAMS ∧ header.size m.buf_ 0 = total_size ps ∧
  ParamsAt m.buf_ 8 ps

/-! ## Vocabulary of the coalescing law -/

/-- The content the current record already holds when it has type `t`; nothing when
the current record has another type (or no record is open), as then `append(t, ...)`
opens a new record. -/
def prior_content (m : message) (t : Nat) : List Nat :=
  if header.type m.buf_ m.cur_header_ = t then header.str m.buf_ m.cur_header_ else []

/-- In the later state `m3` the record that was current in `m1` is complete and
unchanged, with type `t` and content `ca`, and the current record of `m3` is a later
record of type `t` that starts at or after its end and whose content is `cb`. -/
def separate_records (m1 m3 : message) (t : Nat) (ca cb : List Nat) : Prop :=
  m1.cur_header_ < m3.cur_header_ ∧
  header.next m3.buf_ m1.cur_header_ ≤ m3.cur_header_ ∧
  header.type m3.buf_ m1.cur_header_ = t ∧
  header.str m3.buf_ m1.cur_header_ = ca ∧
  header.type m3.buf_ m3.cur_header_ = t ∧
  header.str m3.buf_ m3.cur_header_ = cb

/-! ## Vocabulary of the later claims -/

/-- The bytes the length prefix of `L` consists of, as spec §4.3 words it: one byte `L`
when `L ≤ 127`, otherwise four bytes big-endian with the high bit of the first byte
forced to 1. -/
def enc (L : Nat) : List Nat :=
  if L ≤ 127 then [L] else [128 + L / 2 ^ 24, L / 2 ^ 16 % 256, L / 2 ^ 8 % 256, L % 256]

/-- The position a `const_message` traversal is at after `n` increments from
`begin()`. -/
def const_message.position (mem : Mem) (c : const_message) : Nat → const_message.iterator
  | 0 => c.begin_
  | n + 1 => (const_message.position mem c n).incr mem

/-- The position a `const_params` traversal is at after `n` increments from
`begin()`. -/
def const_params.position (mem : Mem) (c : const_params) : Nat → const_params.iterator
  | 0 => c.begin_
  | n + 1 => (const_params.position mem c n).incr mem

/-- The offsets `hs` are linked records: the first starts at `h`, each next one starts
where `header::next()` of the one before points, and the last one ends at `e`. -/
def Linked (mem : Mem) : Nat → List Nat → Nat → Prop
  | h, [], e => h = e
  | h, r :: rs, e => r = h ∧ Linked mem (header.next mem h) rs e

/-- The header at `h` is `valid()`, carries the request id `id` and has the padding
`header::size(uint16_t)` computes for its content length. -/
def GoodRec (mem : Mem) (id h : Nat) : Prop :=
  header.valid mem h = true ∧ header.id mem h = id ∧
  header.paddingLength mem h = (8 - header.size mem h % 8) % 8

/-- The invariant of the builder: either nothing is written yet (the current header is
the first one and carries the type marker 0), or the records before the current header
are linked from offset 0 up to it and they and the current record are well formed. -/
def WellFormed (m : message) (id : Nat) : Prop :=
  m.id_ = id ∧
  ((m.cur_header_ = 0 ∧ header.type m.buf_ 0 = 0) ∨
    ∃ hs, Linked m.buf_ 0 hs m.cur_header_ ∧ (∀ h ∈ hs, GoodRec m.buf_ id h) ∧
      GoodRec m.buf_ id m.cur_header_)

/-- One call of the public interface of `message` that changes the message; the `id()`
setter is left out. -/
inductive call where
  | begin_request (role flags : Nat)
  | end_request (app_status proto_status : Nat)
  | append (type : Nat) (str : List Nat)
  | end_stream (type : Nat)
  | add_param (name value : List Nat)
  | clear

/-- The record type a call passes is in the valid range `[1, FCGI_MAXTYPE)`. -/
def call.in_range : call → Bool
  | .append t _ => decide (1 ≤ t) && decide (t < FCGI_MAXTYPE)
  | .end_stream t => decide (1 ≤ t) && decide (t < FCGI_MAXTYPE)
  | _ => true

/-- The message after one call. -/
def message.perform (m : message) : call → message
  | .begin_request role flags => m.begin_request role flags
  | .end_request app_status proto_status => m.end_request app_status proto_status
  | .append type str => m.append type str
  | .end_stream type => m.end_stream type
  | .add_param name value => m.add_param name value
  | .clear => m.clear

/-- The message after a sequence of calls, in order. -/
def message.run (m : message) (cs : List call) : message := cs.foldl message.perform m

/-! ## The parameter reader for a `size_t` of `w` bits -/

namespace const_params

namespace iterator

/-- `bool not_valid() const` with a `w` bit `size_t`. -/
def not_valid_w (w : Nat) (mem : Mem) (i : iterator) : Bool :=
  decide (i.p_ ≥ i.e_) || decide ((i.e_ - i.p_) / 2 < 1) ||
    decide (param.next_w w mem i.p_ > i.e_)

/-- `bool valid() const` with a `w` bit `size_t`. -/
def valid_w (w : Nat) (mem : Mem) (i : iterator) : Bool := !not_valid_w w mem i

/-- `iterator& operator++()` with a `w` bit `size_t`. -/
def incr_w (w : Nat) (mem : Mem) (i : iterator) : iterator :=
  { i with p_ := param.next_w w mem i.p_ }

/-- `bool operator!=(const iterator& a) const` with a `w` bit `size_t`. -/
def ne_w (w : Nat) (mem : Mem) (i a : iterator) : Bool :=
  decide (i.p_ ≠ a.p_) && (valid_w w mem i || valid_w w mem a)

end iterator

/-- The loop `for (i = p.begin(); i != p.end(); ++i) { i->read(name, value); ... }` with
a `w` bit `size_t`, started at position `i`: the pairs read, or `none` when `fuel`
iterations did not reach the end. -/
def loop_w (w : Nat) (mem : Mem) (e : iterator) :
    Nat → iterator → Option (List (List Nat × List Nat))
  | 0, _ => none
  | fuel + 1, i =>
    if iterator.ne_w w mem i e then
      (loop_w w mem e fuel (iterator.incr_w w mem i)).map
        (fun rest => ((param.read mem i.p_).1, (param.read mem i.p_).2.1) :: rest)
    else some []

/-- The whole loop over a `const_params` with a `w` bit `size_t`. -/
def read_all_w (w : Nat) (mem : Mem) (c : const_params) (fuel : Nat) :
    Option (List (List Nat × List Nat)) :=
  loop_w w mem (end_ c) fuel (begin_ c)

end const_params

/-- The memory that holds the byte string `bs` from offset 0 on and zeros behind it. -/
def bytes_mem (bs : List Nat) : Mem := fun i => bs.getD i 0

/-- Every cell of the memory holds a byte. -/
def ByteMem (mem : Mem) : Prop := ∀ i, mem i < 256

/-! ## Fitting below the reservation -/

/-- The header `append(t, ...)` writes into: the current header when it already has
type `t`, otherwise the header opened at `size()` (the end of the current record, or
the start of the buffer of a message with nothing written). -/
def message.record_of (m : message) (t : Nat) : Nat :=
  if header.type m.buf_ m.cur_header_ = t then m.cur_header_ else m.size

/-- The trailing bytes `terminator()` withholds once a record of type `t` is written:
on a message with nothing written the new record decides (8 for `FCGI_BEGIN_REQUEST`,
16 otherwise), later the first record does. -/
def message.reserve_for (m : message) (t : Nat) : Nat :=
  if m.size = 0 then
    if t ≠ FCGI_BEGIN_REQUEST then sizeof_FCGI_Header + sizeof_FCGI_EndRequestBody
    else sizeof_FCGI_Header
  else m.reserve

/-- The test of `append(t, str)` with `n = str.size()`, as the caller can state it
before the call: the end of the payload, `h->data() + h->size() + n` for the header
`h` the call writes into, is not beyond `terminator()`. -/
def message.fits (m : message) (t n : Nat) : Bool :=
  decide (header.data (m.record_of t) + (prior_content m t).length + n + m.reserve_for t
    ≤ m.capacity_)

/-- The test of `add_header` for a new record of type `t` with `n` content bytes behind
the current record, as the caller can state it before the call: `size() <=
terminator()` for `FCGI_END_REQUEST` and `FCGI_STDIN`, `size() + 8 + n <=
terminator()` for the other types. -/
def message.room (m : message) (t n : Nat) : Bool :=
  if t = FCGI_END_REQUEST ∨ t = FCGI_STDIN then decide (m.size + m.reserve ≤ m.capacity_)
  else decide (m.size + 8 + n + m.reserve ≤ m.capacity_)

/-! ## Memory and header lemmas -/

theorem store_apply (mem : Mem) (a v i : Nat) :
    store mem a v i = if i = a then v % 256 else mem i := rfl

theorem memcpy_apply (mem : Mem) (dst : Nat) (src : List Nat) (i : Nat) :
    memcpy mem dst src i =
      if dst ≤ i ∧ i < dst + src.length then src.getD (i - dst) 0 else mem i := rfl

theorem string_ref_length (mem : Mem) (d n : Nat) : (string_ref mem d n).length = n := by
  simp [string_ref]

theorem string_ref_getD (mem : Mem) (d n i : Nat) (h : i < n) :
    (string_ref mem d n).getD i 0 = mem (d + i) := by
  simp [string_ref, List.getD_eq_getElem?_getD, h]

theorem string_ref_congr (mem mem' : Mem) (d n : Nat)
    (h : ∀ i, d ≤ i → i < d + n → mem' i = mem i) :
    string_ref mem' d n = string_ref mem d n := by
  unfold string_ref
  apply List.map_congr_left
  intro i hi
  exact h _ (by omega) (by have := List.mem_range.mp hi; omega)

theorem string_ref_memcpy (mem : Mem) (d : Nat) (s : List Nat) :
    string_ref (memcpy mem d s) d s.length = s := by
  apply List.ext_getElem
  · simp [string_ref]
  · intro i h1 h2
    simp only [string_ref, List.getElem_map, List.getElem_range, memcpy_apply]
    have : d ≤ d + i ∧ d + i < d + s.length := by omega
    simp [this, List.getD_eq_getElem?_getD, h2]

theorem string_ref_add (mem : Mem) (d a b : Nat) :
    string_ref mem d (a + b) = string_ref mem d a ++ string_ref mem (d + a) b := by
  unfold string_ref
  rw [List.range_add, List.map_append, List.map_map]
  congr 1
  apply List.map_congr_left
  intro i _
  simp [Nat.add_assoc]

namespace header

theorem size_set_size_p (mem : Mem) (h s p : Nat) :
    size (set_size_p mem h s p) h = s % 65536 := by
  simp only [size, set_size_p, store_apply]
  have h1 : h + 4 ≠ h + 6 := by omega
  have h2 : h + 4 ≠ h + 5 := by omega
  have h3 : h + 5 ≠ h + 6 := by omega
  simp only [h1, h2, h3, if_true, if_false]
  omega

theorem paddingLength_set_size_p (mem : Mem) (h s p : Nat) :
    paddingLength (set_size_p mem h s p) h = p % 256 := by
  simp [paddingLength, set_size_p, store_apply]

theorem set_size_p_frame (mem : Mem) (h s p i : Nat) (hi : i < h + 4 ∨ h + 7 ≤ i) :
    set_size_p mem h s p i = mem i := by
  simp only [set_size_p, store_apply]
  have h1 : i ≠ h + 6 := by omega
  have h2 : i ≠ h + 5 := by omega
  have h3 : i ≠ h + 4 := by omega
  simp [h1, h2, h3]

theorem size_set_size (mem : Mem) (h s : Nat) :
    size (set_size mem h s) h = s % 65536 := by
  simp [set_size, size_set_size_p]

theorem paddingLength_set_size (mem : Mem) (h s : Nat) :
    paddingLength (set_size mem h s) h = (8 - s % 65536 % 8) % 8 := by
  simp only [set_size, paddingLength_set_size_p]
  omega

theorem set_size_frame (mem : Mem) (h s i : Nat) (hi : i < h + 4 ∨ h + 7 ≤ i) :
    set_size mem h s i = mem i := by
  simp only [set_size]
  exact set_size_p_frame _ _ _ _ _ hi

theorem next_set_size (mem : Mem) (h s : Nat) :
    next (set_size mem h s) h = h + 8 + s % 65536 + (8 - s % 65536 % 8) % 8 := by
  simp [next, data, size_set_size, paddingLength_set_size]

theorem size_lt (mem : Mem) (h : Nat) : size mem h < 65536 := by
  unfold size
  omega

theorem size_congr (mem mem' : Mem) (h : Nat) (h4 : mem' (h + 4) = mem (h + 4))
    (h5 : mem' (h + 5) = mem (h + 5)) : size mem' h = size mem h := by
  simp [size, h4, h5]

theorem set_id_frame (mem : Mem) (h r i : Nat) (hi : i < h + 2 ∨ h + 4 ≤ i) :
    set_id mem h r i = mem i := by
  simp only [set_id, store_apply]
  have h1 : i ≠ h + 3 := by omega
  have h2 : i ≠ h + 2 := by omega
  simp [h1, h2]

theorem id_set_id (mem : Mem) (h r : Nat) : id (set_id mem h r) h = r % 65536 := by
  simp only [id, set_id, store_apply]
  have h1 : h + 2 ≠ h + 3 := by omega
  simp only [h1, if_true, if_false]
  omega

end header

/-! ## The recursion between `add_header` and `overflow` -/
theorem add_header_with_stream (ovf ovf' : message → message) (m : message) (type : Nat)
    (force : Bool) (size : Nat) (ht : type = FCGI_END_REQUEST ∨ type = FCGI_STDIN) :
    message.add_header_with ovf m type force size = message.add_header_with ovf' m type force size := by
  unfold message.add_header_with
  simp only [if_pos ht]

theorem end_stream_with_stdin (ovf ovf' : message → message) (m : message) :
    message.end_stream_with ovf m FCGI_STDIN = message.end_stream_with ovf' m FCGI_STDIN := by
  unfold message.end_stream_with
  rw [add_header_with_stream ovf ovf' m FCGI_STDIN false 0 (Or.inr rfl)]
  simp only [add_header_with_stream ovf ovf' _ FCGI_STDIN true 0 (Or.inr rfl)]

theorem end_request_with_indep (ovf ovf' : message → message) (m : message) (a p : Nat) :
    message.end_request_with ovf m a p = message.end_request_with ovf' m a p := by
  unfold message.end_request_with
  rw [add_header_with_stream ovf ovf' m FCGI_END_REQUEST true _ (Or.inl rfl)]

theorem overflow_fuel_unfold (k : Nat) (m : message) :
    message.overflow_fuel (k + 1) m =
      if m.good_ = false then m
      else
        { (if header.type m.buf_ 0 = FCGI_BEGIN_REQUEST then
            message.end_stream_with (message.overflow_fuel k) m FCGI_STDIN
          else
            message.end_request_with (message.overflow_fuel k) m 0 FCGI_OVERLOADED) with
          good_ := false } := rfl

/-- The unrolling of `overflow` is stable from depth 1 on. -/
theorem overflow_fuel_succ (k : Nat) (m : message) :
    message.overflow_fuel (k + 1) m = message.overflow_fuel 1 m := by
  rw [overflow_fuel_unfold, overflow_fuel_unfold 0,
    end_stream_with_stdin (message.overflow_fuel k) (message.overflow_fuel 0),
    end_request_with_indep (message.overflow_fuel k) (message.overflow_fuel 0)]

theorem add_header_with_terminated (ovf : message → message) (m : message) (type : Nat)
    (force : Bool) (size : Nat) (hg : m.good_ = true) (ht : m.terminated_ = true)
    (h3 : type ≠ FCGI_END_REQUEST) (h5 : type ≠ FCGI_STDIN) :
    message.add_header_with ovf m type force size = ({ m with good_ := false }, none) := by
  simp [message.add_header_with, hg, ht, h3, h5]

theorem add_header_with_stream_none (ovf : message → message) (m : message) (type : Nat)
    (force : Bool) (size : Nat) (ht : type = FCGI_END_REQUEST ∨ type = FCGI_STDIN)
    (hn : (message.add_header_with ovf m type force size).2 = none) :
    (message.add_header_with ovf m type force size).1.good_ = false := by
  unfold message.add_header_with at hn ⊢
  simp only [if_pos ht] at hn ⊢
  unfold message.open_header at hn ⊢
  split_ifs at hn ⊢ <;> simp_all

theorem end_stream_stdin_terminated (m : message)
    (hg : (m.end_stream FCGI_STDIN).good_ = true) :
    (m.end_stream FCGI_STDIN).terminated_ = true := by
  unfold message.end_stream message.end_stream_with at hg ⊢
  have key := add_header_with_stream_none message.overflow
  generalize hr : message.add_header_with message.overflow m FCGI_STDIN false 0 = r at hg ⊢
  have k1 := key m FCGI_STDIN false 0 (Or.inr rfl)
  rw [hr] at k1
  obtain ⟨m1, o1⟩ := r
  cases o1 with
  | none => simp_all
  | some h =>
    simp only at hg ⊢
    by_cases hs : header.size m1.buf_ h ≠ 0
    · simp only [if_pos hs] at hg ⊢
      have k2 := key m1 FCGI_STDIN true 0 (Or.inr rfl)
      generalize message.add_header_with message.overflow m1 FCGI_STDIN true 0 = r2 at hg k2 ⊢
      obtain ⟨m2, o2⟩ := r2
      cases o2 with
      | none => simp_all
      | some h2 => simp
    · simp only [if_neg hs] at hg ⊢
      simp

theorem or_128 (x : Nat) (h : x < 128) : 128 ||| x = 128 + x := by
  have : ∀ y : Fin 128, 128 ||| y.val = 128 + y.val := by decide
  exact this ⟨x, h⟩

/-! ## Claims on the length codec, the reader and the terminated state -/

/-- C3: for every length `L < 2^31`, `param::write(L)` emits one byte equal to `L` when
`L ≤ 127` and otherwise four bytes holding `L` big-endian with the top bit of the first
byte set (no other byte changes); `param::read` on the emitted bytes returns `L` and
stops exactly after them.  127 takes one byte, 128 the four bytes 0x80,0x00,0x00,0x80. -/
theorem C3_length_codec (mem : Mem) (d L : Nat) (hL : L < 2 ^ 31) :
    (L ≤ 127 →
        (param.write_len mem d L).2 = d + 1 ∧ (param.write_len mem d L).1 d = L ∧
        ∀ i, i ≠ d → (param.write_len mem d L).1 i = mem i) ∧
    (127 < L →
        (param.write_len mem d L).2 = d + 4 ∧
        (param.write_len mem d L).1 d = 128 + L / 2 ^ 24 ∧
        (param.write_len mem d L).1 d / 128 = 1 ∧
        (param.write_len mem d L).1 (d + 1) = L / 2 ^ 16 % 256 ∧
        (param.write_len mem d L).1 (d + 2) = L / 2 ^ 8 % 256 ∧
        (param.write_len mem d L).1 (d + 3) = L % 256 ∧
        ((param.write_len mem d L).1 d - 128) * 2 ^ 24 + (param.write_len mem d L).1 (d + 1) * 2 ^ 16
          + (param.write_len mem d L).1 (d + 2) * 2 ^ 8 + (param.write_len mem d L).1 (d + 3) = L ∧
        ∀ i, (i < d ∨ d + 4 ≤ i) → (param.write_len mem d L).1 i = mem i) ∧
    param.read_len (param.write_len mem d L).1 d = (L, (param.write_len mem d L).2) ∧
    (param.write_len mem d 127).2 = d + 1 ∧
    string_ref (param.write_len mem d 128).1 d 4 = [0x80, 0x00, 0x00, 0x80] ∧
    (param.write_len mem d 128).2 = d + 4 := by
  have h24 : L / 2 ^ 24 < 128 := by norm_num at hL ⊢; omega
  have hor := or_128 _ h24
  refine ⟨?_, ?_, ?_, ?_, ?_, ?_⟩
  · intro h
    simp only [param.write_len, if_pos h, store_apply]
    refine ⟨trivial, ?_, ?_⟩
    · simp; omega
    · intro i hi; simp [hi]
  · intro h
    have h' : ¬ L ≤ 127 := by omega
    simp only [param.write_len, if_neg h', store_apply, hor]
    norm_num at hL h24 ⊢
    refine ⟨?_, ?_, ?_, ?_⟩
    · omega
    · omega
    · omega
    · intro i hi
      have h0 : i ≠ d := by omega
      have h1 : i ≠ d + 1 := by omega
      have h2 : i ≠ d + 2 := by omega
      have h3 : i ≠ d + 3 := by omega
      simp [h0, h1, h2, h3]
  · by_cases h : L ≤ 127
    · simp only [param.write_len, if_pos h, param.read_len, store_apply]
      have : L % 128 % 256 / 128 = 0 := by omega
      simp [this]; omega
    · simp only [param.write_len, if_neg h, param.read_len, store_apply, hor]
      norm_num at hL h24 ⊢
      have : (128 + L / 16777216) % 256 / 128 ≠ 0 := by omega
      simp [this]
      omega
  · simp [param.write_len]
  · simp [param.write_len, string_ref, List.range, List.range.loop, store_apply]
  · simp [param.write_len]

/-- C7: a `const_message` position that `valid()` accepts has its whole record (8-byte
header, declared content and declared padding) inside the range; and a range of fewer
than 8 bytes, or one whose first header declares content and padding past the end,
makes `begin()` not valid and equal to `end()`, so the traversal reports no record. -/
theorem C7_valid_inside_range (mem : Mem) (i : const_message.iterator) (c : const_message) :
    (i.valid mem = true →
      i.h_ + 8 ≤ i.e_ ∧
      header.next mem i.h_ = i.h_ + 8 + header.size mem i.h_ + header.paddingLength mem i.h_ ∧
      header.next mem i.h_ ≤ i.e_) ∧
    ((c.buf_size < 8 ∨
        c.buf_data + 8 + header.size mem c.buf_data + header.paddingLength mem c.buf_data
          > c.buf_data + c.buf_size) →
      c.begin_.valid mem = false ∧ c.begin_.eq mem c.end_ = true ∧
      c.begin_.ne mem c.end_ = false ∧
      ∀ fuel, const_message.records mem c (fuel + 1) = some []) := by
  constructor
  · intro h
    simp only [const_message.iterator.valid, const_message.iterator.not_valid, Bool.not_eq_true',
      Bool.or_eq_false_iff, decide_eq_false_iff_not, not_le, not_lt, ge_iff_le, gt_iff_lt] at h
    obtain ⟨⟨h1, h2⟩, h3⟩ := h
    refine ⟨by omega, ?_, h3⟩
    simp [header.next, header.data]
  · intro h
    have hv : c.begin_.valid mem = false := by
      simp only [const_message.iterator.valid, const_message.iterator.not_valid,
        const_message.begin_, Bool.not_eq_false', Bool.or_eq_true, decide_eq_true_eq,
        header.next, header.data, sizeof_FCGI_Header]
      omega
    have he : c.end_.valid mem = false := by
      simp [const_message.iterator.valid, const_message.iterator.not_valid, const_message.end_]
    have hne : c.begin_.ne mem c.end_ = false := by
      simp [const_message.iterator.ne, hv, he]
    refine ⟨hv, ?_, hne, ?_⟩
    · simp only [const_message.iterator.valid, Bool.not_eq_false'] at hv he
      simp [const_message.iterator.eq, hv, he]
    · intro fuel
      simp [const_message.records, const_message.loop, hne]

/-- C7 at a concrete range: an 8-byte range of zeros holds one valid position, a 7-byte
range none. -/
theorem C7_witness :
    ((const_message.iterator.mk 0 8).valid zero_mem = true ∧
      (0 + 8 ≤ 8 ∧ header.next zero_mem 0 = 0 + 8 + header.size zero_mem 0 + header.paddingLength zero_mem 0
      ∧ header.next zero_mem 0 ≤ 8)) ∧
    ((7 < 8 ∨ 0 + 8 + header.size zero_mem 0 + header.paddingLength zero_mem 0 > 0 + 7) ∧
      ((const_message.mk 0 7).begin_.valid zero_mem = false ∧
        (const_message.mk 0 7).begin_.eq zero_mem (const_message.mk 0 7).end_ = true ∧
        (const_message.mk 0 7).begin_.ne zero_mem (const_message.mk 0 7).end_ = false ∧
        ∀ fuel, const_message.records zero_mem (const_message.mk 0 7) (fuel + 1) = some [])) :=
  ⟨⟨by decide, (C7_valid_inside_range zero_mem ⟨0, 8⟩ ⟨0, 7⟩).1 (by decide)⟩,
   ⟨Or.inl (by decide), (C7_valid_inside_range zero_mem ⟨0, 8⟩ ⟨0, 7⟩).2 (Or.inl (by decide))⟩⟩

/-- C10: once `end_stream(FCGI_STDIN)` has succeeded the message is terminated, and
`begin_request`, `add_param`, and `append` or `end_stream` with a type other than
`FCGI_END_REQUEST` and `FCGI_STDIN` are rejected: `good()` becomes false while `size()`
and every byte of the memory stay as they were. -/
theorem C10_terminated_rejects (m0 : message) (t role flags : Nat) (s name value : List Nat)
    (hgood : (m0.end_stream FCGI_STDIN).good = true)
    (h3 : t ≠ FCGI_END_REQUEST) (h5 : t ≠ FCGI_STDIN) :
    (m0.end_stream FCGI_STDIN).terminated_ = true ∧
    (((m0.end_stream FCGI_STDIN).begin_request role flags).good = false ∧
      ((m0.end_stream FCGI_STDIN).begin_request role flags).size = (m0.end_stream FCGI_STDIN).size ∧
      ((m0.end_stream FCGI_STDIN).begin_request role flags).buf_ = (m0.end_stream FCGI_STDIN).buf_) ∧
    (((m0.end_stream FCGI_STDIN).add_param name value).good = false ∧
      ((m0.end_stream FCGI_STDIN).add_param name value).size = (m0.end_stream FCGI_STDIN).size ∧
      ((m0.end_stream FCGI_STDIN).add_param name value).buf_ = (m0.end_stream FCGI_STDIN).buf_) ∧
    (((m0.end_stream FCGI_STDIN).append t s).good = false ∧
      ((m0.end_stream FCGI_STDIN).append t s).size = (m0.end_stream FCGI_STDIN).size ∧
      ((m0.end_stream FCGI_STDIN).append t s).buf_ = (m0.end_stream FCGI_STDIN).buf_) ∧
    (((m0.end_stream FCGI_STDIN).end_stream t).good = false ∧
      ((m0.end_stream FCGI_STDIN).end_stream t).size = (m0.end_stream FCGI_STDIN).size ∧
      ((m0.end_stream FCGI_STDIN).end_stream t).buf_ = (m0.end_stream FCGI_STDIN).buf_) := by
  have ht := end_stream_stdin_terminated m0 hgood
  generalize m0.end_stream FCGI_STDIN = m at hgood ht ⊢
  have hg : m.good_ = true := hgood
  refine ⟨ht, ?_, ?_, ?_, ?_⟩
  · simp [message.begin_request, message.begin_request_with,
      add_header_with_terminated _ m _ _ _ hg ht, message.good, message.size]
  · simp [message.add_param, message.add_header,
      add_header_with_terminated _ m _ _ _ hg ht, message.good, message.size]
  · simp [message.append, message.add_header,
      add_header_with_terminated _ m t _ _ hg ht h3 h5, message.good, message.size]
  · simp [message.end_stream, message.end_stream_with,
      add_header_with_terminated _ m t _ _ hg ht h3 h5, message.good, message.size]

/-- C10 on a request of capacity 64 that was terminated after `begin_request`, with
`FCGI_STDOUT` as the rejected type. -/
theorem C10_witness :
    (((message.new 1 zero_mem 64).begin_request 1 0).end_stream FCGI_STDIN).good = true ∧
    ((((message.new 1 zero_mem 64).begin_request 1 0).end_stream FCGI_STDIN).append
        FCGI_STDOUT [120]).good = false ∧
    ((((message.new 1 zero_mem 64).begin_request 1 0).end_stream FCGI_STDIN).append
        FCGI_STDOUT [120]).size = 24 :=
  ⟨by decide,
   (C10_terminated_rejects ((message.new 1 zero_mem 64).begin_request 1 0) FCGI_STDOUT 1 0
      [120] [] [] (by decide) (by decide) (by decide)).2.2.2.1.1,
   by decide⟩

/-- C3 at `L = 300`: the four-byte form is read back as 300. -/
theorem C3_witness :
    param.read_len (param.write_len zero_mem 0 300).1 0 = (300, (param.write_len zero_mem 0 300).2) :=
  (C3_length_codec zero_mem 0 300 (by norm_num)).2.2.1

/-! ## The builder with the pointer comparisons as inequalities on offsets -/

namespace message

theorem terminator_eq (m : message) : m.terminator = (m.capacity_ : Int) - (m.reserve : Int) := by
  unfold terminator reserve
  simp only [sizeof_FCGI_Header, sizeof_FCGI_EndRequestBody]
  split_ifs <;> push_cast <;> omega

theorem reserve_le (m : message) : 8 ≤ m.reserve ∧ m.reserve ≤ 16 := by
  unfold reserve
  simp only [sizeof_FCGI_Header, sizeof_FCGI_EndRequestBody]
  split_ifs <;> omega

theorem gt_terminator_iff (m : message) (n : Nat) :
    ((n : Int) > m.terminator) ↔ m.capacity_ < n + m.reserve := by
  rw [terminator_eq]
  omega

theorem gt_terminator_sub_iff (m : message) (n size : Nat) :
    ((n : Int) > m.terminator - sizeof_FCGI_Header - size) ↔
      m.capacity_ < n + 8 + size + m.reserve := by
  rw [terminator_eq]
  simp only [sizeof_FCGI_Header]
  push_cast
  omega

theorem overflow_eq (m : message) :
    m.overflow =
      if m.good_ = false then m
      else
        { (if header.type m.buf_ 0 = FCGI_BEGIN_REQUEST then m.end_stream FCGI_STDIN
          else m.end_request 0 FCGI_OVERLOADED) with good_ := false } := by
  unfold overflow end_stream end_request
  rw [overflow_fuel_unfold,
    end_stream_with_stdin (overflow_fuel 1) (overflow_fuel 2),
    end_request_with_indep (overflow_fuel 1) (overflow_fuel 2)]
  rfl

theorem overflow_good (m : message) : m.overflow.good_ = false := by
  rw [overflow_eq]
  split_ifs <;> first | assumption | rfl

theorem add_header_eq (m : message) (type : Nat) (force : Bool) (size : Nat) :
    m.add_header type force size =
      if m.good_ = false then (m, none)
      else if m.terminated_ = true then
        if type = FCGI_END_REQUEST ∨ type = FCGI_STDIN then (m, some m.cur_header_)
        else ({ m with good_ := false }, none)
      else if header.type m.buf_ m.cur_header_ ≠ type ∨ force = true then
        if header.type m.buf_ m.cur_header_ ≠ 0 then
          if type = FCGI_END_REQUEST ∨ type = FCGI_STDIN then
            if m.capacity_ < header.next m.buf_ m.cur_header_ + m.reserve then
              ({ m with good_ := false }, none)
            else open_header { m with cur_header_ := header.next m.buf_ m.cur_header_ } type size
          else
            if m.capacity_ < header.next m.buf_ m.cur_header_ + 8 + size + m.reserve then
              (m.overflow, none)
            else open_header { m with cur_header_ := header.next m.buf_ m.cur_header_ } type size
        else open_header m type size
      else (m, some m.cur_header_) := by
  unfold add_header add_header_with
  simp only [gt_terminator_iff, gt_terminator_sub_iff]

theorem append_eq (m : message) (type : Nat) (str : List Nat) :
    m.append type str =
      match (m.add_header type false 0).2 with
      | some h =>
        if (m.add_header type false 0).1.capacity_ <
            header.data h + header.size (m.add_header type false 0).1.buf_ h + str.length
              + (m.add_header type false 0).1.reserve then
          (m.add_header type false 0).1.overflow
        else
          { (m.add_header type false 0).1 with
            buf_ := header.append (m.add_header type false 0).1.buf_ h str }
      | none => (m.add_header type false 0).1 := by
  unfold append
  simp only [gt_terminator_iff]

theorem add_param_eq (m : message) (name value : List Nat) :
    m.add_param name value =
      match (m.add_header FCGI_PARAMS false 0).2 with
      | some h =>
        if (m.add_header FCGI_PARAMS false 0).1.capacity_ <
            header.data h + header.size (m.add_header FCGI_PARAMS false 0).1.buf_ h + name.length
              + value.length + (m.add_header FCGI_PARAMS false 0).1.reserve then
          (m.add_header FCGI_PARAMS false 0).1.overflow
        else
          { (m.add_header FCGI_PARAMS false 0).1 with
            buf_ :=
              header.set_size
                (param.write (m.add_header FCGI_PARAMS false 0).1.buf_
                  (header.data h + header.size (m.add_header FCGI_PARAMS false 0).1.buf_ h)
                  name value).1 h
                (header.size
                    (param.write (m.add_header FCGI_PARAMS false 0).1.buf_
                      (header.data h + header.size (m.add_header FCGI_PARAMS false 0).1.buf_ h)
                      name value).1 h
                  + param.size
                    (param.write (m.add_header FCGI_PARAMS false 0).1.buf_
                      (header.data h + header.size (m.add_header FCGI_PARAMS false 0).1.buf_ h)
                      name value).1
                    (header.data h + header.size (m.add_header FCGI_PARAMS false 0).1.buf_ h)) }
      | none => (m.add_header FCGI_PARAMS false 0).1 := by
  unfold add_param
  simp only [gt_terminator_iff]

theorem begin_request_eq (m : message) (role flags : Nat) :
    m.begin_request role flags =
      match (m.add_header FCGI_BEGIN_REQUEST true sizeof_FCGI_BeginRequestBody).2 with
      | some h =>
        { (m.add_header FCGI_BEGIN_REQUEST true sizeof_FCGI_BeginRequestBody).1 with
          buf_ :=
            store
              (begin_request_body.set_role
                (m.add_header FCGI_BEGIN_REQUEST true sizeof_FCGI_BeginRequestBody).1.buf_
                (header.data h) role)
              (header.data h + 2) flags }
      | none => (m.add_header FCGI_BEGIN_REQUEST true sizeof_FCGI_BeginRequestBody).1 := rfl

theorem end_request_eq (m : message) (app_status proto_status : Nat) :
    m.end_request app_status proto_status =
      match (m.add_header FCGI_END_REQUEST true sizeof_FCGI_EndRequestBody).2 with
      | some h =>
        { (m.add_header FCGI_END_REQUEST true sizeof_FCGI_EndRequestBody).1 with
          buf_ :=
            store
              (end_request_body.set_app_status
                (m.add_header FCGI_END_REQUEST true sizeof_FCGI_EndRequestBody).1.buf_
                (header.data h) app_status)
              (header.data h + 4) proto_status }
      | none => (m.add_header FCGI_END_REQUEST true sizeof_FCGI_EndRequestBody).1 := rfl

theorem end_stream_eq (m : message) (type : Nat) :
    m.end_stream type =
      match
        (match (m.add_header type false 0).2 with
          | some h =>
            if header.size (m.add_header type false 0).1.buf_ h ≠ 0 then
              (m.add_header type false 0).1.add_header type true 0
            else m.add_header type false 0
          | none => m.add_header type false 0 : message × Option Nat).2 with
      | some _ =>
        if type = FCGI_STDIN then
          { (match (m.add_header type false 0).2 with
              | some h =>
                if header.size (m.add_header type false 0).1.buf_ h ≠ 0 then
                  (m.add_header type false 0).1.add_header type true 0
                else m.add_header type false 0
              | none => m.add_header type false 0 : message × Option Nat).1 with
            terminated_ := true }
        else
          (match (m.add_header type false 0).2 with
            | some h =>
              if header.size (m.add_header type false 0).1.buf_ h ≠ 0 then
                (m.add_header type false 0).1.add_header type true 0
              else m.add_header type false 0
            | none => m.add_header type false 0 : message × Option Nat).1
      | none =>
        (match (m.add_header type false 0).2 with
          | some h =>
            if header.size (m.add_header type false 0).1.buf_ h ≠ 0 then
              (m.add_header type false 0).1.add_header type true 0
            else m.add_header type false 0
          | none => m.add_header type false 0 : message × Option Nat).1 := rfl

end message

/-! ## Traversal loops: more fuel keeps the result -/

theorem const_message_loop_mono (mem : Mem) (e : const_message.iterator) (fuel : Nat) :
    ∀ (i : const_message.iterator) (r : List Nat),
      const_message.loop mem e fuel i = some r →
      ∀ fuel', fuel ≤ fuel' → const_message.loop mem e fuel' i = some r := by
  induction fuel with
  | zero => intro i r h; simp [const_message.loop] at h
  | succ n ih =>
    intro i r h fuel' hf
    obtain ⟨k, rfl⟩ : ∃ k, fuel' = k + 1 := ⟨fuel' - 1, by omega⟩
    simp only [const_message.loop] at h ⊢
    split_ifs at h ⊢ with hne
    · cases hrec : const_message.loop mem e n (const_message.iterator.incr mem i) with
      | none => simp [hrec] at h
      | some r' =>
        rw [hrec] at h
        rw [ih _ r' hrec k (by omega)]
        exact h
    · exact h

theorem const_params_loop_mono (mem : Mem) (e : const_params.iterator) (fuel : Nat) :
    ∀ (i : const_params.iterator) (r : List (List Nat × List Nat)),
      const_params.loop mem e fuel i = some r →
      ∀ fuel', fuel ≤ fuel' → const_params.loop mem e fuel' i = some r := by
  induction fuel with
  | zero => intro i r h; simp [const_params.loop] at h
  | succ n ih =>
    intro i r h fuel' hf
    obtain ⟨k, rfl⟩ : ∃ k, fuel' = k + 1 := ⟨fuel' - 1, by omega⟩
    simp only [const_params.loop] at h ⊢
    split_ifs at h ⊢ with hne
    · cases hrec : const_params.loop mem e n (const_params.iterator.incr mem i) with
      | none => simp [hrec] at h
      | some r' =>
        rw [hrec] at h
        rw [ih _ r' hrec k (by omega)]
        exact h
    · exact h

/-! ## Claim C1: the round trip of client.cpp, step by step -/

theorem c1_buf1_apply (buf : Mem) (i : Nat) :
    c1_buf1 buf i = (store (store (store (store (store (store (store (store (store (store (store
      buf 1 0) 1 1) 2 0) 3 1) 0 1) 4 0) 5 8) 6 0) 8 0) 9 1) 10 1) i := rfl

theorem c1_step1 (buf : Mem) (cap : Nat) (hcap : 64 ≤ cap) :
    (message.new 1 buf cap).begin_request 1 1 =
      (⟨1, c1_buf1 buf, cap, 0, true, false⟩ : message) := by
  have hlt : ∀ n, n ≤ 64 → (cap < n) = False := by
    intro n hn; simp only [eq_iff_iff, iff_false]; omega
  have hge : (16 ≤ cap) = True := by
    simp only [eq_iff_iff, iff_true]; omega
  simp [hlt, hge, message.new, message.begin_request_eq, message.add_param_eq, message.append_eq,
    message.end_stream_eq, message.add_header_eq, message.open_header, message.reserve,
    header.type, header.next, header.data, header.size, header.paddingLength, header.set_size,
    header.set_size_p, header.set_id, header.append, begin_request_body.set_role, param.write,
    param.write_len, param.write_str, param.size, param.read_len, store_apply, memcpy_apply,
    sizeof_FCGI_Header, sizeof_FCGI_EndRequestBody, sizeof_FCGI_BeginRequestBody,
    FCGI_BEGIN_REQUEST, FCGI_VERSION_1, FCGI_STDIN, FCGI_PARAMS, FCGI_END_REQUEST]
  rfl

theorem c1_buf2_apply (buf : Mem) (i : Nat) :
    c1_buf2 buf i = (store (store (store (memcpy (memcpy (store (store (store (store (store
      (store (store (store (store (c1_buf1 buf) 17 4) 18 0) 19 1) 16 1) 20 0) 21 0) 22 0) 24 1) 25
      1) 26 [65]) 27 [49]) 20 0) 21 4) 22 4) i := rfl

theorem c1_step2 (buf : Mem) (cap : Nat) (hcap : 64 ≤ cap) :
    (⟨1, c1_buf1 buf, cap, 0, true, false⟩ : message).add_param [65] [49] =
      (⟨1, c1_buf2 buf, cap, 16, true, false⟩ : message) := by
  have hlt : ∀ n, n ≤ 64 → (cap < n) = False := by
    intro n hn; simp only [eq_iff_iff, iff_false]; omega
  have hge : (16 ≤ cap) = True := by
    simp only [eq_iff_iff, iff_true]; omega
  simp [hlt, hge, message.new, message.begin_request_eq, message.add_param_eq, message.append_eq,
    message.end_stream_eq, message.add_header_eq, message.open_header, message.reserve,
    header.type, header.next, header.data, header.size, header.paddingLength, header.set_size,
    header.set_size_p, header.set_id, header.append, begin_request_body.set_role, param.write,
    param.write_len, param.write_str, param.size, param.read_len, store_apply, memcpy_apply,
    sizeof_FCGI_Header, sizeof_FCGI_EndRequestBody, sizeof_FCGI_BeginRequestBody,
    FCGI_BEGIN_REQUEST, FCGI_VERSION_1, FCGI_STDIN, FCGI_PARAMS, FCGI_END_REQUEST, c1_buf1_apply]
  rfl

theorem c1_buf3_apply (buf : Mem) (i : Nat) :
    c1_buf3 buf i = (store (store (store (memcpy (memcpy (store (store (c1_buf2 buf) 28 1) 29 1)
      30 [66]) 31 [50]) 20 0) 21 8) 22 0) i := rfl

theorem c1_step3 (buf : Mem) (cap : Nat) (hcap : 64 ≤ cap) :
    (⟨1, c1_buf2 buf, cap, 16, true, false⟩ : message).add_param [66] [50] =
      (⟨1, c1_buf3 buf, cap, 16, true, false⟩ : message) := by
  have hlt : ∀ n, n ≤ 64 → (cap < n) = False := by
    intro n hn; simp only [eq_iff_iff, iff_false]; omega
  have hge : (16 ≤ cap) = True := by
    simp only [eq_iff_iff, iff_true]; omega
  simp [hlt, hge, message.new, message.begin_request_eq, message.add_param_eq, message.append_eq,
    message.end_stream_eq, message.add_header_eq, message.open_header, message.reserve,
    header.type, header.next, header.data, header.size, header.paddingLength, header.set_size,
    header.set_size_p, header.set_id, header.append, begin_request_body.set_role, param.write,
    param.write_len, param.write_str, param.size, param.read_len, store_apply, memcpy_apply,
    sizeof_FCGI_Header, sizeof_FCGI_EndRequestBody, sizeof_FCGI_BeginRequestBody,
    FCGI_BEGIN_REQUEST, FCGI_VERSION_1, FCGI_STDIN, FCGI_PARAMS, FCGI_END_REQUEST, c1_buf1_apply, c1_buf2_apply]
  rfl

theorem c1_buf4_apply (buf : Mem) (i : Nat) :
    c1_buf4 buf i = (store (store (store (memcpy (store (store (store (store (store (store
      (store (c1_buf3 buf) 33 5) 34 0) 35 1) 32 1) 36 0) 37 0) 38 0) 40 [120]) 36 0) 37 1) 38 7) i
      := rfl

theorem c1_step4 (buf : Mem) (cap : Nat) (hcap : 64 ≤ cap) :
    (⟨1, c1_buf3 buf, cap, 16, true, false⟩ : message).append FCGI_STDIN [120] =
      (⟨1, c1_buf4 buf, cap, 32, true, false⟩ : message) := by
  have hlt : ∀ n, n ≤ 64 → (cap < n) = False := by
    intro n hn; simp only [eq_iff_iff, iff_false]; omega
  have hge : (16 ≤ cap) = True := by
    simp only [eq_iff_iff, iff_true]; omega
  simp [hlt, hge, message.new, message.begin_request_eq, message.add_param_eq, message.append_eq,
    message.end_stream_eq, message.add_header_eq, message.open_header, message.reserve,
    header.type, header.next, header.data, header.size, header.paddingLength, header.set_size,
    header.set_size_p, header.set_id, header.append, begin_request_body.set_role, param.write,
    param.write_len, param.write_str, param.size, param.read_len, store_apply, memcpy_apply,
    sizeof_FCGI_Header, sizeof_FCGI_EndRequestBody, sizeof_FCGI_BeginRequestBody,
    FCGI_BEGIN_REQUEST, FCGI_VERSION_1, FCGI_STDIN, FCGI_PARAMS, FCGI_END_REQUEST, c1_buf1_apply, c1_buf2_apply, c1_buf3_apply]
  rfl

theorem c1_buf5_apply (buf : Mem) (i : Nat) :
    c1_buf5 buf i = (store (store (store (memcpy (c1_buf4 buf) 41 [121]) 36 0) 37 2) 38 6) i := rfl

theorem c1_step5 (buf : Mem) (cap : Nat) (hcap : 64 ≤ cap) :
    (⟨1, c1_buf4 buf, cap, 32, true, false⟩ : message).append FCGI_STDIN [121] =
      (⟨1, c1_buf5 buf, cap, 32, true, false⟩ : message) := by
  have hlt : ∀ n, n ≤ 64 → (cap < n) = False := by
    intro n hn; simp only [eq_iff_iff, iff_false]; omega
  have hge : (16 ≤ cap) = True := by
    simp only [eq_iff_iff, iff_true]; omega
  simp [hlt, hge, message.new, message.begin_request_eq, message.add_param_eq, message.append_eq,
    message.end_stream_eq, message.add_header_eq, message.open_header, message.reserve,
    header.type, header.next, header.data, header.size, header.paddingLength, header.set_size,
    header.set_size_p, header.set_id, header.append, begin_request_body.set_role, param.write,
    param.write_len, param.write_str, param.size, param.read_len, store_apply, memcpy_apply,
    sizeof_FCGI_Header, sizeof_FCGI_EndRequestBody, sizeof_FCGI_BeginRequestBody,
    FCGI_BEGIN_REQUEST, FCGI_VERSION_1, FCGI_STDIN, FCGI_PARAMS, FCGI_END_REQUEST, c1_buf1_apply, c1_buf2_apply, c1_buf3_apply, c1_buf4_apply]
  rfl

theorem c1_buf6_apply (buf : Mem) (i : Nat) :
    c1_buf6 buf i = (store (store (store (store (store (store (store (c1_buf5 buf) 49 5) 50 0)
      51 1) 48 1) 52 0) 53 0) 54 0) i := rfl

theorem c1_step6 (buf : Mem) (cap : Nat) (hcap : 64 ≤ cap) :
    (⟨1, c1_buf5 buf, cap, 32, true, false⟩ : message).end_stream FCGI_STDIN =
      (⟨1, c1_buf6 buf, cap, 48, true, true⟩ : message) := by
  have hlt : ∀ n, n ≤ 64 → (cap < n) = False := by
    intro n hn; simp only [eq_iff_iff, iff_false]; omega
  have hge : (16 ≤ cap) = True := by
    simp only [eq_iff_iff, iff_true]; omega
  simp [hlt, hge, message.new, message.begin_request_eq, message.add_param_eq, message.append_eq,
    message.end_stream_eq, message.add_header_eq, message.open_header, message.reserve,
    header.type, header.next, header.data, header.size, header.paddingLength, header.set_size,
    header.set_size_p, header.set_id, header.append, begin_request_body.set_role, param.write,
    param.write_len, param.write_str, param.size, param.read_len, store_apply, memcpy_apply,
    sizeof_FCGI_Header, sizeof_FCGI_EndRequestBody, sizeof_FCGI_BeginRequestBody,
    FCGI_BEGIN_REQUEST, FCGI_VERSION_1, FCGI_STDIN, FCGI_PARAMS, FCGI_END_REQUEST, c1_buf1_apply, c1_buf2_apply, c1_buf3_apply, c1_buf4_apply, c1_buf5_apply]
  rfl

theorem c1_run (buf : Mem) :
    round_trip_request buf =
      (⟨1, c1_buf6 buf, 65536, 48, true, true⟩ : message) := by
  have h : (64 : Nat) ≤ 65536 := by norm_num
  unfold round_trip_request
  rw [c1_step1 buf 65536 h, c1_step2 buf 65536 h, c1_step3 buf 65536 h, c1_step4 buf 65536 h,
    c1_step5 buf 65536 h, c1_step6 buf 65536 h]


/-- C1: on a fresh message with request id 1 and a 64 KiB buffer of arbitrary content,
`begin_request(1, 1)`, `add_param("A", "1")`, `add_param("B", "2")`,
`append(STDIN, "x")`, `append(STDIN, "y")`, `end_stream(STDIN)` leave `good()` true,
and the `const_message` traversal of `str()` visits exactly four records (at offsets
0, 16, 32, 48), each `valid()` with `id() == 1`: a BEGIN_REQUEST record with role 1
and flags 1, one PARAMS record whose `const_params` traversal reads ("A","1"),
("B","2") in that order, one STDIN record with content "xy", and one STDIN record with
content length 0.  The loops reach the end with any fuel from 5 (3 for the
parameters) on. -/
theorem C1_round_trip_records (buf : Mem) :
    (round_trip_request buf).good = true ∧
    (∀ fuel, 5 ≤ fuel →
      const_message.records (round_trip_request buf).buf_ (round_trip_request buf).str fuel
        = some [0, 16, 32, 48]) ∧
    (∀ h ∈ [0, 16, 32, 48],
      header.valid (round_trip_request buf).buf_ h = true ∧
      header.id (round_trip_request buf).buf_ h = 1) ∧
    header.type (round_trip_request buf).buf_ 0 = FCGI_BEGIN_REQUEST ∧
    begin_request_body.role (round_trip_request buf).buf_ (header.data 0) = 1 ∧
    begin_request_body.flags (round_trip_request buf).buf_ (header.data 0) = 1 ∧
    header.type (round_trip_request buf).buf_ 16 = FCGI_PARAMS ∧
    (∀ fuel, 3 ≤ fuel →
      const_params.read_all (round_trip_request buf).buf_
          ⟨header.data 16, header.size (round_trip_request buf).buf_ 16⟩ fuel
        = some [([65], [49]), ([66], [50])]) ∧
    header.type (round_trip_request buf).buf_ 32 = FCGI_STDIN ∧
    header.str (round_trip_request buf).buf_ 32 = [120, 121] ∧
    header.type (round_trip_request buf).buf_ 48 = FCGI_STDIN ∧
    header.size (round_trip_request buf).buf_ 48 = 0 := by
  have hrun : round_trip_request buf = (⟨1, c1_buf6 buf, 65536, 48, true, true⟩ : message) :=
    c1_run buf
  rw [hrun]
  have hsz : header.size (c1_buf6 buf) 16 = 8 := by
    simp [header.size, c1_buf6_apply, c1_buf5_apply, c1_buf4_apply, c1_buf3_apply,
      c1_buf2_apply, c1_buf1_apply, store_apply, memcpy_apply]
  have hrec : const_message.records (c1_buf6 buf)
      (⟨1, c1_buf6 buf, 65536, 48, true, true⟩ : message).str 5 = some [0, 16, 32, 48] := by
    simp [const_message.records, const_message.loop, const_message.begin_, const_message.end_,
      const_message.iterator.ne, const_message.iterator.valid, const_message.iterator.not_valid,
      const_message.iterator.incr, message.str, message.size, header.next, header.data,
      header.size, header.type, header.paddingLength, sizeof_FCGI_Header,
      c1_buf6_apply, c1_buf5_apply, c1_buf4_apply, c1_buf3_apply,
      c1_buf2_apply, c1_buf1_apply, store_apply, memcpy_apply]
  have hpar : const_params.read_all (c1_buf6 buf) ⟨header.data 16, 8⟩ 3
      = some [([65], [49]), ([66], [50])] := by
    simp [const_params.read_all, const_params.loop, const_params.begin_, const_params.end_,
      const_params.iterator.ne, const_params.iterator.valid, const_params.iterator.not_valid,
      const_params.iterator.incr, param.next, param.size, param.read, param.read_len,
      param.read_str, string_ref, List.range, List.range.loop, header.data,
      sizeof_FCGI_Header, c1_buf6_apply, c1_buf5_apply, c1_buf4_apply, c1_buf3_apply,
      c1_buf2_apply, c1_buf1_apply, store_apply, memcpy_apply]
  refine ⟨rfl, ?_, ?_, ?_, ?_, ?_, ?_, ?_, ?_, ?_, ?_, ?_⟩
  · intro fuel hf
    exact const_message_loop_mono _ _ 5 _ _ hrec fuel hf
  · simp [header.valid, header.version, header.type, header.id, FCGI_VERSION_1,
      FCGI_BEGIN_REQUEST, FCGI_MAXTYPE, c1_buf6_apply, c1_buf5_apply, c1_buf4_apply,
      c1_buf3_apply, c1_buf2_apply, c1_buf1_apply, store_apply, memcpy_apply]
  · simp [header.type, c1_buf6_apply, c1_buf5_apply, c1_buf4_apply,
      c1_buf3_apply, c1_buf2_apply, c1_buf1_apply, store_apply, memcpy_apply]
  · simp [begin_request_body.role, header.data, sizeof_FCGI_Header, c1_buf6_apply,
      c1_buf5_apply, c1_buf4_apply, c1_buf3_apply, c1_buf2_apply, c1_buf1_apply, store_apply,
      memcpy_apply]
  · simp [begin_request_body.flags, header.data, sizeof_FCGI_Header, c1_buf6_apply,
      c1_buf5_apply, c1_buf4_apply, c1_buf3_apply, c1_buf2_apply, c1_buf1_apply, store_apply,
      memcpy_apply]
  · simp [header.type, c1_buf6_apply, c1_buf5_apply, c1_buf4_apply,
      c1_buf3_apply, c1_buf2_apply, c1_buf1_apply, store_apply, memcpy_apply]
  · intro fuel hf
    simp only [hsz]
    exact const_params_loop_mono _ _ 3 _ _ hpar fuel hf
  · simp [header.type, c1_buf6_apply, c1_buf5_apply, c1_buf4_apply,
      c1_buf3_apply, c1_buf2_apply, c1_buf1_apply, store_apply, memcpy_apply]
  · have hs32 : header.size (c1_buf6 buf) 32 = 2 := by
      simp [header.size, c1_buf6_apply, c1_buf5_apply, c1_buf4_apply, c1_buf3_apply,
        c1_buf2_apply, c1_buf1_apply, store_apply, memcpy_apply]
    simp only [header.str, hs32]
    simp [header.data, sizeof_FCGI_Header, string_ref, List.range,
      List.range.loop, c1_buf6_apply, c1_buf5_apply, c1_buf4_apply,
      c1_buf3_apply, c1_buf2_apply, c1_buf1_apply, store_apply, memcpy_apply]
  · simp [header.type, c1_buf6_apply, c1_buf5_apply, c1_buf4_apply,
      c1_buf3_apply, c1_buf2_apply, c1_buf1_apply, store_apply, memcpy_apply]
  · simp [header.size, c1_buf6_apply, c1_buf5_apply, c1_buf4_apply,
      c1_buf3_apply, c1_buf2_apply, c1_buf1_apply, store_apply, memcpy_apply]

/-! ## Claims C5, C6, C8, C9: runs in which the reservation fails -/

/-- C5, the code at failing inputs.  (1) Capacity 16: after `begin_request(1, 1)` the call
`append(STDIN, "x")` leaves `good()` false, but `str()` holds the BEGIN_REQUEST record
only.  (2) Capacity 33: after `begin_request(1, 1)`, `append(STDIN, "x")` the call
`append(STDIN, "yy")` overflows; `good()` is false and the last record is the STDIN
record with content "x" (length 1), no empty one follows.  (3) Capacity 64: after
`begin_request(1, 1)` and `add_param` of a 14-byte name and an 18-byte value,
`append(STDIN, "x")` leaves `good()` false and the last record is the PARAMS record. -/
theorem C5_overflow_request_runs :
    ((((message.new 1 zero_mem 16).begin_request 1 1).append FCGI_STDIN [120]).good = false ∧
      const_message.records (((message.new 1 zero_mem 16).begin_request 1 1).append FCGI_STDIN [120]).buf_
        (((message.new 1 zero_mem 16).begin_request 1 1).append FCGI_STDIN [120]).str 3 = some [0] ∧
      header.type (((message.new 1 zero_mem 16).begin_request 1 1).append FCGI_STDIN [120]).buf_ 0
        = FCGI_BEGIN_REQUEST) ∧
    (((((message.new 1 zero_mem 33).begin_request 1 1).append FCGI_STDIN [120]).append
        FCGI_STDIN [121, 121]).good = false ∧
      const_message.records
        ((((message.new 1 zero_mem 33).begin_request 1 1).append FCGI_STDIN [120]).append
          FCGI_STDIN [121, 121]).buf_
        ((((message.new 1 zero_mem 33).begin_request 1 1).append FCGI_STDIN [120]).append
          FCGI_STDIN [121, 121]).str 3 = some [0, 16] ∧
      header.size
        ((((message.new 1 zero_mem 33).begin_request 1 1).append FCGI_STDIN [120]).append
          FCGI_STDIN [121, 121]).buf_ 16 = 1) ∧
    (((((message.new 1 zero_mem 64).begin_request 1 1).add_param (List.replicate 14 65)
        (List.replicate 18 66)).append FCGI_STDIN [120]).good = false ∧
      const_message.records
        ((((message.new 1 zero_mem 64).begin_request 1 1).add_param (List.replicate 14 65)
          (List.replicate 18 66)).append FCGI_STDIN [120]).buf_
        ((((message.new 1 zero_mem 64).begin_request 1 1).add_param (List.replicate 14 65)
          (List.replicate 18 66)).append FCGI_STDIN [120]).str 3 = some [0, 16] ∧
      header.type
        ((((message.new 1 zero_mem 64).begin_request 1 1).add_param (List.replicate 14 65)
          (List.replicate 18 66)).append FCGI_STDIN [120]).buf_ 16 = FCGI_PARAMS) := by
  decide

/-- C6, the code at failing inputs.  (1) Capacity 16: `append(STDOUT, "x")` on the fresh
message leaves `good()` false and `str()` is one empty STDOUT record; no END_REQUEST
record is written.  (2) Capacity 25: after `append(STDOUT, "x")` the call
`append(STDOUT, "yy")` overflows; `good()` is false and the last record is the STDOUT
record with content "x". -/
theorem C6_overflow_response_runs :
    (((message.new 1 zero_mem 16).append FCGI_STDOUT [120]).good = false ∧
      const_message.records ((message.new 1 zero_mem 16).append FCGI_STDOUT [120]).buf_
        ((message.new 1 zero_mem 16).append FCGI_STDOUT [120]).str 3 = some [0] ∧
      header.type ((message.new 1 zero_mem 16).append FCGI_STDOUT [120]).buf_ 0 = FCGI_STDOUT ∧
      header.size ((message.new 1 zero_mem 16).append FCGI_STDOUT [120]).buf_ 0 = 0) ∧
    ((((message.new 1 zero_mem 25).append FCGI_STDOUT [120]).append FCGI_STDOUT [121, 121]).good
        = false ∧
      const_message.records
        (((message.new 1 zero_mem 25).append FCGI_STDOUT [120]).append FCGI_STDOUT [121, 121]).buf_
        (((message.new 1 zero_mem 25).append FCGI_STDOUT [120]).append FCGI_STDOUT [121, 121]).str 3
        = some [0] ∧
      header.type
        (((message.new 1 zero_mem 25).append FCGI_STDOUT [120]).append FCGI_STDOUT [121, 121]).buf_ 0
        = FCGI_STDOUT ∧
      header.str
        (((message.new 1 zero_mem 25).append FCGI_STDOUT [120]).append FCGI_STDOUT [121, 121]).buf_ 0
        = [120]) := by
  decide

/-- C8, the code at failing inputs.  (1) Capacity 24: `begin_request(1, 0)` then
`end_request(7, 3)` is accepted (`good()` stays true) and writes the end-request body
at offsets 24..28: the bytes at offsets 27 and 28, zero before, hold the application
status 7 and the protocol status 3.  (2) Capacity 1: the constructor stores the type
marker 0 at offset 1. -/
theorem C8_writes_past_capacity :
    (((message.new 1 zero_mem 24).begin_request 1 0).end_request 7 3).good = true ∧
    (((message.new 1 zero_mem 24).begin_request 1 0).end_request 7 3).capacity_ = 24 ∧
    (((message.new 1 zero_mem 24).begin_request 1 0).end_request 7 3).buf_ 27 = 7 ∧
    (((message.new 1 zero_mem 24).begin_request 1 0).end_request 7 3).buf_ 28 = 3 ∧
    zero_mem 27 = 0 ∧ zero_mem 28 = 0 ∧
    (message.new 1 (fun _ => 255) 1).capacity_ = 1 ∧
    (message.new 1 (fun _ => 255) 1).buf_ 1 = 0 := by
  decide

/-- C9, the code at failing inputs: the first record is not BEGIN_REQUEST, `good()` is
true and `size()` exceeds `capacity - 16`.  (1) Capacity 25 after `append(STDOUT, "x")`:
`size()` is 16.  (2) Capacity 32 after `add_param("abcd", "efgh")`: `size()` is 24.
(3) Capacity 16 after `end_stream(STDOUT)`: `size()` is 8.  In each the following
`end_request(0, 0)` is rejected: `good()` turns false and `size()` stays. -/
theorem C9_reservation_runs :
    (((message.new 1 zero_mem 25).append FCGI_STDOUT [120]).good = true ∧
      ((message.new 1 zero_mem 25).append FCGI_STDOUT [120]).size = 16 ∧
      (((message.new 1 zero_mem 25).append FCGI_STDOUT [120]).end_request 0 0).good = false ∧
      (((message.new 1 zero_mem 25).append FCGI_STDOUT [120]).end_request 0 0).size = 16) ∧
    (((message.new 1 zero_mem 32).add_param [97, 98, 99, 100] [101, 102, 103, 104]).good = true ∧
      ((message.new 1 zero_mem 32).add_param [97, 98, 99, 100] [101, 102, 103, 104]).size = 24 ∧
      (((message.new 1 zero_mem 32).add_param [97, 98, 99, 100] [101, 102, 103, 104]).end_request
        0 0).good = false ∧
      (((message.new 1 zero_mem 32).add_param [97, 98, 99, 100] [101, 102, 103, 104]).end_request
        0 0).size = 24) ∧
    (((message.new 1 zero_mem 16).end_stream FCGI_STDOUT).good = true ∧
      ((message.new 1 zero_mem 16).end_stream FCGI_STDOUT).size = 8 ∧
      (((message.new 1 zero_mem 16).end_stream FCGI_STDOUT).end_request 0 0).good = false ∧
      (((message.new 1 zero_mem 16).end_stream FCGI_STDOUT).end_request 0 0).size = 8) := by
  decide

/-! ## The parameter codec -/

theorem enc_len_pos (L : Nat) : 1 ≤ enc_len L ∧ enc_len L ≤ 4 := by
  unfold enc_len; split_ifs <;> omega

theorem entry_size_ge (p : List Nat × List Nat) : 2 ≤ entry_size p := by
  unfold entry_size
  have h1 := enc_len_pos p.1.length
  have h2 := enc_len_pos p.2.length
  omega

theorem total_size_cons (p : List Nat × List Nat) (ps : List (List Nat × List Nat)) :
    total_size (p :: ps) = entry_size p + total_size ps := by
  simp [total_size]

theorem total_size_append (ps qs : List (List Nat × List Nat)) :
    total_size (ps ++ qs) = total_size ps + total_size qs := by
  simp [total_size]

namespace param

theorem write_len_snd (mem : Mem) (d L : Nat) : (write_len mem d L).2 = d + enc_len L := by
  unfold write_len enc_len
  split_ifs <;> rfl

theorem write_len_frame (mem : Mem) (d L i : Nat) (hi : i < d ∨ d + enc_len L ≤ i) :
    (write_len mem d L).1 i = mem i := by
  unfold write_len
  unfold enc_len at hi
  split_ifs with h
  · rw [if_pos h] at hi
    have h0 : i ≠ d := by omega
    simp [store_apply, h0]
  · rw [if_neg h] at hi
    have h0 : i ≠ d := by omega
    have h1 : i ≠ d + 1 := by omega
    have h2 : i ≠ d + 2 := by omega
    have h3 : i ≠ d + 3 := by omega
    simp [store_apply, h0, h1, h2, h3]

theorem write_len_LenAt (mem : Mem) (d L : Nat) (hL : L < 2 ^ 31) :
    LenAt (write_len mem d L).1 d L := by
  have h24 : L / 2 ^ 24 < 128 := by norm_num at hL ⊢; omega
  have hor := or_128 _ h24
  unfold LenAt enc_len
  by_cases h : L ≤ 127
  · simp only [write_len, if_pos h, read_len, store_apply]
    have : L % 128 % 256 / 128 = 0 := by omega
    simp [this]; omega
  · simp only [write_len, if_neg h, read_len, store_apply, hor]
    norm_num at hL h24 ⊢
    have : (128 + L / 16777216) % 256 / 128 ≠ 0 := by omega
    simp [this]
    omega

end param

theorem LenAt_congr (mem mem' : Mem) (d L : Nat) (h : LenAt mem d L)
    (hm : ∀ i, d ≤ i → i < d + enc_len L → mem' i = mem i) : LenAt mem' d L := by
  unfold LenAt param.read_len at h ⊢
  have h0 : mem' d = mem d := hm d (by omega) (by have := enc_len_pos L; omega)
  rw [h0]
  split_ifs at h ⊢ with hb
  · have he : enc_len L = 4 := by
      have := congrArg Prod.snd h
      simp only at this
      omega
    rw [hm (d + 1) (by omega) (by omega), hm (d + 2) (by omega) (by omega),
      hm (d + 3) (by omega) (by omega)]
    exact h
  · exact h

theorem EntryAt_congr (mem mem' : Mem) (d : Nat) (p : List Nat × List Nat)
    (h : EntryAt mem d p) (hm : ∀ i, d ≤ i → i < d + entry_size p → mem' i = mem i) :
    EntryAt mem' d p := by
  obtain ⟨h1, h2, h3, h4⟩ := h
  have e1 := enc_len_pos p.1.length
  have e2 := enc_len_pos p.2.length
  unfold entry_size at hm
  refine ⟨?_, ?_, ?_, ?_⟩
  · exact LenAt_congr _ _ _ _ h1 (fun i hi hi' => hm i hi (by omega))
  · exact LenAt_congr _ _ _ _ h2 (fun i hi hi' => hm i (by omega) (by omega))
  · rw [string_ref_congr mem mem' _ _ (fun i hi hi' => hm i (by omega) (by omega))]
    exact h3
  · rw [string_ref_congr mem mem' _ _ (fun i hi hi' => hm i (by omega) (by omega))]
    exact h4

theorem ParamsAt_congr (mem mem' : Mem) (ps : List (List Nat × List Nat)) :
    ∀ d, ParamsAt mem d ps → (∀ i, d ≤ i → i < d + total_size ps → mem' i = mem i) →
      ParamsAt mem' d ps := by
  induction ps with
  | nil => intro d _ _; trivial
  | cons p ps ih =>
    intro d h hm
    rw [total_size_cons] at hm
    obtain ⟨h1, h2⟩ := h
    refine ⟨EntryAt_congr _ _ _ _ h1 (fun i hi hi' => hm i hi (by omega)), ?_⟩
    exact ih _ h2 (fun i hi hi' => hm i (by omega) (by omega))

theorem ParamsAt_append (mem : Mem) (ps qs : List (List Nat × List Nat)) :
    ∀ d, ParamsAt mem d (ps ++ qs) ↔ ParamsAt mem d ps ∧ ParamsAt mem (d + total_size ps) qs := by
  induction ps with
  | nil => intro d; simp [ParamsAt, total_size]
  | cons p ps ih =>
    intro d
    show (EntryAt mem d p ∧ ParamsAt mem (d + entry_size p) (ps ++ qs)) ↔ _
    rw [ih, total_size_cons]
    simp only [ParamsAt, and_assoc, Nat.add_assoc]

theorem EntryAt_read (mem : Mem) (d : Nat) (p : List Nat × List Nat) (h : EntryAt mem d p)
    (hsz : entry_size p < 2 ^ 64) :
    param.read mem d = (p.1, p.2, d + entry_size p) ∧ param.size mem d = entry_size p := by
  obtain ⟨h1, h2, h3, h4⟩ := h
  unfold LenAt at h1 h2
  unfold entry_size at hsz
  unfold param.read param.size entry_size
  simp only [h1, h2, param.read_str, h3, h4]
  constructor
  · simp only [Prod.mk.injEq, true_and]; omega
  · rw [Nat.mod_eq_of_lt (by omega)]
    omega

theorem write_EntryAt (mem : Mem) (d : Nat) (name value : List Nat)
    (hn : name.length < 2 ^ 31) (hv : value.length < 2 ^ 31) :
    EntryAt (param.write mem d name value).1 d (name, value) ∧
    (∀ i, i < d ∨ d + entry_size (name, value) ≤ i →
      (param.write mem d name value).1 i = mem i) := by
  have e1 := enc_len_pos name.length
  have e2 := enc_len_pos value.length
  unfold param.write param.write_str EntryAt entry_size
  simp only [param.write_len_snd]
  constructor
  · refine ⟨?_, ?_, ?_, ?_⟩
    · refine LenAt_congr _ _ _ _ (param.write_len_LenAt mem d name.length hn) ?_
      intro i hi hi'
      simp only [memcpy_apply]
      rw [if_neg (by omega), if_neg (by omega)]
      exact param.write_len_frame _ _ _ _ (by omega)
    · refine LenAt_congr _ _ _ _
        (param.write_len_LenAt (param.write_len mem d name.length).1 _ value.length hv) ?_
      intro i hi hi'
      simp only [memcpy_apply]
      rw [if_neg (by omega), if_neg (by omega)]
    · rw [string_ref_congr (memcpy (param.write_len (param.write_len mem d name.length).1
        (d + enc_len name.length) value.length).1
        (d + enc_len name.length + enc_len value.length) name)]
      · exact string_ref_memcpy _ _ _
      · intro i hi hi'
        simp only [memcpy_apply]
        rw [if_neg (by omega)]
    · exact string_ref_memcpy _ _ _
  · intro i hi
    simp only [memcpy_apply] at hi ⊢
    rw [if_neg (by omega), if_neg (by omega)]
    rw [param.write_len_frame _ _ _ _ (by omega), param.write_len_frame _ _ _ _ (by omega)]

/-! ## Reading back what `add_param` wrote -/

theorem const_params_loop_ParamsAt (mem : Mem) (e : Nat) (ps : List (List Nat × List Nat)) :
    ∀ d fuel, ParamsAt mem d ps → d + total_size ps = e → total_size ps < 2 ^ 64 →
      ps.length + 1 ≤ fuel → const_params.loop mem ⟨e, e⟩ fuel ⟨d, e⟩ = some ps := by
  induction ps with
  | nil =>
    intro d fuel _ he _ hf
    obtain ⟨k, rfl⟩ : ∃ k, fuel = k + 1 := ⟨fuel - 1, by simp at hf; omega⟩
    have hd : d = e := by simpa [total_size] using he
    subst hd
    simp [const_params.loop, const_params.iterator.ne]
  | cons p ps ih =>
    intro d fuel h he hsz hf
    obtain ⟨k, rfl⟩ : ∃ k, fuel = k + 1 := ⟨fuel - 1, by simp at hf; omega⟩
    obtain ⟨h1, h2⟩ := h
    rw [total_size_cons] at hsz
    obtain ⟨hr, hs⟩ := EntryAt_read mem d p h1 (by omega)
    rw [total_size_cons] at he
    have hge := entry_size_ge p
    have hvalid : const_params.iterator.valid mem ⟨d, e⟩ = true := by
      simp only [const_params.iterator.valid, const_params.iterator.not_valid, param.next, hs,
        Bool.not_eq_true', Bool.or_eq_false_iff, decide_eq_false_iff_not]
      omega
    have hne : const_params.iterator.ne mem ⟨d, e⟩ ⟨e, e⟩ = true := by
      simp only [const_params.iterator.ne, hvalid, Bool.true_or, Bool.and_true,
        decide_eq_true_eq]
      omega
    have hincr : const_params.iterator.incr mem ⟨d, e⟩ = ⟨d + entry_size p, e⟩ := by
      simp [const_params.iterator.incr, param.next, hs]
    simp only [const_params.loop, hne, if_true, hincr]
    rw [ih (d + entry_size p) k h2 (by omega) (by omega) (by simp at hf ⊢; omega)]
    simp [hr]

theorem records_single (mem : Mem) (sz fuel : Nat) (h8 : 8 ≤ sz) (hn : header.next mem 0 = sz)
    (hf : 2 ≤ fuel) : const_message.records mem ⟨0, sz⟩ fuel = some [0] := by
  obtain ⟨k, rfl⟩ : ∃ k, fuel = k + 2 := ⟨fuel - 2, by omega⟩
  have hvalid : const_message.iterator.valid mem ⟨0, sz⟩ = true := by
    simp only [const_message.iterator.valid, const_message.iterator.not_valid, hn,
      Bool.not_eq_true', Bool.or_eq_false_iff, decide_eq_false_iff_not]
    omega
  have hne : const_message.iterator.ne mem ⟨0, sz⟩ ⟨sz, sz⟩ = true := by
    simp only [const_message.iterator.ne, hvalid, Bool.true_or, Bool.and_true,
      decide_eq_true_eq]
    omega
  have hincr : const_message.iterator.incr mem ⟨0, sz⟩ = ⟨sz, sz⟩ := by
    simp [const_message.iterator.incr, hn]
  simp only [const_message.records, const_message.begin_, const_message.end_, Nat.zero_add,
    const_message.loop, hne, if_true, hincr]
  simp [const_message.iterator.ne]

theorem records_empty (mem : Mem) (fuel : Nat) (hf : 1 ≤ fuel) :
    const_message.records mem ⟨0, 0⟩ fuel = some [] := by
  obtain ⟨k, rfl⟩ : ∃ k, fuel = k + 1 := ⟨fuel - 1, by omega⟩
  simp [const_message.records, const_message.begin_, const_message.end_, const_message.loop,
    const_message.iterator.ne]

namespace message

theorem open_header_fst (m : message) (type size : Nat) :
    (m.open_header type size).1 =
      { m with buf_ := header.set_size (store (header.set_id (store m.buf_ (m.cur_header_ + 1) type)
          m.cur_header_ m.id_) m.cur_header_ FCGI_VERSION_1) m.cur_header_ size } := rfl

theorem open_header_snd (m : message) (type size : Nat) :
    (m.open_header type size).2 = some m.cur_header_ := rfl

theorem open_header_frame (m : message) (type size i : Nat)
    (hi : i < m.cur_header_ ∨ m.cur_header_ + 7 ≤ i) :
    (m.open_header type size).1.buf_ i = m.buf_ i := by
  rw [open_header_fst]
  simp only
  rw [header.set_size_frame _ _ _ _ (by omega), store_apply, if_neg (by omega),
    header.set_id_frame _ _ _ _ (by omega), store_apply, if_neg (by omega)]

theorem open_header_type (m : message) (type size : Nat) :
    header.type (m.open_header type size).1.buf_ m.cur_header_ = type % 256 := by
  rw [open_header_fst]
  simp only [header.type]
  rw [header.set_size_frame _ _ _ _ (by omega), store_apply, if_neg (by omega),
    header.set_id_frame _ _ _ _ (by omega), store_apply, if_pos rfl]

theorem open_header_version (m : message) (type size : Nat) :
    header.version (m.open_header type size).1.buf_ m.cur_header_ = 1 := by
  rw [open_header_fst]
  simp only [header.version]
  rw [header.set_size_frame _ _ _ _ (by omega), store_apply, if_pos rfl]
  rfl

theorem open_header_id (m : message) (type size : Nat) :
    header.id (m.open_header type size).1.buf_ m.cur_header_ = m.id_ % 65536 := by
  rw [open_header_fst]
  simp only [header.id]
  rw [header.set_size_frame _ _ _ _ (by omega), header.set_size_frame _ _ _ _ (by omega),
    store_apply, if_neg (by omega), store_apply, if_neg (by omega)]
  exact header.id_set_id _ _ _

theorem open_header_size (m : message) (type size : Nat) :
    header.size (m.open_header type size).1.buf_ m.cur_header_ = size % 65536 := by
  rw [open_header_fst]
  exact header.size_set_size _ _ _

theorem open_header_padding (m : message) (type size : Nat) :
    header.paddingLength (m.open_header type size).1.buf_ m.cur_header_
      = (8 - size % 65536 % 8) % 8 := by
  rw [open_header_fst]
  exact header.paddingLength_set_size _ _ _

end message

/-! ## `add_param` on an open PARAMS record -/

namespace message

theorem add_header_same (m : message) (type : Nat) (hg : m.good_ = true)
    (hnt : m.terminated_ = false) (ht : header.type m.buf_ m.cur_header_ = type) :
    m.add_header type false 0 = (m, some m.cur_header_) := by
  rw [add_header_eq]
  simp [hg, hnt, ht]

theorem add_header_init (m : message) (type : Nat) (force : Bool) (size : Nat)
    (hg : m.good_ = true) (hnt : m.terminated_ = false)
    (h0 : header.type m.buf_ m.cur_header_ = 0) (ht : type ≠ 0 ∨ force = true) :
    m.add_header type force size = m.open_header type size := by
  rw [add_header_eq]
  have : (0 ≠ type ∨ force = true) := by
    rcases ht with h | h
    · exact Or.inl (Ne.symm h)
    · exact Or.inr h
  simp [hg, hnt, h0, this]

theorem add_param_of_add_header (m m' : message) (h : Nat) (name value : List Nat)
    (hah : m.add_header FCGI_PARAMS false 0 = (m', some h))
    (hfit : header.data h + header.size m'.buf_ h + name.length + value.length + m'.reserve
      ≤ m'.capacity_) :
    m.add_param name value =
      { m' with
        buf_ :=
          header.set_size (param.write m'.buf_ (header.data h + header.size m'.buf_ h) name value).1 h
            (header.size (param.write m'.buf_ (header.data h + header.size m'.buf_ h) name value).1 h
              + param.size (param.write m'.buf_ (header.data h + header.size m'.buf_ h) name value).1
                  (header.data h + header.size m'.buf_ h)) } := by
  rw [add_param_eq, hah]
  simp only
  rw [if_neg (by omega)]

end message

theorem reserve_of_params (m : message) (h : header.type m.buf_ 0 = FCGI_PARAMS) :
    m.reserve = 16 := by
  simp [message.reserve, h, sizeof_FCGI_Header, sizeof_FCGI_EndRequestBody]

theorem ParamsOpen_add_param (m : message) (ps : List (List Nat × List Nat))
    (name value : List Nat) (h : ParamsOpen m ps)
    (hfit : 24 + total_size (ps ++ [(name, value)]) ≤ m.capacity_)
    (hn : name.length < 2 ^ 31) (hv : value.length < 2 ^ 31) :
    m.add_param name value =
      { m with
        buf_ := header.set_size (param.write m.buf_ (8 + total_size ps) name value).1 0
          (total_size ps + entry_size (name, value)) } ∧
    header.type (m.add_param name value).buf_ 0 = FCGI_PARAMS ∧
    ParamsAt (m.add_param name value).buf_ 8 (ps ++ [(name, value)]) ∧
    header.size (m.add_param name value).buf_ 0
      = (total_size ps + entry_size (name, value)) % 65536 := by
  obtain ⟨hg, hnt, hc, ht, hs, hp⟩ := h
  have hah : m.add_header FCGI_PARAMS false 0 = (m, some 0) := by
    have := message.add_header_same m FCGI_PARAMS hg hnt (by rw [hc]; exact ht)
    rw [hc] at this
    exact this
  rw [total_size_append] at hfit
  have hts : total_size [(name, value)] = entry_size (name, value) := by simp [total_size]
  rw [hts] at hfit
  have hes : entry_size (name, value)
      = enc_len name.length + enc_len value.length + name.length + value.length := rfl
  have e1 := enc_len_pos name.length
  have e2 := enc_len_pos value.length
  have hd : header.data 0 + header.size m.buf_ 0 = 8 + total_size ps := by
    simp [header.data, hs]
  obtain ⟨hE, hF⟩ := write_EntryAt m.buf_ (8 + total_size ps) name value hn hv
  have hsz1 : header.size (param.write m.buf_ (8 + total_size ps) name value).1 0
      = total_size ps := by
    rw [header.size_congr m.buf_ _ 0 (hF (0 + 4) (by omega)) (hF (0 + 5) (by omega))]
    exact hs
  have hps : param.size (param.write m.buf_ (8 + total_size ps) name value).1 (8 + total_size ps)
      = entry_size (name, value) :=
    (EntryAt_read _ _ _ hE (by rw [hes]; norm_num at hn hv ⊢; omega)).2
  have heq := message.add_param_of_add_header m m 0 name value hah
    (by rw [hd, reserve_of_params m ht]; omega)
  rw [hd, hsz1, hps] at heq
  refine ⟨heq, ?_, ?_, ?_⟩
  · rw [heq]
    simp only [header.type]
    rw [header.set_size_frame _ _ _ _ (by omega), hF _ (by omega)]
    exact ht
  · rw [heq]
    simp only
    rw [ParamsAt_append]
    constructor
    · refine ParamsAt_congr m.buf_ _ ps 8 hp ?_
      intro i hi hi'
      rw [header.set_size_frame _ _ _ _ (by omega), hF _ (by omega)]
    · refine ⟨EntryAt_congr _ _ _ _ hE ?_, trivial⟩
      intro i hi hi'
      rw [header.set_size_frame _ _ _ _ (by omega)]
  · rw [heq]
    exact header.size_set_size _ _ _

theorem ParamsOpen_step (m : message) (ps : List (List Nat × List Nat))
    (name value : List Nat) (h : ParamsOpen m ps)
    (hfit : 24 + total_size (ps ++ [(name, value)]) ≤ m.capacity_)
    (h16 : total_size (ps ++ [(name, value)]) ≤ 65535) :
    ParamsOpen (m.add_param name value) (ps ++ [(name, value)]) ∧
    (m.add_param name value).capacity_ = m.capacity_ := by
  have hts : total_size (ps ++ [(name, value)]) = total_size ps + entry_size (name, value) := by
    simp [total_size]
  have hes : entry_size (name, value)
      = enc_len name.length + enc_len value.length + name.length + value.length := rfl
  have hn : name.length < 2 ^ 31 := by norm_num; omega
  have hv : value.length < 2 ^ 31 := by norm_num; omega
  obtain ⟨heq, ht', hp', hs'⟩ := ParamsOpen_add_param m ps name value h hfit hn hv
  obtain ⟨hg, hnt, hc, ht, hs, hp⟩ := h
  refine ⟨⟨?_, ?_, ?_, ht', ?_, hp'⟩, ?_⟩
  · rw [heq]; exact hg
  · rw [heq]; exact hnt
  · rw [heq]; exact hc
  · rw [hs', hts]; omega
  · rw [heq]

theorem ParamsOpen_fold (rest : List (List Nat × List Nat)) :
    ∀ (m : message) (done : List (List Nat × List Nat)), ParamsOpen m done →
      24 + total_size (done ++ rest) ≤ m.capacity_ → total_size (done ++ rest) ≤ 65535 →
      ParamsOpen (add_params m rest) (done ++ rest) ∧
      (add_params m rest).capacity_ = m.capacity_ := by
  induction rest with
  | nil => intro m done h _ _; simpa [add_params] using h
  | cons p rest ih =>
    intro m done h hfit h16
    have hsplit : done ++ p :: rest = (done ++ [p]) ++ rest := by simp
    rw [hsplit] at hfit h16 ⊢
    have hle : total_size (done ++ [p]) ≤ total_size ((done ++ [p]) ++ rest) := by
      rw [total_size_append (done ++ [p]) rest]; omega
    have hp : (p.1, p.2) = p := rfl
    obtain ⟨h1, hcap⟩ := ParamsOpen_step m done p.1 p.2 h (by rw [hp]; omega) (by rw [hp]; omega)
    rw [hp] at h1
    have := ih (m.add_param p.1 p.2) (done ++ [p]) h1 (by rw [hcap]; exact hfit) h16
    rw [hcap] at this
    exact this

theorem ParamsOpen_new (id : Nat) (buf : Mem) (cap : Nat) (h : 24 ≤ cap) :
    ParamsOpen ((message.new id buf cap).open_header FCGI_PARAMS 0).1 [] ∧
    (message.new id buf cap).add_header FCGI_PARAMS false 0
      = (message.new id buf cap).open_header FCGI_PARAMS 0 := by
  have hg : (message.new id buf cap).good_ = true := by
    simp [message.new, sizeof_FCGI_Header, sizeof_FCGI_EndRequestBody]; omega
  have h0 : header.type (message.new id buf cap).buf_ (message.new id buf cap).cur_header_ = 0 := by
    simp [message.new, header.type, store_apply]
  refine ⟨⟨hg, rfl, rfl, ?_, ?_, trivial⟩, ?_⟩
  · exact message.open_header_type (message.new id buf cap) FCGI_PARAMS 0
  · exact message.open_header_size (message.new id buf cap) FCGI_PARAMS 0
  · exact message.add_header_init _ _ _ _ hg rfl h0 (Or.inl (by decide))

/-! ## Claim C2: parameters round trip -/

theorem add_param_congr (m1 m2 : message) (name value : List Nat)
    (h : m1.add_header FCGI_PARAMS false 0 = m2.add_header FCGI_PARAMS false 0) :
    m1.add_param name value = m2.add_param name value := by
  rw [message.add_param_eq, message.add_param_eq, h]

theorem add_param_new (id : Nat) (buf : Mem) (cap : Nat) (h : 24 ≤ cap) (name value : List Nat) :
    (message.new id buf cap).add_param name value
      = ((message.new id buf cap).open_header FCGI_PARAMS 0).1.add_param name value := by
  obtain ⟨hopen, hah⟩ := ParamsOpen_new id buf cap h
  apply add_param_congr
  rw [hah]
  obtain ⟨hg, hnt, hc, ht, -, -⟩ := hopen
  have := message.add_header_same _ FCGI_PARAMS hg hnt (by rw [hc]; exact ht)
  rw [this, hc]
  rfl

theorem process_conn_params_open (m : message) (ps : List (List Nat × List Nat))
    (h : ParamsOpen m ps) (fuel : Nat) (hf : ps.length + 2 ≤ fuel) :
    const_message.records m.buf_ m.str fuel = some [0] ∧
    process_conn_params m.buf_ m.str fuel = some ps := by
  obtain ⟨hg, hnt, hc, ht, hs, hp⟩ := h
  have hsize : m.size = header.next m.buf_ 0 := by
    simp [message.size, hc, ht]
  have hrec : const_message.records m.buf_ m.str fuel = some [0] := by
    simp only [message.str, hsize]
    exact records_single _ _ _ (by simp [header.next, header.data, sizeof_FCGI_Header]; omega) rfl (by omega)
  refine ⟨hrec, ?_⟩
  have hread : const_params.read_all m.buf_ ⟨header.data 0, header.size m.buf_ 0⟩ fuel
      = some ps := by
    simp only [const_params.read_all, const_params.begin_, const_params.end_, header.data,
      sizeof_FCGI_Header, Nat.zero_add, hs]
    have hlt := header.size_lt m.buf_ 0
    exact const_params_loop_ParamsAt _ _ _ _ _ hp rfl (by omega) (by omega)
  simp [process_conn_params, hrec, ht, hread]

/-- C2, amended: for every capacity, request id and initial buffer content, and every
sequence of (name, value) pairs whose total encoded size is at most 65535 and leaves
the 24 bytes of header and reservation free (`24 + total ≤ capacity`), calling
`add_param` for each pair in order on a fresh message leaves `good()` true, and the
reading loop of `process_conn` over `str()` (every record, every entry of a PARAMS
record with `const_params` and `param::read`) yields exactly the same pairs in the same
order, given fuel for `length + 2` iterations; for a non-empty sequence `str()` is
exactly one record, of type PARAMS. -/
theorem C2_params_round_trip (id : Nat) (buf : Mem) (cap : Nat)
    (ps : List (List Nat × List Nat)) (hfit : 24 + total_size ps ≤ cap)
    (h16 : total_size ps ≤ 65535) :
    (add_params (message.new id buf cap) ps).good = true ∧
    (∀ fuel, ps.length + 2 ≤ fuel →
      process_conn_params (add_params (message.new id buf cap) ps).buf_
        (add_params (message.new id buf cap) ps).str fuel = some ps) ∧
    (ps ≠ [] → ∀ fuel, ps.length + 2 ≤ fuel →
      const_message.records (add_params (message.new id buf cap) ps).buf_
        (add_params (message.new id buf cap) ps).str fuel = some [0] ∧
      header.type (add_params (message.new id buf cap) ps).buf_ 0 = FCGI_PARAMS) := by
  cases ps with
  | nil =>
    have hg : (message.new id buf cap).good_ = true := by
      simp [message.new, sizeof_FCGI_Header, sizeof_FCGI_EndRequestBody]; omega
    have hsz : (message.new id buf cap).size = 0 := by
      simp [message.size, message.new, header.type, store_apply]
    refine ⟨hg, ?_, fun h => absurd rfl h⟩
    intro fuel hf
    simp only [add_params, List.foldl_nil, message.str, hsz, process_conn_params]
    rw [records_empty _ _ (by omega)]
    rfl
  | cons p rest =>
    have hcap : 24 ≤ cap := by omega
    obtain ⟨hopen, -⟩ := ParamsOpen_new id buf cap hcap
    have hrun : add_params (message.new id buf cap) (p :: rest)
        = add_params ((message.new id buf cap).open_header FCGI_PARAMS 0).1 (p :: rest) := by
      simp only [add_params, List.foldl_cons]
      rw [add_param_new id buf cap hcap]
    obtain ⟨hfin, -⟩ := ParamsOpen_fold (p :: rest) _ [] hopen
      (by simpa [message.open_header_fst, message.new] using hfit) (by simpa using h16)
    rw [List.nil_append] at hfin
    rw [hrun]
    refine ⟨hfin.1, ?_, ?_⟩
    · intro fuel hf
      exact (process_conn_params_open _ _ hfin fuel hf).2
    · intro _ fuel hf
      exact ⟨(process_conn_params_open _ _ hfin fuel hf).1, hfin.2.2.2.1⟩

/-- C2 at three pairs in a 64-byte buffer. -/
theorem C2_witness :
    24 + total_size [([65], [49]), ([66], [50]), ([67, 68], [])] ≤ 64 ∧
    total_size [([65], [49]), ([66], [50]), ([67, 68], [])] ≤ 65535 ∧
    process_conn_params
        (add_params (message.new 1 zero_mem 64) [([65], [49]), ([66], [50]), ([67, 68], [])]).buf_
        (add_params (message.new 1 zero_mem 64) [([65], [49]), ([66], [50]), ([67, 68], [])]).str 5
      = some [([65], [49]), ([66], [50]), ([67, 68], [])] :=
  ⟨by decide, by decide,
    (C2_params_round_trip 1 zero_mem 64 [([65], [49]), ([66], [50]), ([67, 68], [])]
      (by decide) (by decide)).2.1 5 (by decide)⟩

theorem total_size_wrapped (name : List Nat) (hlen : name.length = 65534) :
    24 + total_size [(name, [])] ≤ 131072 := by
  have : total_size [(name, [])] = 65539 := by
    simp [total_size, entry_size, enc_len, hlen]
  omega

theorem add_param_wrapped (cap : Nat) (hcap : 131072 ≤ cap) (name : List Nat)
    (hlen : name.length = 65534) :
    (add_params (message.new 1 zero_mem cap) [(name, [])]).good = true ∧
    header.type (add_params (message.new 1 zero_mem cap) [(name, [])]).buf_ 0 = FCGI_PARAMS ∧
    header.size (add_params (message.new 1 zero_mem cap) [(name, [])]).buf_ 0 = 3 ∧
    process_conn_params (add_params (message.new 1 zero_mem cap) [(name, [])]).buf_
      (add_params (message.new 1 zero_mem cap) [(name, [])]).str 3 = some [] := by
  obtain ⟨hopen, -⟩ := ParamsOpen_new 1 zero_mem cap (by omega)
  have hes : entry_size (name, []) = 65539 := by
    simp [entry_size, enc_len, hlen]
  have hrun : add_params (message.new 1 zero_mem cap) [(name, [])]
      = ((message.new 1 zero_mem cap).open_header FCGI_PARAMS 0).1.add_param name [] := by
    simp only [add_params, List.foldl_cons, List.foldl_nil]
    rw [add_param_new 1 zero_mem cap (by omega)]
  obtain ⟨heq, ht, hp, hs⟩ := ParamsOpen_add_param _ [] name [] hopen
    (by simp [total_size, hes, message.open_header_fst, message.new]; omega)
    (by rw [hlen]; norm_num) (by norm_num)
  rw [← hrun] at heq ht hp hs
  simp only [total_size, List.map_nil, List.sum_nil, Nat.zero_add, hes] at heq hs
  have hs3 : header.size (add_params (message.new 1 zero_mem cap) [(name, [])]).buf_ 0 = 3 := by
    rw [hs]
  have hpad : header.paddingLength (add_params (message.new 1 zero_mem cap) [(name, [])]).buf_ 0
      = 5 := by
    rw [heq]
    simp only
    rw [header.paddingLength_set_size]
  have hnext : header.next (add_params (message.new 1 zero_mem cap) [(name, [])]).buf_ 0
      = 16 := by
    simp [header.next, header.data, hs3, hpad, sizeof_FCGI_Header]
  have hg : (add_params (message.new 1 zero_mem cap) [(name, [])]).good_ = true := by
    rw [heq]
    exact hopen.1
  have hc : (add_params (message.new 1 zero_mem cap) [(name, [])]).cur_header_ = 0 := by
    rw [heq]
    rfl
  have hsize : (add_params (message.new 1 zero_mem cap) [(name, [])]).size = 16 := by
    simp [message.size, hc, ht, hnext]
  have hrec : const_message.records (add_params (message.new 1 zero_mem cap) [(name, [])]).buf_
      (add_params (message.new 1 zero_mem cap) [(name, [])]).str 3 = some [0] := by
    simp only [message.str, hsize]
    exact records_single _ _ _ (by omega) hnext (by omega)
  have hps : param.size (add_params (message.new 1 zero_mem cap) [(name, [])]).buf_ 8
      = 65539 := by
    have := (EntryAt_read _ _ _ hp.1 (by rw [hes]; norm_num)).2
    rw [this, hes]
  have hread : const_params.read_all (add_params (message.new 1 zero_mem cap) [(name, [])]).buf_
      ⟨header.data 0, 3⟩ 3 = some [] := by
    simp [const_params.read_all, const_params.loop, const_params.begin_, const_params.end_,
      const_params.iterator.ne, const_params.iterator.valid, const_params.iterator.not_valid,
      param.next, hps, header.data, sizeof_FCGI_Header]
  refine ⟨hg, ht, hs3, ?_⟩
  simp [process_conn_params, hrec, ht, hs3, hread]

/-- C2 as stated fails.  (1) Capacity 16 and the single pair ("", ""): the encoded
pair (2 bytes) and its header fit the buffer, but `add_param` overflows and `good()`
is false.  (2) Capacity 131072 and one pair whose name is 65534 zero bytes with an
empty value: the 65539 encoded bytes fit even below the reservation and `good()` is
true, but the PARAMS record declares content length 65539 mod 65536 = 3 and the
reading loop of `process_conn` yields no pair at all. -/
theorem C2_counterexample :
    (8 + total_size [([], [])] ≤ 16 ∧
      (add_params (message.new 1 zero_mem 16) [([], [])]).good = false) ∧
    (24 + total_size [(List.replicate 65534 0, [])] ≤ 131072 ∧
      (add_params (message.new 1 zero_mem 131072) [(List.replicate 65534 0, [])]).good = true ∧
      header.size
        (add_params (message.new 1 zero_mem 131072) [(List.replicate 65534 0, [])]).buf_ 0 = 3 ∧
      process_conn_params
        (add_params (message.new 1 zero_mem 131072) [(List.replicate 65534 0, [])]).buf_
        (add_params (message.new 1 zero_mem 131072) [(List.replicate 65534 0, [])]).str 3
        = some []) := by
  have h := add_param_wrapped 131072 (le_refl _) (List.replicate 65534 0)
    (List.length_replicate _ _)
  have h1 := total_size_wrapped (List.replicate 65534 0) (List.length_replicate _ _)
  exact ⟨⟨by decide, by decide⟩, h1, h.1, h.2.2.1, h.2.2.2⟩

/-! ## What a successful builder call did -/

namespace header

theorem append_size (mem : Mem) (h : Nat) (s : List Nat) :
    size (append mem h s) h = (size mem h + s.length) % 65536 := by
  unfold append
  exact size_set_size _ _ _

theorem append_frame (mem : Mem) (h : Nat) (s : List Nat) (i : Nat)
    (h1 : i < h + 4 ∨ h + 7 ≤ i)
    (h2 : i < data h + size mem h ∨ data h + size mem h + s.length ≤ i) :
    append mem h s i = mem i := by
  unfold append
  rw [set_size_frame _ _ _ _ h1, memcpy_apply, if_neg (by omega)]

theorem append_content (mem : Mem) (h : Nat) (s : List Nat) :
    string_ref (append mem h s) (data h + size mem h) s.length = s := by
  unfold append
  rw [string_ref_congr (memcpy mem (data h + size mem h) s)]
  · exact string_ref_memcpy _ _ _
  · intro i hi hi'
    refine set_size_frame _ _ _ _ ?_
    simp only [data, sizeof_FCGI_Header] at hi
    omega

theorem append_str (mem : Mem) (h : Nat) (s : List Nat) (hle : size mem h + s.length ≤ 65535) :
    str (append mem h s) h = str mem h ++ s := by
  unfold str
  rw [append_size, Nat.mod_eq_of_lt (by omega), string_ref_add, append_content]
  congr 1
  apply string_ref_congr
  intro i hi hi'
  refine append_frame _ _ _ _ ?_ (by omega)
  simp only [data, sizeof_FCGI_Header] at hi
  omega

theorem append_type (mem : Mem) (h : Nat) (s : List Nat) :
    type (append mem h s) h = type mem h := by
  unfold type
  refine append_frame _ _ _ _ (by omega) ?_
  simp only [data, sizeof_FCGI_Header]
  omega

end header

namespace message

theorem add_header_none (m : message) (type : Nat) (force : Bool) (size : Nat)
    (h : (m.add_header type force size).2 = none) :
    (m.add_header type force size).1.good_ = false := by
  rw [add_header_eq] at h ⊢
  unfold open_header at h ⊢
  split_ifs at h ⊢ <;> simp_all [overflow_good]

theorem add_header_some (m m' : message) (type : Nat) (force : Bool) (size h : Nat)
    (hres : m.add_header type force size = (m', some h)) :
    m.good_ = true ∧ h = m'.cur_header_ ∧
    ((m' = m ∧ (m.terminated_ = true ∨
        (header.type m.buf_ m.cur_header_ = type ∧ force = false))) ∨
      (m.terminated_ = false ∧ (header.type m.buf_ m.cur_header_ ≠ type ∨ force = true) ∧
        m' = (open_header
          { m with cur_header_ :=
              if header.type m.buf_ m.cur_header_ ≠ 0 then header.next m.buf_ m.cur_header_
              else m.cur_header_ } type size).1)) := by
  rw [add_header_eq] at hres
  unfold open_header at hres ⊢
  split_ifs at hres <;>
    simp only [Prod.mk.injEq, Option.some.injEq, reduceCtorEq, and_false] at hres
  all_goals obtain ⟨rfl, rfl⟩ := hres
  all_goals simp_all

theorem append_good (m : message) (type : Nat) (str : List Nat)
    (hg : (m.append type str).good_ = true) :
    ∃ m', m.add_header type false 0 = (m', some m'.cur_header_) ∧
      m.append type str = { m' with buf_ := header.append m'.buf_ m'.cur_header_ str } := by
  rw [append_eq] at hg ⊢
  rcases hah : m.add_header type false 0 with ⟨m', _ | h⟩
  · have := add_header_none m type false 0 (by rw [hah])
    rw [hah] at hg this
    simp only at hg this
    rw [this] at hg
    exact absurd hg (by decide)
  · rw [hah] at hg
    simp only at hg ⊢
    have hh := (add_header_some m m' type false 0 h hah).2.1
    subst hh
    refine ⟨m', rfl, ?_⟩
    split_ifs at hg ⊢ with hov
    · rw [overflow_good] at hg
      exact absurd hg (by decide)
    · rfl

end message

/-! ## One `append`, and the calls that force a new record -/

theorem append_good_pre (m : message) (t : Nat) (s : List Nat)
    (hg : (m.append t s).good_ = true) : m.good_ = true := by
  obtain ⟨m', hah, -⟩ := message.append_good m t s hg
  exact (message.add_header_some m m' t false 0 _ hah).1

theorem prior_content_length (m : message) (t : Nat) :
    (prior_content m t).length =
      if header.type m.buf_ m.cur_header_ = t then header.size m.buf_ m.cur_header_ else 0 := by
  unfold prior_content
  split_ifs
  · simp [header.str, string_ref_length]
  · rfl

theorem header_str_of_size_zero (mem : Mem) (h : Nat) (hs : header.size mem h = 0) :
    header.str mem h = [] := by
  simp [header.str, hs, string_ref]

theorem header_next_ge (mem : Mem) (h : Nat) : h + 8 ≤ header.next mem h := by
  simp only [header.next, header.data, sizeof_FCGI_Header]
  omega

theorem header_next_congr (mem mem' : Mem) (h : Nat)
    (hm : ∀ i, i < h + 7 → mem' i = mem i) : header.next mem' h = header.next mem h := by
  simp only [header.next, header.data, header.size, header.paddingLength]
  rw [hm (h + 4) (by omega), hm (h + 5) (by omega), hm (h + 6) (by omega)]

theorem header_str_congr (mem mem' : Mem) (h : Nat)
    (hm : ∀ i, i < header.next mem h → mem' i = mem i) : header.str mem' h = header.str mem h := by
  have hn : h + 8 + header.size mem h ≤ header.next mem h := by
    simp only [header.next, header.data, sizeof_FCGI_Header]
    omega
  have hs : header.size mem' h = header.size mem h :=
    header.size_congr mem mem' h (hm _ (by omega)) (hm _ (by omega))
  unfold header.str
  rw [hs]
  apply string_ref_congr
  intro i _ hi
  simp only [header.data, sizeof_FCGI_Header] at hi
  exact hm i (by omega)

/-- One successful `append(t, b)`: where the current header ends up, what stays, and
what the current record then holds. -/
theorem append_tail (m : message) (t : Nat) (b : List Nat) (ht : t < 256)
    (hg : (m.append t b).good_ = true)
    (htt : m.terminated_ = true → header.type m.buf_ m.cur_header_ = t) :
    m.good_ = true ∧ (m.append t b).terminated_ = m.terminated_ ∧
    (m.append t b).cur_header_ =
      (if header.type m.buf_ m.cur_header_ = t then m.cur_header_
        else if header.type m.buf_ m.cur_header_ ≠ 0 then header.next m.buf_ m.cur_header_
        else m.cur_header_) ∧
    (∀ i, i < (m.append t b).cur_header_ → (m.append t b).buf_ i = m.buf_ i) ∧
    header.type (m.append t b).buf_ (m.append t b).cur_header_ = t ∧
    header.size (m.append t b).buf_ (m.append t b).cur_header_
      = ((prior_content m t).length + b.length) % 65536 ∧
    ((prior_content m t).length + b.length ≤ 65535 →
      header.str (m.append t b).buf_ (m.append t b).cur_header_ = prior_content m t ++ b) := by
  obtain ⟨m', hah, heq⟩ := message.append_good m t b hg
  obtain ⟨hmg, -, hcase⟩ := message.add_header_some m m' t false 0 _ hah
  rw [heq]
  simp only
  have hpl := prior_content_length m t
  rcases hcase with ⟨rfl, hc⟩ | ⟨hnt, hne, rfl⟩
  · have htype : header.type m'.buf_ m'.cur_header_ = t := by
      rcases hc with hc | ⟨hc, -⟩
      · exact htt hc
      · exact hc
    rw [if_pos htype] at hpl ⊢
    refine ⟨hmg, rfl, rfl, ?_, ?_, ?_, ?_⟩
    · intro i hi
      refine header.append_frame _ _ _ _ (by omega) ?_
      simp only [header.data, sizeof_FCGI_Header]
      omega
    · rw [header.append_type]; exact htype
    · rw [header.append_size, hpl]
    · intro hle
      rw [header.append_str _ _ _ (by omega)]
      simp [prior_content, htype]
  · have hne' : header.type m.buf_ m.cur_header_ ≠ t := by
      rcases hne with h | h
      · exact h
      · exact absurd h (by decide)
    rw [if_neg hne'] at hpl
    have hpc : prior_content m t = [] := by simp [prior_content, hne']
    simp only [message.open_header_fst]
    generalize hc : (if header.type m.buf_ m.cur_header_ ≠ 0 then
      header.next m.buf_ m.cur_header_ else m.cur_header_) = c
    have hc' : (if header.type m.buf_ m.cur_header_ = t then m.cur_header_
        else if header.type m.buf_ m.cur_header_ ≠ 0 then header.next m.buf_ m.cur_header_
        else m.cur_header_) = c := by
      rw [if_neg hne']; exact hc
    have hopen := message.open_header_frame { m with cur_header_ := c } t 0
    have hty := message.open_header_type { m with cur_header_ := c } t 0
    have hsz := message.open_header_size { m with cur_header_ := c } t 0
    simp only [message.open_header_fst, Nat.zero_mod] at hopen hty hsz
    refine ⟨hmg, ?_, ?_, ?_, ?_, ?_, ?_⟩
    · first | rfl | trivial
    · first | exact hc'.symm | rw [if_neg hne']
    · intro i hi
      rw [header.append_frame _ _ _ _ (by omega)
        (by simp only [header.data, sizeof_FCGI_Header]; omega)]
      exact hopen i (by omega)
    · rw [header.append_type, hty]
      exact Nat.mod_eq_of_lt ht
    · rw [header.append_size, hsz, hpl]
    · intro hle
      rw [header.append_str _ _ _ (by rw [hsz]; rw [hpc] at hle; simpa using hle),
        header_str_of_size_zero _ _ hsz, hpc]

namespace message

theorem open_header_cur (m : message) (type size : Nat) :
    (m.open_header type size).1.cur_header_ = m.cur_header_ := rfl

/-- A forced `add_header` that succeeds on a non-terminated message with an open record
opens the new header right after that record. -/
theorem add_header_forced (m m' : message) (type size h : Nat)
    (hres : m.add_header type true size = (m', some h)) (hnt : m.terminated_ = false)
    (h0 : header.type m.buf_ m.cur_header_ ≠ 0) :
    m.good_ = true ∧ h = header.next m.buf_ m.cur_header_ ∧
    m' = (open_header { m with cur_header_ := header.next m.buf_ m.cur_header_ } type size).1 := by
  obtain ⟨hg, hh, hcase⟩ := add_header_some m m' type true size h hres
  rcases hcase with ⟨-, hc⟩ | ⟨-, -, rfl⟩
  · rcases hc with hc | ⟨-, hc⟩
    · rw [hnt] at hc; exact absurd hc (by decide)
    · exact absurd hc (by decide)
  · rw [if_pos h0] at hh ⊢
    exact ⟨hg, hh, rfl⟩

theorem end_stream_forced (m : message) (t : Nat) (ht : t < 256)
    (hg : (m.end_stream t).good_ = true) (hnt : m.terminated_ = false)
    (htype : header.type m.buf_ m.cur_header_ = t) (ht0 : t ≠ 0)
    (hsz : header.size m.buf_ m.cur_header_ ≠ 0) :
    m.good_ = true ∧
    (m.end_stream t).cur_header_ = header.next m.buf_ m.cur_header_ ∧
    (∀ i, i < header.next m.buf_ m.cur_header_ → (m.end_stream t).buf_ i = m.buf_ i) ∧
    header.type (m.end_stream t).buf_ (m.end_stream t).cur_header_ = t ∧
    header.size (m.end_stream t).buf_ (m.end_stream t).cur_header_ = 0 := by
  have hmg : m.good_ = true := by
    by_contra hb
    have hb' : m.good_ = false := by simpa using hb
    have : m.add_header t false 0 = (m, none) := by rw [add_header_eq]; simp [hb']
    rw [end_stream_eq, this] at hg
    simp only at hg
    rw [hb'] at hg
    exact absurd hg (by decide)
  have h1 := add_header_same m t hmg hnt htype
  rw [end_stream_eq, h1] at hg ⊢
  simp only [hsz, ne_eq, not_false_eq_true, if_true] at hg ⊢
  rcases hah : m.add_header t true 0 with ⟨m', _ | h⟩
  · have := add_header_none m t true 0 (by rw [hah])
    rw [hah] at hg this
    simp only at hg this
    rw [this] at hg
    exact absurd hg (by decide)
  · obtain ⟨-, -, rfl⟩ := add_header_forced m m' t 0 h hah hnt (by rw [htype]; exact ht0)
    have hopen := open_header_frame { m with cur_header_ := header.next m.buf_ m.cur_header_ } t 0
    have hty := open_header_type { m with cur_header_ := header.next m.buf_ m.cur_header_ } t 0
    have hsz' := open_header_size { m with cur_header_ := header.next m.buf_ m.cur_header_ } t 0
    simp only [Nat.zero_mod] at hopen hty hsz'
    rw [Nat.mod_eq_of_lt ht] at hty
    refine ⟨hmg, ?_, ?_, ?_, ?_⟩
    · split_ifs <;> rfl
    · intro i hi
      split_ifs <;> exact hopen i (Or.inl hi)
    · split_ifs <;> exact hty
    · split_ifs <;> exact hsz'

theorem begin_request_forced (m : message) (role flags : Nat)
    (hg : (m.begin_request role flags).good_ = true) (hnt : m.terminated_ = false)
    (h0 : header.type m.buf_ m.cur_header_ ≠ 0) :
    m.good_ = true ∧ (m.begin_request role flags).terminated_ = false ∧
    (m.begin_request role flags).cur_header_ = header.next m.buf_ m.cur_header_ ∧
    (∀ i, i < header.next m.buf_ m.cur_header_ → (m.begin_request role flags).buf_ i = m.buf_ i) ∧
    header.type (m.begin_request role flags).buf_ (m.begin_request role flags).cur_header_
      = FCGI_BEGIN_REQUEST ∧
    header.size (m.begin_request role flags).buf_ (m.begin_request role flags).cur_header_ = 8 := by
  rw [begin_request_eq] at hg ⊢
  rcases hah : m.add_header FCGI_BEGIN_REQUEST true sizeof_FCGI_BeginRequestBody with ⟨m', _ | h⟩
  · have := add_header_none m _ true _ (by rw [hah])
    rw [hah] at hg this
    simp only at hg this
    rw [this] at hg
    exact absurd hg (by decide)
  · obtain ⟨hmg, rfl, rfl⟩ := add_header_forced m m' _ _ h hah hnt h0
    have hopen := open_header_frame { m with cur_header_ := header.next m.buf_ m.cur_header_ }
      FCGI_BEGIN_REQUEST sizeof_FCGI_BeginRequestBody
    have hty := open_header_type { m with cur_header_ := header.next m.buf_ m.cur_header_ }
      FCGI_BEGIN_REQUEST sizeof_FCGI_BeginRequestBody
    have hsz := open_header_size { m with cur_header_ := header.next m.buf_ m.cur_header_ }
      FCGI_BEGIN_REQUEST sizeof_FCGI_BeginRequestBody
    simp only at hopen hty hsz
    have hbody : ∀ i, i < header.next m.buf_ m.cur_header_ + 8 →
        store (begin_request_body.set_role
          (open_header { m with cur_header_ := header.next m.buf_ m.cur_header_ }
            FCGI_BEGIN_REQUEST sizeof_FCGI_BeginRequestBody).1.buf_
          (header.data (header.next m.buf_ m.cur_header_)) role)
          (header.data (header.next m.buf_ m.cur_header_) + 2) flags i
        = (open_header { m with cur_header_ := header.next m.buf_ m.cur_header_ }
            FCGI_BEGIN_REQUEST sizeof_FCGI_BeginRequestBody).1.buf_ i := by
      intro i hi
      simp only [begin_request_body.set_role, store_apply, header.data, sizeof_FCGI_Header]
      rw [if_neg (by omega), if_neg (by omega), if_neg (by omega)]
    refine ⟨hmg, hnt, rfl, ?_, ?_, ?_⟩
    · intro i hi
      simp only
      rw [hbody i (by omega)]
      exact hopen i (Or.inl hi)
    · simp only [header.type, open_header_cur]
      rw [hbody _ (by omega)]
      exact hty
    · simp only [open_header_cur]
      rw [header.size_congr _ _ _ (hbody _ (by omega)) (hbody _ (by omega))]
      exact hsz

theorem end_request_forced (m : message) (app_status proto_status : Nat)
    (hg : (m.end_request app_status proto_status).good_ = true) (hnt : m.terminated_ = false)
    (h0 : header.type m.buf_ m.cur_header_ ≠ 0) :
    m.good_ = true ∧ (m.end_request app_status proto_status).terminated_ = false ∧
    (m.end_request app_status proto_status).cur_header_ = header.next m.buf_ m.cur_header_ ∧
    (∀ i, i < header.next m.buf_ m.cur_header_ →
      (m.end_request app_status proto_status).buf_ i = m.buf_ i) ∧
    header.type (m.end_request app_status proto_status).buf_
      (m.end_request app_status proto_status).cur_header_ = FCGI_END_REQUEST ∧
    header.size (m.end_request app_status proto_status).buf_
      (m.end_request app_status proto_status).cur_header_ = 8 := by
  rw [end_request_eq] at hg ⊢
  rcases hah : m.add_header FCGI_END_REQUEST true sizeof_FCGI_EndRequestBody with ⟨m', _ | h⟩
  · have := add_header_none m _ true _ (by rw [hah])
    rw [hah] at hg this
    simp only at hg this
    rw [this] at hg
    exact absurd hg (by decide)
  · obtain ⟨hmg, rfl, rfl⟩ := add_header_forced m m' _ _ h hah hnt h0
    have hopen := open_header_frame { m with cur_header_ := header.next m.buf_ m.cur_header_ }
      FCGI_END_REQUEST sizeof_FCGI_EndRequestBody
    have hty := open_header_type { m with cur_header_ := header.next m.buf_ m.cur_header_ }
      FCGI_END_REQUEST sizeof_FCGI_EndRequestBody
    have hsz := open_header_size { m with cur_header_ := header.next m.buf_ m.cur_header_ }
      FCGI_END_REQUEST sizeof_FCGI_EndRequestBody
    simp only at hopen hty hsz
    have hbody : ∀ i, i < header.next m.buf_ m.cur_header_ + 8 →
        store (end_request_body.set_app_status
          (open_header { m with cur_header_ := header.next m.buf_ m.cur_header_ }
            FCGI_END_REQUEST sizeof_FCGI_EndRequestBody).1.buf_
          (header.data (header.next m.buf_ m.cur_header_)) app_status)
          (header.data (header.next m.buf_ m.cur_header_) + 4) proto_status i
        = (open_header { m with cur_header_ := header.next m.buf_ m.cur_header_ }
            FCGI_END_REQUEST sizeof_FCGI_EndRequestBody).1.buf_ i := by
      intro i hi
      simp only [end_request_body.set_app_status, store_apply, header.data, sizeof_FCGI_Header]
      rw [if_neg (by omega), if_neg (by omega), if_neg (by omega), if_neg (by omega),
        if_neg (by omega)]
    refine ⟨hmg, hnt, rfl, ?_, ?_, ?_⟩
    · intro i hi
      simp only
      rw [hbody i (by omega)]
      exact hopen i (Or.inl hi)
    · simp only [header.type, open_header_cur]
      rw [hbody _ (by omega)]
      exact hty
    · simp only [open_header_cur]
      rw [header.size_congr _ _ _ (hbody _ (by omega)) (hbody _ (by omega))]
      exact hsz

end message

/-! ## Coalescing: the shape of the records after successful calls -/

/-- After an operation that left the builder right behind the record of `m1`, one
more successful `append(t, b)` keeps that record and puts `b` into a later one. -/
theorem separate_of_tail (m1 m2 : message) (t : Nat) (b : List Nat) (ht : t < 256)
    (htype : header.type m1.buf_ m1.cur_header_ = t)
    (hcur : m2.cur_header_ = header.next m1.buf_ m1.cur_header_)
    (hframe : ∀ i, i < header.next m1.buf_ m1.cur_header_ → m2.buf_ i = m1.buf_ i)
    (hg : (m2.append t b).good_ = true)
    (htt : m2.terminated_ = true → header.type m2.buf_ m2.cur_header_ = t)
    (hlen : (prior_content m2 t).length + b.length ≤ 65535) :
    separate_records m1 (m2.append t b) t (header.str m1.buf_ m1.cur_header_)
      (prior_content m2 t ++ b) := by
  obtain ⟨-, -, hc3, hf3, hty3, -, hstr3⟩ := append_tail m2 t b ht hg htt
  have hn1 := header_next_ge m1.buf_ m1.cur_header_
  have hn2 := header_next_ge m2.buf_ m2.cur_header_
  have hge : m2.cur_header_ ≤ (m2.append t b).cur_header_ := by
    rw [hc3]
    split_ifs <;> omega
  have hall : ∀ i, i < header.next m1.buf_ m1.cur_header_ →
      (m2.append t b).buf_ i = m1.buf_ i := by
    intro i hi
    rw [hf3 i (by omega), hframe i hi]
  refine ⟨by omega, ?_, ?_, ?_, hty3, hstr3 hlen⟩
  · rw [header_next_congr m1.buf_ _ _ (fun i hi => hall i (by omega))]
    omega
  · simp only [header.type]
    rw [hall _ (by omega)]
    exact htype
  · exact header_str_congr _ _ _ hall

/-- The shape of the records once the calls are known to have succeeded.  For every
record type `t` (1 to 255), byte strings `a`, `b` and non-terminated message, write `prior` for the content the current record already holds
if it has type `t` (nothing otherwise) and let `prior`, `a`, `b` together have at most
65535 bytes.  If `append(t,a)` immediately followed by `append(t,b)` leaves `good()`
true, both went into one record: the current header does not move between the two
calls, and that record has type `t`, content length `|prior|+|a|+|b|` and content
`prior`, `a`, `b` in this order (so exactly `a` followed by `b` when the first call
opened the record).  With a successful `append(u,c)`, `u ≠ t`, `u ≠ 0`, between the two
calls, or a forced open between them (`end_stream(t)` on the non-empty record,
`begin_request`, `end_request`), the record holding `prior`, `a` stays as it is and `b`
is in a later record of type `t`, whose content is `b` (after the 8-byte body, when
`begin_request` or `end_request` opened that record with type `t`). -/
theorem coalescing_of_good (m : message) (t : Nat) (a b : List Nat) (ht0 : t ≠ 0) (ht : t < 256)
    (hnt : m.terminated_ = false)
    (hlen : (prior_content m t).length + a.length + b.length ≤ 65535) :
    (((m.append t a).append t b).good = true →
      ((m.append t a).append t b).cur_header_ = (m.append t a).cur_header_ ∧
      header.type ((m.append t a).append t b).buf_ ((m.append t a).append t b).cur_header_ = t ∧
      header.size ((m.append t a).append t b).buf_ ((m.append t a).append t b).cur_header_
        = (prior_content m t).length + a.length + b.length ∧
      header.str ((m.append t a).append t b).buf_ ((m.append t a).append t b).cur_header_
        = prior_content m t ++ a ++ b) ∧
    (∀ u c, u ≠ 0 → u < 256 → u ≠ t →
      (((m.append t a).append u c).append t b).good = true →
      separate_records (m.append t a) (((m.append t a).append u c).append t b) t
        (prior_content m t ++ a) b) ∧
    (prior_content m t ++ a ≠ [] →
      (((m.append t a).end_stream t).append t b).good = true →
      separate_records (m.append t a) (((m.append t a).end_stream t).append t b) t
        (prior_content m t ++ a) b) ∧
    (∀ role flags, b.length + 8 ≤ 65535 →
      (((m.append t a).begin_request role flags).append t b).good = true →
      separate_records (m.append t a) (((m.append t a).begin_request role flags).append t b) t
        (prior_content m t ++ a)
        (prior_content ((m.append t a).begin_request role flags) t ++ b)) ∧
    (∀ app_status proto_status, b.length + 8 ≤ 65535 →
      (((m.append t a).end_request app_status proto_status).append t b).good = true →
      separate_records (m.append t a)
        (((m.append t a).end_request app_status proto_status).append t b) t
        (prior_content m t ++ a)
        (prior_content ((m.append t a).end_request app_status proto_status) t ++ b)) := by
  -- what the first append did, once it is known to have succeeded
  have first : (m.append t a).good_ = true →
      (m.append t a).terminated_ = false ∧
      header.type (m.append t a).buf_ (m.append t a).cur_header_ = t ∧
      header.size (m.append t a).buf_ (m.append t a).cur_header_
        = (prior_content m t).length + a.length ∧
      header.str (m.append t a).buf_ (m.append t a).cur_header_ = prior_content m t ++ a := by
    intro hg1
    obtain ⟨-, hterm, -, -, hty, hsz, hstr⟩ :=
      append_tail m t a ht hg1 (fun h => by rw [hnt] at h; exact absurd h (by decide))
    refine ⟨by rw [hterm]; exact hnt, hty, ?_, hstr (by omega)⟩
    rw [hsz, Nat.mod_eq_of_lt (by omega)]
  refine ⟨?_, ?_, ?_, ?_, ?_⟩
  · intro hg2
    have hg1 : (m.append t a).good_ = true :=
      append_good_pre _ t b hg2
    obtain ⟨hnt1, hty1, hsz1, hstr1⟩ := first hg1
    have hp1 : prior_content (m.append t a) t = prior_content m t ++ a := by
      simp [prior_content, hty1, hstr1]
    obtain ⟨-, -, hc, -, hty, hsz, hstr⟩ := append_tail (m.append t a) t b ht hg2 (fun _ => hty1)
    rw [hp1] at hsz hstr
    simp only [List.length_append] at hsz hstr
    refine ⟨by rw [hc, if_pos hty1], hty, ?_, hstr (by omega)⟩
    rw [hsz, Nat.mod_eq_of_lt (by omega)]
  · intro u c hu0 hu hut hg3
    have hg2 : ((m.append t a).append u c).good_ = true :=
      append_good_pre _ t b hg3
    have hg1 : (m.append t a).good_ = true :=
      append_good_pre _ u c hg2
    obtain ⟨hnt1, hty1, hsz1, hstr1⟩ := first hg1
    have htu : header.type (m.append t a).buf_ (m.append t a).cur_header_ ≠ u := by
      rw [hty1]; exact fun h => hut h.symm
    obtain ⟨-, hterm2, hc2, hf2, hty2, -, -⟩ := append_tail (m.append t a) u c hu hg2
      (fun h => by rw [hnt1] at h; exact absurd h (by decide))
    rw [if_neg htu, if_pos (by rw [hty1]; exact ht0)] at hc2
    have hp2 : prior_content ((m.append t a).append u c) t = [] := by
      simp [prior_content, hty2, hut]
    have := separate_of_tail (m.append t a) ((m.append t a).append u c) t b ht hty1 hc2
      (fun i hi => hf2 i (by rw [hc2]; exact hi)) hg3
      (fun h => by rw [hterm2, hnt1] at h; exact absurd h (by decide))
      (by rw [hp2]; simp; omega)
    rw [hp2, hstr1] at this
    exact this
  · intro hne hg3
    have hg2 : ((m.append t a).end_stream t).good_ = true :=
      append_good_pre _ t b hg3
    have hg1 : (m.append t a).good_ = true := by
      by_contra hb
      have hb' : (m.append t a).good_ = false := by simpa using hb
      have hah : (m.append t a).add_header t false 0 = (m.append t a, none) := by
        rw [message.add_header_eq]; simp [hb']
      rw [message.end_stream_eq, hah] at hg2
      simp only at hg2
      rw [hb'] at hg2
      exact absurd hg2 (by decide)
    obtain ⟨hnt1, hty1, hsz1, hstr1⟩ := first hg1
    have hsz0 : header.size (m.append t a).buf_ (m.append t a).cur_header_ ≠ 0 := by
      rw [hsz1]
      intro h0
      apply hne
      apply List.eq_nil_of_length_eq_zero
      simp only [List.length_append]
      omega
    obtain ⟨-, hc2, hf2, hty2, hsz2⟩ :=
      message.end_stream_forced (m.append t a) t ht hg2 hnt1 hty1 ht0 hsz0
    have hp2 : prior_content ((m.append t a).end_stream t) t = [] := by
      simp [prior_content, hty2, header_str_of_size_zero _ _ hsz2]
    have := separate_of_tail (m.append t a) ((m.append t a).end_stream t) t b ht hty1 hc2 hf2 hg3
      (fun _ => hty2) (by rw [hp2]; simp; omega)
    rw [hp2, hstr1] at this
    exact this
  · intro role flags hb8 hg3
    have hg2 : ((m.append t a).begin_request role flags).good_ = true :=
      append_good_pre _ t b hg3
    have hg1 : (m.append t a).good_ = true := by
      by_contra hb
      have hb' : (m.append t a).good_ = false := by simpa using hb
      have hah : (m.append t a).add_header FCGI_BEGIN_REQUEST true sizeof_FCGI_BeginRequestBody
          = (m.append t a, none) := by
        rw [message.add_header_eq]; simp [hb']
      rw [message.begin_request_eq, hah] at hg2
      simp only at hg2
      rw [hb'] at hg2
      exact absurd hg2 (by decide)
    obtain ⟨hnt1, hty1, hsz1, hstr1⟩ := first hg1
    obtain ⟨-, hterm2, hc2, hf2, hty2, hsz2⟩ :=
      message.begin_request_forced (m.append t a) role flags hg2 hnt1 (by rw [hty1]; exact ht0)
    have hpl : (prior_content ((m.append t a).begin_request role flags) t).length ≤ 8 := by
      rw [prior_content_length]
      split_ifs
      · omega
      · omega
    have := separate_of_tail (m.append t a) ((m.append t a).begin_request role flags) t b ht
      hty1 hc2 hf2 hg3 (fun h => by rw [hterm2] at h; exact absurd h (by decide)) (by omega)
    rw [hstr1] at this
    exact this
  · intro app_status proto_status hb8 hg3
    have hg2 : ((m.append t a).end_request app_status proto_status).good_ = true :=
      append_good_pre _ t b hg3
    have hg1 : (m.append t a).good_ = true := by
      by_contra hb
      have hb' : (m.append t a).good_ = false := by simpa using hb
      have hah : (m.append t a).add_header FCGI_END_REQUEST true sizeof_FCGI_EndRequestBody
          = (m.append t a, none) := by
        rw [message.add_header_eq]; simp [hb']
      rw [message.end_request_eq, hah] at hg2
      simp only at hg2
      rw [hb'] at hg2
      exact absurd hg2 (by decide)
    obtain ⟨hnt1, hty1, hsz1, hstr1⟩ := first hg1
    obtain ⟨-, hterm2, hc2, hf2, hty2, hsz2⟩ :=
      message.end_request_forced (m.append t a) app_status proto_status hg2 hnt1
        (by rw [hty1]; exact ht0)
    have hpl : (prior_content ((m.append t a).end_request app_status proto_status) t).length
        ≤ 8 := by
      rw [prior_content_length]
      split_ifs
      · omega
      · omega
    have := separate_of_tail (m.append t a) ((m.append t a).end_request app_status proto_status)
      t b ht hty1 hc2 hf2 hg3 (fun h => by rw [hterm2] at h; exact absurd h (by decide))
      (by omega)
    rw [hstr1] at this
    exact this

namespace message

theorem append_of_add_header (m m' : message) (h type : Nat) (str : List Nat)
    (hah : m.add_header type false 0 = (m', some h))
    (hfit : header.data h + header.size m'.buf_ h + str.length + m'.reserve ≤ m'.capacity_) :
    m.append type str = { m' with buf_ := header.append m'.buf_ h str } := by
  rw [append_eq, hah]
  simp only
  rw [if_neg (by omega)]

end message

theorem append_wrapped (cap : Nat) (hcap : 131072 ≤ cap) (a : List Nat) (ha : a.length = 65535) :
    (((message.new 1 zero_mem cap).append FCGI_STDOUT a).append FCGI_STDOUT [0]).good = true ∧
    header.size (((message.new 1 zero_mem cap).append FCGI_STDOUT a).append FCGI_STDOUT [0]).buf_
      (((message.new 1 zero_mem cap).append FCGI_STDOUT a).append FCGI_STDOUT [0]).cur_header_ = 0 := by
  have hg0 : (message.new 1 zero_mem cap).good_ = true := by
    simp [message.new, sizeof_FCGI_Header, sizeof_FCGI_EndRequestBody]; omega
  have h0 : header.type (message.new 1 zero_mem cap).buf_ (message.new 1 zero_mem cap).cur_header_
      = 0 := by
    simp [message.new, header.type, store_apply]
  have hah := message.add_header_init (message.new 1 zero_mem cap) FCGI_STDOUT false 0 hg0 rfl h0
    (Or.inl (by decide))
  have hty := message.open_header_type (message.new 1 zero_mem cap) FCGI_STDOUT 0
  have hsz := message.open_header_size (message.new 1 zero_mem cap) FCGI_STDOUT 0
  have hr : ((message.new 1 zero_mem cap).open_header FCGI_STDOUT 0).1.reserve = 16 := by
    have : header.type ((message.new 1 zero_mem cap).open_header FCGI_STDOUT 0).1.buf_ 0 = 6 := hty
    simp [message.reserve, this, sizeof_FCGI_Header, sizeof_FCGI_EndRequestBody]
  have hcap' : ((message.new 1 zero_mem cap).open_header FCGI_STDOUT 0).1.capacity_ = cap := rfl
  have hcur : (message.new 1 zero_mem cap).cur_header_ = 0 := rfl
  have h1 := message.append_of_add_header (message.new 1 zero_mem cap)
    ((message.new 1 zero_mem cap).open_header FCGI_STDOUT 0).1 0 FCGI_STDOUT a
    (by rw [hah]; rfl)
    (by
      rw [hcur] at hsz
      rw [hsz, hr, hcap', ha]
      simp only [header.data, sizeof_FCGI_Header]
      omega)
  have hg1 : ((message.new 1 zero_mem cap).append FCGI_STDOUT a).good_ = true := by
    rw [h1]; exact hg0
  have hnt : (message.new 1 zero_mem cap).terminated_ = false := rfl
  obtain ⟨-, hterm1, hc1, -, hty1, hsz1, -⟩ := append_tail (message.new 1 zero_mem cap) FCGI_STDOUT a
    (by decide) hg1 (fun h => by rw [hnt] at h; exact absurd h (by decide))
  have hp0 : prior_content (message.new 1 zero_mem cap) FCGI_STDOUT = [] := by
    simp [prior_content, h0]
  rw [hp0, ha] at hsz1
  simp only [List.length_nil, Nat.zero_add] at hsz1
  rw [h0] at hc1
  simp only [ne_eq, not_true_eq_false, if_false] at hc1
  rw [if_neg (by decide)] at hc1
  have hah2 := message.add_header_same ((message.new 1 zero_mem cap).append FCGI_STDOUT a)
    FCGI_STDOUT hg1 (by rw [hterm1]; rfl) hty1
  have hr2 : ((message.new 1 zero_mem cap).append FCGI_STDOUT a).reserve = 16 := by
    have : header.type ((message.new 1 zero_mem cap).append FCGI_STDOUT a).buf_ 0 = 6 := by
      rw [hc1, hcur] at hty1; exact hty1
    simp [message.reserve, this, sizeof_FCGI_Header, sizeof_FCGI_EndRequestBody]
  have hcap2 : ((message.new 1 zero_mem cap).append FCGI_STDOUT a).capacity_ = cap := by
    rw [h1]; rfl
  have h2 := message.append_of_add_header _ _ _ FCGI_STDOUT [0] hah2
    (by
      rw [hsz1, hr2, hcap2, hc1, hcur]
      simp only [header.data, sizeof_FCGI_Header, List.length_singleton]
      omega)
  have hg2 : (((message.new 1 zero_mem cap).append FCGI_STDOUT a).append FCGI_STDOUT [0]).good_
      = true := by
    rw [h2]; exact hg1
  refine ⟨hg2, ?_⟩
  obtain ⟨-, -, -, -, -, hsz2, -⟩ := append_tail _ FCGI_STDOUT [0] (by decide) hg2 (fun _ => hty1)
  rw [hsz2, prior_content_length, if_pos hty1, hsz1]
  rfl

/-- C4 as stated fails.  (1) Capacity 64, the current record is a STDOUT record
holding one byte: `[2]` and `[3]` together fit below the reservation,
`append(STDOUT, [2])` then `append(STDOUT, [3])` leave `good()` true, but the one
record has content length 3 and content 1, 2, 3, not length 2 and content 2, 3.
(2) Capacity 131072, fresh message: 65535 zero bytes and one more byte fit below the
reservation, `append(STDOUT, a)` then `append(STDOUT, [0])` leave `good()` true, but
the record declares content length 0, not 65536. -/
theorem C4_counterexample :
    (((message.new 1 zero_mem 64).append FCGI_STDOUT [1]).good = true ∧
      ((message.new 1 zero_mem 64).append FCGI_STDOUT [1]).terminated_ = false ∧
      ((message.new 1 zero_mem 64).append FCGI_STDOUT [1]).fits FCGI_STDOUT
        ([2].length + [3].length) = true ∧
      ((((message.new 1 zero_mem 64).append FCGI_STDOUT [1]).append FCGI_STDOUT [2]).append
        FCGI_STDOUT [3]).good = true ∧
      header.size
        ((((message.new 1 zero_mem 64).append FCGI_STDOUT [1]).append FCGI_STDOUT [2]).append
          FCGI_STDOUT [3]).buf_
        ((((message.new 1 zero_mem 64).append FCGI_STDOUT [1]).append FCGI_STDOUT [2]).append
          FCGI_STDOUT [3]).cur_header_ = 3 ∧
      header.str
        ((((message.new 1 zero_mem 64).append FCGI_STDOUT [1]).append FCGI_STDOUT [2]).append
          FCGI_STDOUT [3]).buf_
        ((((message.new 1 zero_mem 64).append FCGI_STDOUT [1]).append FCGI_STDOUT [2]).append
          FCGI_STDOUT [3]).cur_header_ = [1, 2, 3]) ∧
    ((List.replicate 65535 0).length + [0].length = 65536 ∧
      (message.new 1 zero_mem 131072).fits FCGI_STDOUT 65536 = true ∧
      (((message.new 1 zero_mem 131072).append FCGI_STDOUT (List.replicate 65535 0)).append
        FCGI_STDOUT [0]).good = true ∧
      header.size
        (((message.new 1 zero_mem 131072).append FCGI_STDOUT (List.replicate 65535 0)).append
          FCGI_STDOUT [0]).buf_
        (((message.new 1 zero_mem 131072).append FCGI_STDOUT (List.replicate 65535 0)).append
          FCGI_STDOUT [0]).cur_header_ = 0) := by
  have h := append_wrapped 131072 (le_refl _) (List.replicate 65535 0) (List.length_replicate _ _)
  have hl : ∀ l : List Nat, l.length = 65535 → l.length + [0].length = 65536 := by
    intro l hl; rw [hl]; rfl
  exact ⟨by decide, hl _ (List.length_replicate _ _), by decide, h.1, h.2⟩

/-! ## Claim C11: the dead state -/

namespace message

theorem add_header_dead (m : message) (type : Nat) (force : Bool) (size : Nat)
    (hg : m.good_ = false) : m.add_header type force size = (m, none) := by
  rw [add_header_eq, if_pos hg]

theorem perform_dead (m : message) (hg : m.good_ = false) (c : call) (hc : c ≠ call.clear) :
    m.perform c = m := by
  cases c with
  | begin_request role flags =>
    show m.begin_request role flags = m
    rw [begin_request_eq, add_header_dead m _ _ _ hg]
  | end_request a p =>
    show m.end_request a p = m
    rw [end_request_eq, add_header_dead m _ _ _ hg]
  | append t s =>
    show m.append t s = m
    rw [append_eq, add_header_dead m _ _ _ hg]
  | end_stream t =>
    show m.end_stream t = m
    rw [end_stream_eq, add_header_dead m _ _ _ hg]
  | add_param name value =>
    show m.add_param name value = m
    rw [add_param_eq, add_header_dead m _ _ _ hg]
  | clear => exact absurd rfl hc

end message

/-- C11: in a state with `good() == false` each of `begin_request`, `append`,
`add_param`, `end_stream` and `end_request` returns the message as it was, so `good()`
stays false and `size()` and every byte of the buffer are unchanged; the `id()` setter
leaves `good()` false as well, and `clear()` sets it to `capacity >= 16`, the only way
back to a good message. -/
theorem C11_dead_state_terminal (m : message) (hdead : m.good = false) :
    (∀ role flags, m.begin_request role flags = m) ∧
    (∀ t s, m.append t s = m) ∧
    (∀ name value, m.add_param name value = m) ∧
    (∀ t, m.end_stream t = m) ∧
    (∀ app_status proto_status, m.end_request app_status proto_status = m) ∧
    (∀ c : call, c ≠ call.clear →
      (m.perform c).good = false ∧ (m.perform c).size = m.size ∧
      ∀ i, (m.perform c).buf_ i = m.buf_ i) ∧
    (∀ id, (m.set_id id).good = false) ∧
    m.clear.good = decide (m.capacity_ ≥ 16) := by
  have hg : m.good_ = false := hdead
  refine ⟨fun role flags => message.perform_dead m hg (call.begin_request role flags) (by simp),
    fun t s => message.perform_dead m hg (call.append t s) (by simp),
    fun name value => message.perform_dead m hg (call.add_param name value) (by simp),
    fun t => message.perform_dead m hg (call.end_stream t) (by simp),
    fun a p => message.perform_dead m hg (call.end_request a p) (by simp),
    fun c hc => ?_, fun id => hg, rfl⟩
  rw [message.perform_dead m hg c hc]
  exact ⟨hg, rfl, fun _ => rfl⟩

theorem C11_witness :
    (message.new 1 zero_mem 8).good = false ∧
    ((message.new 1 zero_mem 8).append FCGI_STDOUT [120]).good = false ∧
    ((message.new 1 zero_mem 8).append FCGI_STDOUT [120]).size = (message.new 1 zero_mem 8).size ∧
    (message.new 1 zero_mem 8).clear.good = false :=
  ⟨by decide,
    ((C11_dead_state_terminal (message.new 1 zero_mem 8) (by decide)).2.2.2.2.2.1
      (call.append FCGI_STDOUT [120]) (by simp)).1,
    ((C11_dead_state_terminal (message.new 1 zero_mem 8) (by decide)).2.2.2.2.2.1
      (call.append FCGI_STDOUT [120]) (by simp)).2.1,
    by decide⟩

/-! ## Claims C14, C15, C18, C19: header fields, `clear()` and the application status -/

/-- C14: for a content length `L` in `[0, 65535]`, `header::size(L)` stores `L` (read
back by `size()`) and the padding `P = (8 - L mod 8) mod 8`; `P` is at most 7 and
`L + P` is a multiple of 8. -/
theorem C14_size_padding (mem : Mem) (h L : Nat) (hL : L ≤ 65535) :
    header.size (header.set_size mem h L) h = L ∧
    header.paddingLength (header.set_size mem h L) h = (8 - L % 8) % 8 ∧
    header.paddingLength (header.set_size mem h L) h ≤ 7 ∧
    (L + header.paddingLength (header.set_size mem h L) h) % 8 = 0 := by
  have hmod : L % 65536 = L := Nat.mod_eq_of_lt (by omega)
  rw [header.size_set_size, header.paddingLength_set_size, hmod]
  refine ⟨rfl, rfl, ?_, ?_⟩ <;> omega

theorem C14_witness :
    header.size (header.set_size zero_mem 0 65535) 0 = 65535 ∧
    header.paddingLength (header.set_size zero_mem 0 65535) 0 = (8 - 65535 % 8) % 8 ∧
    header.paddingLength (header.set_size zero_mem 0 65535) 0 ≤ 7 ∧
    (65535 + header.paddingLength (header.set_size zero_mem 0 65535) 0) % 8 = 0 :=
  C14_size_padding zero_mem 0 65535 (by decide)

/-- C15: `header::valid()` is true exactly when the version is `FCGI_VERSION_1` and the
type is at least 1 and below `FCGI_MAXTYPE`; so it is false when the version is not 1,
when the type is 0 and when the type is at or above the sentinel. -/
theorem C15_valid_iff (mem : Mem) (h : Nat) :
    (header.valid mem h = true ↔
      header.version mem h = FCGI_VERSION_1 ∧ 1 ≤ header.type mem h ∧
        header.type mem h < FCGI_MAXTYPE) ∧
    (header.version mem h ≠ 1 → header.valid mem h = false) ∧
    (header.type mem h = 0 → header.valid mem h = false) ∧
    (header.type mem h ≥ FCGI_MAXTYPE → header.valid mem h = false) ∧
    FCGI_VERSION_1 = 1 ∧ FCGI_MAXTYPE = 11 := by
  have key : header.valid mem h = true ↔
      header.version mem h = FCGI_VERSION_1 ∧ 1 ≤ header.type mem h ∧
        header.type mem h < FCGI_MAXTYPE := by
    unfold header.valid
    simp only [Bool.and_eq_true, beq_iff_eq, decide_eq_true_eq, ge_iff_le, FCGI_BEGIN_REQUEST,
      and_assoc]
  refine ⟨key, fun hv => ?_, fun ht => ?_, fun ht => ?_, rfl, rfl⟩
  · rw [← Bool.not_eq_true, key]
    exact fun hk => hv hk.1
  · rw [← Bool.not_eq_true, key]
    intro hk
    omega
  · rw [← Bool.not_eq_true, key]
    intro hk
    omega

/-- C18: `clear()` gives the state the constructor gives for the same id, buffer and
capacity: `size()` is 0, the type marker of the current header is 0, `terminated` is
false, `good()` is `capacity >= 16`, and id, capacity and all bytes of the buffer other
than the type marker are unchanged. -/
theorem C18_clear_resets (m : message) :
    m.clear = message.new m.id_ m.buf_ m.capacity_ ∧
    m.clear.size = 0 ∧
    m.clear.cur_header_ = 0 ∧
    header.type m.clear.buf_ m.clear.cur_header_ = 0 ∧
    m.clear.terminated_ = false ∧
    m.clear.good = decide (m.capacity_ ≥ 16) ∧
    m.clear.id_ = m.id_ ∧
    m.clear.capacity_ = m.capacity_ ∧
    (∀ i, i ≠ 1 → m.clear.buf_ i = m.buf_ i) := by
  refine ⟨rfl, ?_, rfl, ?_, rfl, rfl, rfl, rfl, fun i hi => ?_⟩
  · simp [message.size, message.clear, header.type, store_apply]
  · simp [message.clear, header.type, store_apply]
  · simp [message.clear, store_apply, hi]

theorem set_app_status_bytes (mem : Mem) (b s : Nat) (hs : s < 2 ^ 32) :
    end_request_body.set_app_status mem b s b = s / 2 ^ 24 ∧
    end_request_body.set_app_status mem b s (b + 1) = s / 2 ^ 16 % 256 ∧
    end_request_body.set_app_status mem b s (b + 2) = s / 2 ^ 8 % 256 ∧
    end_request_body.set_app_status mem b s (b + 3) = s % 256 ∧
    (∀ i, i < b ∨ b + 4 ≤ i → end_request_body.set_app_status mem b s i = mem i) ∧
    end_request_body.app_status (end_request_body.set_app_status mem b s) b = s := by
  have e0 : end_request_body.set_app_status mem b s b = s / 2 ^ 24 := by
    simp only [end_request_body.set_app_status, store_apply]
    have h1 : b ≠ b + 1 := by omega
    have h2 : b ≠ b + 2 := by omega
    have h3 : b ≠ b + 3 := by omega
    simp only [h1, h2, h3, if_false, if_true]
    omega
  have e1 : end_request_body.set_app_status mem b s (b + 1) = s / 2 ^ 16 % 256 := by
    simp only [end_request_body.set_app_status, store_apply]
    simp
  have e2 : end_request_body.set_app_status mem b s (b + 2) = s / 2 ^ 8 % 256 := by
    simp only [end_request_body.set_app_status, store_apply]
    simp
  have e3 : end_request_body.set_app_status mem b s (b + 3) = s % 256 := by
    simp only [end_request_body.set_app_status, store_apply]
    simp
  refine ⟨e0, e1, e2, e3, fun i hi => ?_, ?_⟩
  · simp only [end_request_body.set_app_status, store_apply]
    have h0 : i ≠ b := by omega
    have h1 : i ≠ b + 1 := by omega
    have h2 : i ≠ b + 2 := by omega
    have h3 : i ≠ b + 3 := by omega
    simp only [h0, h1, h2, h3, if_false]
  · unfold end_request_body.app_status
    rw [e0, e1, e2, e3]
    omega

/-- C19: for an application status `s` below `2^32`, `end_request_body::app_status(s)`
stores the four bytes of `s` in big-endian order (B3 = `s >> 24`, B2, B1, B0 = `s &
0xFF`) and `app_status()` then returns `s`. -/
theorem C19_app_status_round_trip (mem : Mem) (b s : Nat) (hs : s < 2 ^ 32) :
    end_request_body.set_app_status mem b s b = s / 2 ^ 24 ∧
    end_request_body.set_app_status mem b s (b + 1) = s / 2 ^ 16 % 256 ∧
    end_request_body.set_app_status mem b s (b + 2) = s / 2 ^ 8 % 256 ∧
    end_request_body.set_app_status mem b s (b + 3) = s % 256 ∧
    (∀ i, i < b ∨ b + 4 ≤ i → end_request_body.set_app_status mem b s i = mem i) ∧
    end_request_body.app_status (end_request_body.set_app_status mem b s) b = s :=
  set_app_status_bytes mem b s hs

theorem C19_witness :
    end_request_body.app_status (end_request_body.set_app_status zero_mem 8 0xDEADBEEF) 8
      = 0xDEADBEEF :=
  (C19_app_status_round_trip zero_mem 8 0xDEADBEEF (by decide)).2.2.2.2.2

/-! ## Claim C17: equality of traversal positions -/

theorem const_message_position_e (mem : Mem) (c : const_message) (n : Nat) :
    (const_message.position mem c n).e_ = c.buf_data + c.buf_size := by
  induction n with
  | zero => rfl
  | succ n ih => exact ih

theorem const_params_position_e (mem : Mem) (c : const_params) (n : Nat) :
    (const_params.position mem c n).e_ = c.buf_data + c.buf_size := by
  induction n with
  | zero => rfl
  | succ n ih => exact ih

theorem const_message_end_compare (mem : Mem) (i : const_message.iterator) (e : Nat)
    (he : i.e_ = e) :
    i.ne mem ⟨e, e⟩ = i.valid mem ∧ i.eq mem ⟨e, e⟩ = i.not_valid mem := by
  obtain ⟨h, e'⟩ := i
  subst he
  simp only [const_message.iterator.ne, const_message.iterator.eq,
    const_message.iterator.valid, const_message.iterator.not_valid]
  by_cases h1 : h = e'
  · subst h1
    simp
  · by_cases h2 : e' ≤ h <;> simp [h1, h2]

theorem const_params_end_compare (mem : Mem) (i : const_params.iterator) (e : Nat)
    (he : i.e_ = e) :
    i.ne mem ⟨e, e⟩ = i.valid mem ∧ i.eq mem ⟨e, e⟩ = i.not_valid mem := by
  obtain ⟨p, e'⟩ := i
  subst he
  simp only [const_params.iterator.ne, const_params.iterator.eq,
    const_params.iterator.valid, const_params.iterator.not_valid]
  by_cases h1 : p = e'
  · subst h1
    simp
  · by_cases h2 : e' ≤ p <;> simp [h1, h2]

/-- C17: at every position `i` a traversal reaches from `begin()` by increments (of a
`const_message` and of a `const_params`), `i != end()` is `i.valid()` and `i == end()`
is `i.not_valid()`; for any two positions `a != b` is the negation of `a == b`, and
`a == b` holds exactly when the positions are identical or both are not valid. -/
theorem C17_iterator_equality (mem : Mem) :
    (∀ (c : const_message) (n : Nat),
      (const_message.position mem c n).ne mem c.end_ = (const_message.position mem c n).valid mem ∧
      (const_message.position mem c n).eq mem c.end_
        = (const_message.position mem c n).not_valid mem) ∧
    (∀ a b : const_message.iterator,
      a.ne mem b = !a.eq mem b ∧
      (a.eq mem b = true ↔ a.h_ = b.h_ ∨ (a.not_valid mem = true ∧ b.not_valid mem = true))) ∧
    (∀ (c : const_params) (n : Nat),
      (const_params.position mem c n).ne mem c.end_ = (const_params.position mem c n).valid mem ∧
      (const_params.position mem c n).eq mem c.end_
        = (const_params.position mem c n).not_valid mem) ∧
    (∀ a b : const_params.iterator,
      a.ne mem b = !a.eq mem b ∧
      (a.eq mem b = true ↔ a.p_ = b.p_ ∨ (a.not_valid mem = true ∧ b.not_valid mem = true))) := by
  refine ⟨fun c n => const_message_end_compare mem _ _ (const_message_position_e mem c n),
    fun a b => ⟨?_, ?_⟩,
    fun c n => const_params_end_compare mem _ _ (const_params_position_e mem c n),
    fun a b => ⟨?_, ?_⟩⟩
  · simp only [const_message.iterator.ne, const_message.iterator.eq, const_message.iterator.valid]
    by_cases h : a.h_ = b.h_ <;> simp [h, Bool.not_and]
  · simp only [const_message.iterator.eq, Bool.or_eq_true, Bool.and_eq_true, decide_eq_true_eq]
  · simp only [const_params.iterator.ne, const_params.iterator.eq, const_params.iterator.valid]
    by_cases h : a.p_ = b.p_ <;> simp [h, Bool.not_and]
  · simp only [const_params.iterator.eq, Bool.or_eq_true, Bool.and_eq_true, decide_eq_true_eq]

/-! ## Claim C16: one parameter entry -/

theorem enc_length (L : Nat) : (enc L).length = enc_len L := by
  unfold enc enc_len
  split_ifs <;> rfl

theorem write_len_bytes (mem : Mem) (d L : Nat) (hL : L < 2 ^ 31) :
    string_ref (param.write_len mem d L).1 d (enc_len L) = enc L := by
  unfold enc enc_len param.write_len
  by_cases h : L ≤ 127
  · simp only [if_pos h, string_ref, store_apply]
    have hr1 : List.range 1 = [0] := rfl
    simp only [hr1, List.map_cons, List.map_nil, Nat.add_zero, if_true]
    congr 1
    omega
  · simp only [if_neg h, string_ref, store_apply]
    have hor : 128 ||| L / 2 ^ 24 = 128 + L / 2 ^ 24 := or_128 _ (by omega)
    have h1 : d ≠ d + 1 := by omega
    have h2 : d ≠ d + 2 := by omega
    have h3 : d ≠ d + 3 := by omega
    have h4 : d + 1 ≠ d + 2 := by omega
    have h5 : d + 1 ≠ d + 3 := by omega
    have h6 : d + 2 ≠ d + 3 := by omega
    have hr : List.range 4 = [0, 1, 2, 3] := rfl
    simp only [hr, List.map_cons, List.map_nil, Nat.add_zero, h1, h2, h3, h4, h5, h6, if_true,
      if_false, hor]
    have hb : (128 + L / 2 ^ 24) % 256 = 128 + L / 2 ^ 24 := Nat.mod_eq_of_lt (by omega)
    rw [hb, Nat.mod_mod]

theorem write_snd (mem : Mem) (d : Nat) (name value : List Nat) :
    (param.write mem d name value).2 = d + entry_size (name, value) := by
  simp only [param.write, param.write_str, param.write_len_snd, entry_size]
  omega

theorem write_bytes (mem : Mem) (d : Nat) (name value : List Nat)
    (hn : name.length < 2 ^ 31) (hv : value.length < 2 ^ 31) :
    string_ref (param.write mem d name value).1 d (entry_size (name, value))
      = enc name.length ++ enc value.length ++ name ++ value := by
  have e1 := enc_len_pos name.length
  have e2 := enc_len_pos value.length
  obtain ⟨_, _, h3, h4⟩ := (write_EntryAt mem d name value hn hv).1
  have hsz : entry_size (name, value)
      = enc_len name.length + enc_len value.length + name.length + value.length := rfl
  rw [hsz, string_ref_add, string_ref_add, string_ref_add]
  simp only at h3 h4
  simp only [← Nat.add_assoc]
  rw [h3, h4]
  congr 2
  · congr 1
    · rw [← write_len_bytes mem d name.length hn]
      apply string_ref_congr
      intro i hi hi'
      simp only [param.write, param.write_str, param.write_len_snd, memcpy_apply]
      rw [if_neg (by omega), if_neg (by omega)]
      exact param.write_len_frame _ _ _ _ (by omega)
    · rw [← write_len_bytes (param.write_len mem d name.length).1 (d + enc_len name.length)
        value.length hv]
      apply string_ref_congr
      intro i hi hi'
      simp only [param.write, param.write_str, param.write_len_snd, memcpy_apply]
      rw [if_neg (by omega), if_neg (by omega)]

/-- C16: for byte strings `name` and `value` shorter than `2^31`, `param::write(name,
value)` writes exactly the bytes `enc(len(name)) ++ enc(len(value)) ++ name ++ value`
from its position on, nothing else, and returns the position just past them;
`param::read` on these bytes returns `name` and `value`, `param::size()` is the number
of bytes written and `param::next()` the position just past the entry. -/
theorem C16_param_entry (mem : Mem) (d : Nat) (name value : List Nat)
    (hn : name.length < 2 ^ 31) (hv : value.length < 2 ^ 31) :
    string_ref (param.write mem d name value).1 d
        (enc name.length ++ enc value.length ++ name ++ value).length
      = enc name.length ++ enc value.length ++ name ++ value ∧
    (param.write mem d name value).2
      = d + (enc name.length ++ enc value.length ++ name ++ value).length ∧
    (∀ i, i < d ∨ (param.write mem d name value).2 ≤ i →
      (param.write mem d name value).1 i = mem i) ∧
    (param.read (param.write mem d name value).1 d).1 = name ∧
    (param.read (param.write mem d name value).1 d).2.1 = value ∧
    (param.read (param.write mem d name value).1 d).2.2 = (param.write mem d name value).2 ∧
    param.size (param.write mem d name value).1 d
      = (enc name.length ++ enc value.length ++ name ++ value).length ∧
    param.next (param.write mem d name value).1 d = (param.write mem d name value).2 := by
  have hlen : (enc name.length ++ enc value.length ++ name ++ value).length
      = entry_size (name, value) := by
    simp only [List.length_append, enc_length, entry_size]
  obtain ⟨hE, hF⟩ := write_EntryAt mem d name value hn hv
  have e1 := enc_len_pos name.length
  have e2 := enc_len_pos value.length
  obtain ⟨hr, hs⟩ := EntryAt_read _ _ _ hE
    (by simp only [entry_size]; norm_num at hn hv ⊢; omega)
  rw [hlen, write_snd]
  refine ⟨write_bytes mem d name value hn hv, rfl, hF, ?_, ?_, ?_, hs, ?_⟩
  · rw [hr]
  · rw [hr]
  · rw [hr]
  · unfold param.next
    rw [hs]

theorem C16_witness :
    (param.read (param.write zero_mem 8 [65, 66] (List.replicate 130 7)).1 8).1 = [65, 66] ∧
    (param.read (param.write zero_mem 8 [65, 66] (List.replicate 130 7)).1 8).2.1
      = List.replicate 130 7 ∧
    param.size (param.write zero_mem 8 [65, 66] (List.replicate 130 7)).1 8
      = (enc 2 ++ enc 130 ++ [65, 66] ++ List.replicate 130 7).length :=
  ⟨(C16_param_entry zero_mem 8 [65, 66] (List.replicate 130 7) (by decide) (by simp)).2.2.2.1,
   (C16_param_entry zero_mem 8 [65, 66] (List.replicate 130 7) (by decide) (by simp)).2.2.2.2.1,
   (C16_param_entry zero_mem 8 [65, 66] (List.replicate 130 7) (by decide)
      (by simp)).2.2.2.2.2.2.1⟩

/-! ## Linked records -/

theorem Linked_le (mem : Mem) (hs : List Nat) :
    ∀ h e, Linked mem h hs e → h ≤ e ∧ ∀ r ∈ hs, h ≤ r ∧ header.next mem r ≤ e := by
  induction hs with
  | nil =>
    intro h e hl
    exact ⟨Nat.le_of_eq hl, fun r hr => absurd hr (List.not_mem_nil r)⟩
  | cons a rs ih =>
    intro h e hl
    obtain ⟨rfl, hl'⟩ := hl
    obtain ⟨h1, h2⟩ := ih _ _ hl'
    have hn := header_next_ge mem a
    refine ⟨by omega, fun r hr => ?_⟩
    rcases List.mem_cons.1 hr with rfl | hr'
    · exact ⟨Nat.le_refl _, h1⟩
    · have := h2 r hr'
      exact ⟨by omega, this.2⟩

theorem Linked_congr (mem mem' : Mem) (hs : List Nat) :
    ∀ h e, Linked mem h hs e → (∀ i, i < e → mem' i = mem i) → Linked mem' h hs e := by
  induction hs with
  | nil => exact fun h e hl _ => hl
  | cons a rs ih =>
    intro h e hl hm
    obtain ⟨rfl, hl'⟩ := hl
    have hle := (Linked_le mem rs _ _ hl').1
    have hn := header_next_ge mem a
    have hnext : header.next mem' a = header.next mem a :=
      header_next_congr mem mem' a (fun i hi => hm i (by omega))
    refine ⟨rfl, ?_⟩
    rw [hnext]
    exact ih _ _ hl' hm

theorem Linked_snoc (mem : Mem) (hs : List Nat) :
    ∀ h c, Linked mem h hs c → Linked mem h (hs ++ [c]) (header.next mem c) := by
  induction hs with
  | nil =>
    intro h c hl
    have hc : h = c := hl
    subst hc
    exact ⟨rfl, rfl⟩
  | cons a rs ih =>
    intro h c hl
    exact ⟨hl.1, ih _ _ hl.2⟩

theorem GoodRec_congr (mem mem' : Mem) (id h : Nat) (hg : GoodRec mem id h)
    (hm : ∀ i, i < h + 7 → mem' i = mem i) : GoodRec mem' id h := by
  obtain ⟨hv, hi, hp⟩ := hg
  have e0 := hm h (by omega)
  have e1 := hm (h + 1) (by omega)
  have e2 := hm (h + 2) (by omega)
  have e3 := hm (h + 3) (by omega)
  have e4 := hm (h + 4) (by omega)
  have e5 := hm (h + 5) (by omega)
  have e6 := hm (h + 6) (by omega)
  refine ⟨?_, ?_, ?_⟩
  · simpa only [header.valid, header.version, header.type, e0, e1] using hv
  · simpa only [header.id, e2, e3] using hi
  · simpa only [header.paddingLength, header.size, e4, e5, e6] using hp

theorem GoodRec_type (mem : Mem) (id h : Nat) (hg : GoodRec mem id h) :
    header.type mem h ≠ 0 := by
  have hv := hg.1
  simp only [header.valid, Bool.and_eq_true, decide_eq_true_eq, FCGI_BEGIN_REQUEST] at hv
  omega

theorem GoodRec_next (mem : Mem) (id h : Nat) (hg : GoodRec mem id h) :
    (header.next mem h - h) % 8 = 0 := by
  obtain ⟨_, _, hp⟩ := hg
  unfold header.next header.data
  rw [hp]
  simp only [sizeof_FCGI_Header]
  omega

theorem Linked_mod8 (mem : Mem) (id : Nat) (hs : List Nat) :
    ∀ h e, Linked mem h hs e → (∀ r ∈ hs, GoodRec mem id r) → h % 8 = 0 → e % 8 = 0 := by
  induction hs with
  | nil =>
    intro h e hl _ h8
    rw [← (show h = e from hl)]
    exact h8
  | cons a rs ih =>
    intro h e hl hg h8
    obtain ⟨rfl, hl'⟩ := hl
    have hn := header_next_ge mem a
    have h1 := GoodRec_next mem id a (hg a (List.mem_cons_self _ _))
    exact ih _ _ hl' (fun r hr => hg r (List.mem_cons_of_mem _ hr)) (by omega)

theorem loop_of_linked (mem : Mem) (e : Nat) (hs : List Nat) :
    ∀ h fuel, Linked mem h hs e → hs.length + 1 ≤ fuel →
      const_message.loop mem ⟨e, e⟩ fuel ⟨h, e⟩ = some hs := by
  induction hs with
  | nil =>
    intro h fuel hl hf
    obtain ⟨k, rfl⟩ : ∃ k, fuel = k + 1 := ⟨fuel - 1, by simp at hf; omega⟩
    have he : h = e := hl
    subst he
    simp [const_message.loop, const_message.iterator.ne]
  | cons a rs ih =>
    intro h fuel hl hf
    obtain ⟨rfl, hl'⟩ := hl
    obtain ⟨k, rfl⟩ : ∃ k, fuel = k + 1 := ⟨fuel - 1, by simp at hf; omega⟩
    have hle := (Linked_le mem rs _ _ hl').1
    have hn := header_next_ge mem a
    have hne : const_message.iterator.ne mem ⟨a, e⟩ ⟨e, e⟩ = true := by
      simp only [const_message.iterator.ne, const_message.iterator.valid,
        const_message.iterator.not_valid, Bool.and_eq_true, Bool.or_eq_true, decide_eq_true_eq,
        Bool.not_eq_true', Bool.or_eq_false_iff, decide_eq_false_iff_not]
      refine ⟨by omega, Or.inl ⟨⟨by omega, by omega⟩, by omega⟩⟩
    have hrec := ih (header.next mem a) k hl' (by simp at hf ⊢; omega)
    simp only [const_message.loop, hne, if_true, const_message.iterator.incr, hrec, Option.map_some']

theorem position_of_linked (mem : Mem) (c : const_message) (e : Nat) (hs : List Nat) :
    ∀ h n, Linked mem h hs e → const_message.position mem c n = ⟨h, e⟩ →
      const_message.position mem c (n + hs.length) = ⟨e, e⟩ := by
  induction hs with
  | nil =>
    intro h n hl hp
    show const_message.position mem c n = _
    rw [hp, (show h = e from hl)]
  | cons a rs ih =>
    intro h n hl hp
    obtain ⟨rfl, hl'⟩ := hl
    have hstep : const_message.position mem c (n + 1) = ⟨header.next mem a, e⟩ := by
      show (const_message.position mem c n).incr mem = _
      rw [hp]
      rfl
    have := ih _ (n + 1) hl' hstep
    rw [List.length_cons, ← Nat.add_assoc, Nat.add_right_comm]
    exact this

/-! ## The builder keeps the records well formed -/

theorem WellFormed_congr (m m' : message) (id : Nat) (hw : WellFormed m id)
    (hid : m'.id_ = m.id_) (hcur : m'.cur_header_ = m.cur_header_)
    (hm : ∀ i, i < m.cur_header_ + 7 → m'.buf_ i = m.buf_ i) : WellFormed m' id := by
  obtain ⟨h1, h2⟩ := hw
  refine ⟨by rw [hid, h1], ?_⟩
  rcases h2 with ⟨hc, ht⟩ | ⟨hs, hl, hg, hgc⟩
  · left
    refine ⟨by rw [hcur, hc], ?_⟩
    have := hm 1 (by omega)
    simpa only [header.type, this] using ht
  · right
    refine ⟨hs, ?_, ?_, ?_⟩
    · rw [hcur]
      exact Linked_congr _ _ _ _ _ hl (fun i hi => hm i (by omega))
    · intro r hr
      have hle := (Linked_le _ _ _ _ hl).2 r hr
      have hn := header_next_ge m.buf_ r
      exact GoodRec_congr _ _ _ _ (hg r hr) (fun i hi => hm i (by omega))
    · rw [hcur]
      exact GoodRec_congr _ _ _ _ hgc hm

theorem GoodRec_set_size (mem b : Mem) (id h s : Nat) (hg : GoodRec mem id h)
    (hb : ∀ i, i < h + 4 → b i = mem i) : GoodRec (header.set_size b h s) id h := by
  obtain ⟨hv, hi, _⟩ := hg
  have e0 : header.set_size b h s h = mem h := by
    rw [header.set_size_frame _ _ _ _ (by omega), hb h (by omega)]
  have e1 : header.set_size b h s (h + 1) = mem (h + 1) := by
    rw [header.set_size_frame _ _ _ _ (by omega), hb _ (by omega)]
  have e2 : header.set_size b h s (h + 2) = mem (h + 2) := by
    rw [header.set_size_frame _ _ _ _ (by omega), hb _ (by omega)]
  have e3 : header.set_size b h s (h + 3) = mem (h + 3) := by
    rw [header.set_size_frame _ _ _ _ (by omega), hb _ (by omega)]
  refine ⟨?_, ?_, ?_⟩
  · simpa only [header.valid, header.version, header.type, e0, e1] using hv
  · simpa only [header.id, e2, e3] using hi
  · rw [header.paddingLength_set_size, header.size_set_size]

theorem WellFormed_set_size (m : message) (id : Nat) (b : Mem) (s : Nat) (hw : WellFormed m id)
    (hb : ∀ i, i < m.cur_header_ + 4 → b i = m.buf_ i) :
    WellFormed { m with buf_ := header.set_size b m.cur_header_ s } id := by
  have hfr : ∀ i, i < m.cur_header_ + 4 → header.set_size b m.cur_header_ s i = m.buf_ i := by
    intro i hi
    rw [header.set_size_frame _ _ _ _ (Or.inl hi), hb i hi]
  obtain ⟨h1, h2⟩ := hw
  refine ⟨h1, ?_⟩
  rcases h2 with ⟨hc, ht⟩ | ⟨hs, hl, hg, hgc⟩
  · left
    refine ⟨hc, ?_⟩
    have := hfr 1 (by omega)
    simpa only [header.type, this] using ht
  · right
    refine ⟨hs, ?_, ?_, ?_⟩
    · show Linked (header.set_size b m.cur_header_ s) 0 hs m.cur_header_
      exact Linked_congr _ _ _ _ _ hl (fun i hi => hfr i (by omega))
    · intro r hr
      have hle := (Linked_le _ _ _ _ hl).2 r hr
      have hn := header_next_ge m.buf_ r
      exact GoodRec_congr _ _ _ _ (hg r hr) (fun i hi => hfr i (by omega))
    · exact GoodRec_set_size _ _ _ _ _ hgc hb

theorem GoodRec_open_header (m : message) (t s : Nat) (hid : m.id_ < 65536)
    (ht : 1 ≤ t ∧ t < FCGI_MAXTYPE) :
    GoodRec (m.open_header t s).1.buf_ m.id_ m.cur_header_ := by
  have hty := message.open_header_type m t s
  have hve := message.open_header_version m t s
  have hmod : t % 256 = t := Nat.mod_eq_of_lt (by simp only [FCGI_MAXTYPE] at ht; omega)
  rw [hmod] at hty
  refine ⟨?_, ?_, ?_⟩
  · simp only [header.valid, hty, hve, FCGI_VERSION_1, FCGI_BEGIN_REQUEST, ht.1, ht.2,
      beq_self_eq_true, ge_iff_le, decide_True, Bool.and_self]
  · rw [message.open_header_id, Nat.mod_eq_of_lt hid]
  · rw [message.open_header_padding, message.open_header_size]

theorem WellFormed_open_next (m : message) (id t s : Nat) (hw : WellFormed m id)
    (hid : id < 65536) (ht : 1 ≤ t ∧ t < FCGI_MAXTYPE)
    (h0 : header.type m.buf_ m.cur_header_ ≠ 0) :
    WellFormed
      (message.open_header { m with cur_header_ := header.next m.buf_ m.cur_header_ } t s).1
      id := by
  obtain ⟨h1, h2⟩ := hw
  refine ⟨h1, ?_⟩
  right
  rcases h2 with ⟨hc, hty⟩ | ⟨hs, hl, hg, hgc⟩
  · rw [hc] at h0
    exact absurd hty h0
  · have hfr : ∀ i, i < header.next m.buf_ m.cur_header_ →
        (message.open_header { m with cur_header_ := header.next m.buf_ m.cur_header_ } t s).1.buf_
          i = m.buf_ i :=
      fun i hi => message.open_header_frame _ t s i (Or.inl hi)
    have hn := header_next_ge m.buf_ m.cur_header_
    refine ⟨hs ++ [m.cur_header_], ?_, ?_, ?_⟩
    · exact Linked_congr _ _ _ _ _ (Linked_snoc _ _ _ _ hl) hfr
    · intro r hr
      rcases List.mem_append.1 hr with hr' | hr'
      · have hle := (Linked_le _ _ _ _ hl).2 r hr'
        have hn' := header_next_ge m.buf_ r
        exact GoodRec_congr _ _ _ _ (hg r hr') (fun i hi => hfr i (by omega))
      · rw [List.mem_singleton.1 hr']
        exact GoodRec_congr _ _ _ _ hgc (fun i hi => hfr i (by omega))
    · subst h1
      exact GoodRec_open_header { m with cur_header_ := header.next m.buf_ m.cur_header_ } t s
        hid ht

theorem WellFormed_open_init (m : message) (id t s : Nat) (hw : WellFormed m id)
    (hid : id < 65536) (ht : 1 ≤ t ∧ t < FCGI_MAXTYPE)
    (h0 : header.type m.buf_ m.cur_header_ = 0) :
    WellFormed (message.open_header m t s).1 id := by
  obtain ⟨h1, h2⟩ := hw
  refine ⟨h1, ?_⟩
  right
  have hc : m.cur_header_ = 0 := by
    rcases h2 with ⟨hc, _⟩ | ⟨hs, hl, hg, hgc⟩
    · exact hc
    · exact absurd h0 (GoodRec_type _ _ _ hgc)
  subst h1
  have := GoodRec_open_header m t s hid ht
  refine ⟨[], ?_, fun r hr => absurd hr (List.not_mem_nil r), this⟩
  show 0 = (message.open_header m t s).1.cur_header_
  rw [message.open_header_cur, hc]


namespace message

theorem WellFormed_add_header (m : message) (id t : Nat) (force : Bool) (s : Nat)
    (hw : WellFormed m id) (hid : id < 65536) (ht : 1 ≤ t ∧ t < FCGI_MAXTYPE)
    (hO : ¬(t = FCGI_END_REQUEST ∨ t = FCGI_STDIN) → WellFormed m.overflow id) :
    WellFormed (m.add_header t force s).1 id := by
  have hdead : WellFormed { m with good_ := false } id :=
    WellFormed_congr m _ id hw rfl rfl (fun _ _ => rfl)
  rw [add_header_eq]
  split_ifs with h1 h2 h3 h4 h5 h6 h7 h8
  · exact hw
  · exact hw
  · exact hdead
  · exact hdead
  · exact WellFormed_open_next m id t s hw hid ht h5
  · exact hO h6
  · exact WellFormed_open_next m id t s hw hid ht h5
  · exact WellFormed_open_init m id t s hw hid ht (not_not.1 h5)
  · exact hw

theorem add_header_cur (m : message) (t : Nat) (force : Bool) (s h : Nat)
    (hres : (m.add_header t force s).2 = some h) : h = (m.add_header t force s).1.cur_header_ := by
  rcases hr : m.add_header t force s with ⟨m', o⟩
  rw [hr] at hres
  simp only at hres
  subst hres
  exact (add_header_some m m' t force s h hr).2.1

theorem WellFormed_end_request (m : message) (id a p : Nat) (hw : WellFormed m id)
    (hid : id < 65536) : WellFormed (m.end_request a p) id := by
  have hah := WellFormed_add_header m id FCGI_END_REQUEST true sizeof_FCGI_EndRequestBody hw hid
    (by decide) (fun h => absurd (Or.inl rfl) h)
  rw [end_request_eq]
  rcases hr : (m.add_header FCGI_END_REQUEST true sizeof_FCGI_EndRequestBody).2 with _ | h
  · exact hah
  · have hc := add_header_cur m _ _ _ h hr
    refine WellFormed_congr _ _ id hah rfl rfl (fun i hi => ?_)
    have hC19 : ∀ j, j < header.data h →
        end_request_body.set_app_status
          (m.add_header FCGI_END_REQUEST true sizeof_FCGI_EndRequestBody).1.buf_ (header.data h) a j
        = (m.add_header FCGI_END_REQUEST true sizeof_FCGI_EndRequestBody).1.buf_ j := by
      intro j hj
      simp only [end_request_body.set_app_status, store_apply]
      rw [if_neg (by omega), if_neg (by omega), if_neg (by omega), if_neg (by omega)]
    simp only [header.data, sizeof_FCGI_Header] at hC19 ⊢
    simp only [store_apply]
    rw [if_neg (by omega), hC19 i (by omega)]

theorem WellFormed_begin_request (m : message) (id role flags : Nat) (hw : WellFormed m id)
    (hid : id < 65536) (hO : WellFormed m.overflow id) :
    WellFormed (m.begin_request role flags) id := by
  have hah := WellFormed_add_header m id FCGI_BEGIN_REQUEST true sizeof_FCGI_BeginRequestBody hw
    hid (by decide) (fun _ => hO)
  rw [begin_request_eq]
  rcases hr : (m.add_header FCGI_BEGIN_REQUEST true sizeof_FCGI_BeginRequestBody).2 with _ | h
  · exact hah
  · have hc := add_header_cur m _ _ _ h hr
    refine WellFormed_congr _ _ id hah rfl rfl (fun i hi => ?_)
    simp only [header.data, sizeof_FCGI_Header, begin_request_body.set_role, store_apply]
    rw [if_neg (by omega), if_neg (by omega), if_neg (by omega)]

theorem WellFormed_end_stream (m : message) (id t : Nat) (hw : WellFormed m id)
    (hid : id < 65536) (ht : 1 ≤ t ∧ t < FCGI_MAXTYPE)
    (hO : ¬(t = FCGI_END_REQUEST ∨ t = FCGI_STDIN) → ∀ m' : message, WellFormed m' id →
      WellFormed m'.overflow id) :
    WellFormed (m.end_stream t) id := by
  have hah := WellFormed_add_header m id t false 0 hw hid ht (fun h => hO h m hw)
  have hah2 := WellFormed_add_header (m.add_header t false 0).1 id t true 0 hah hid ht
    (fun h => hO h _ hah)
  have hterm : ∀ m' : message, WellFormed m' id → WellFormed { m' with terminated_ := true } id :=
    fun m' h' => WellFormed_congr m' _ id h' rfl rfl (fun _ _ => rfl)
  rw [end_stream_eq]
  rcases hr : (m.add_header t false 0).2 with _ | h
  · simp only [hr]
    exact hah
  · by_cases h1 : header.size (m.add_header t false 0).1.buf_ h ≠ 0
    · simp only [hr, if_pos h1]
      rcases hr2 : ((m.add_header t false 0).1.add_header t true 0).2 with _ | h2
      · simp only [hr2]
        exact hah2
      · simp only [hr2]
        split_ifs
        · exact hterm _ hah2
        · exact hah2
    · simp only [hr, if_neg h1]
      split_ifs
      · exact hterm _ hah
      · exact hah

theorem WellFormed_overflow (m : message) (id : Nat) (hw : WellFormed m id)
    (hid : id < 65536) : WellFormed m.overflow id := by
  have hdead : ∀ m' : message, WellFormed m' id → WellFormed { m' with good_ := false } id :=
    fun m' h' => WellFormed_congr m' _ id h' rfl rfl (fun _ _ => rfl)
  rw [overflow_eq]
  split_ifs with h1 h2
  · exact hw
  · exact hdead _ (WellFormed_end_stream m id FCGI_STDIN hw hid (by decide)
      (fun h => absurd (Or.inr rfl) h))
  · exact hdead _ (WellFormed_end_request m id 0 FCGI_OVERLOADED hw hid)

end message


theorem write_frame_lt (mem : Mem) (d : Nat) (name value : List Nat) (i : Nat) (hi : i < d) :
    (param.write mem d name value).1 i = mem i := by
  simp only [param.write, param.write_str, param.write_len_snd, memcpy_apply]
  rw [if_neg (by omega), if_neg (by omega), param.write_len_frame _ _ _ _ (Or.inl (by omega)),
    param.write_len_frame _ _ _ _ (Or.inl hi)]

namespace message

theorem WellFormed_append (m : message) (id t : Nat) (str : List Nat) (hw : WellFormed m id)
    (hid : id < 65536) (ht : 1 ≤ t ∧ t < FCGI_MAXTYPE) : WellFormed (m.append t str) id := by
  have hah := WellFormed_add_header m id t false 0 hw hid ht
    (fun _ => WellFormed_overflow m id hw hid)
  rw [append_eq]
  rcases hr : (m.add_header t false 0).2 with _ | h
  · simp only [hr]
    exact hah
  · have hc := add_header_cur m _ _ _ h hr
    simp only [hr]
    split_ifs
    · exact WellFormed_overflow _ id hah hid
    · rw [hc]
      refine WellFormed_set_size _ id _ _ hah (fun i hi => ?_)
      simp only [memcpy_apply, header.data, sizeof_FCGI_Header]
      rw [if_neg (by omega)]

theorem WellFormed_add_param (m : message) (id : Nat) (name value : List Nat)
    (hw : WellFormed m id) (hid : id < 65536) : WellFormed (m.add_param name value) id := by
  have hah := WellFormed_add_header m id FCGI_PARAMS false 0 hw hid (by decide)
    (fun _ => WellFormed_overflow m id hw hid)
  rw [add_param_eq]
  rcases hr : (m.add_header FCGI_PARAMS false 0).2 with _ | h
  · simp only [hr]
    exact hah
  · have hc := add_header_cur m _ _ _ h hr
    simp only [hr]
    split_ifs
    · exact WellFormed_overflow _ id hah hid
    · rw [hc]
      refine WellFormed_set_size _ id _ _ hah (fun i hi => ?_)
      exact write_frame_lt _ _ _ _ _ (by simp only [header.data, sizeof_FCGI_Header]; omega)

theorem WellFormed_new (id : Nat) (buf : Mem) (cap : Nat) :
    WellFormed (message.new id buf cap) id :=
  ⟨rfl, Or.inl ⟨rfl, by simp [message.new, header.type, store_apply]⟩⟩

theorem WellFormed_perform (m : message) (id : Nat) (c : call) (hw : WellFormed m id)
    (hid : id < 65536) (hc : c.in_range = true) : WellFormed (m.perform c) id := by
  cases c with
  | begin_request role flags =>
    exact WellFormed_begin_request m id role flags hw hid (WellFormed_overflow m id hw hid)
  | end_request a p => exact WellFormed_end_request m id a p hw hid
  | append t s =>
    simp only [call.in_range, Bool.and_eq_true, decide_eq_true_eq] at hc
    exact WellFormed_append m id t s hw hid hc
  | end_stream t =>
    simp only [call.in_range, Bool.and_eq_true, decide_eq_true_eq] at hc
    exact WellFormed_end_stream m id t hw hid hc
      (fun _ m' h' => WellFormed_overflow m' id h' hid)
  | add_param name value => exact WellFormed_add_param m id name value hw hid
  | clear =>
    exact ⟨hw.1, Or.inl ⟨rfl,
      by simp [message.perform, message.clear, header.type, store_apply]⟩⟩

theorem WellFormed_run (cs : List call) :
    ∀ (m : message) (id : Nat), WellFormed m id → id < 65536 →
      (∀ c ∈ cs, c.in_range = true) → WellFormed (m.run cs) id := by
  induction cs with
  | nil => exact fun m id hw _ _ => hw
  | cons c cs ih =>
    intro m id hw hid hc
    exact ih (m.perform c) id
      (WellFormed_perform m id c hw hid (hc c (List.mem_cons_self _ _))) hid
      (fun c' hc' => hc c' (List.mem_cons_of_mem _ hc'))

end message

theorem WellFormed_chain (m : message) (id : Nat) (hw : WellFormed m id) :
    ∃ hs, Linked m.buf_ 0 hs m.size ∧ ∀ h ∈ hs, GoodRec m.buf_ id h := by
  obtain ⟨_, h2⟩ := hw
  rcases h2 with ⟨hc, ht⟩ | ⟨hs, hl, hg, hgc⟩
  · refine ⟨[], ?_, fun r hr => absurd hr (List.not_mem_nil r)⟩
    show 0 = m.size
    unfold message.size
    rw [hc, if_neg (not_not.2 ht)]
  · refine ⟨hs ++ [m.cur_header_], ?_, ?_⟩
    · unfold message.size
      rw [if_pos (GoodRec_type _ _ _ hgc)]
      exact Linked_snoc _ _ _ _ hl
    · intro r hr
      rcases List.mem_append.1 hr with hr' | hr'
      · exact hg r hr'
      · rw [List.mem_singleton.1 hr']
        exact hgc


/-! ## Claim C20: the bytes written form a record chain -/

/-- C20: for a fresh message with a 16-bit id and any sequence of `begin_request`,
`end_request`, `append`, `end_stream`, `add_param` and `clear` calls whose record
types are in `[1, FCGI_MAXTYPE)`, traversing `str()` with `const_message` visits a
list of records that are all `valid()`, all carry the id of the message and all have
the padding `(8 - length mod 8) mod 8`; after the last of them the traversal is at
`end()`, that is at offset `size()`; and `size()` is a multiple of 8. -/
theorem C20_well_formed_chain (id : Nat) (buf : Mem) (cap : Nat) (cs : List call)
    (hid : id < 65536) (hcs : ∀ c ∈ cs, c.in_range = true) :
    ∃ hs : List Nat,
      (∀ fuel, hs.length + 1 ≤ fuel →
        const_message.records ((message.new id buf cap).run cs).buf_
          ((message.new id buf cap).run cs).str fuel = some hs) ∧
      (∀ h ∈ hs,
        header.valid ((message.new id buf cap).run cs).buf_ h = true ∧
        header.id ((message.new id buf cap).run cs).buf_ h = id ∧
        header.paddingLength ((message.new id buf cap).run cs).buf_ h
          = (8 - header.size ((message.new id buf cap).run cs).buf_ h % 8) % 8) ∧
      const_message.position ((message.new id buf cap).run cs).buf_
          ((message.new id buf cap).run cs).str hs.length
        = ((message.new id buf cap).run cs).str.end_ ∧
      (const_message.position ((message.new id buf cap).run cs).buf_
          ((message.new id buf cap).run cs).str hs.length).h_
        = ((message.new id buf cap).run cs).size ∧
      ((message.new id buf cap).run cs).size % 8 = 0 := by
  have hw := message.WellFormed_run cs _ id (message.WellFormed_new id buf cap) hid hcs
  generalize (message.new id buf cap).run cs = m at hw ⊢
  obtain ⟨hs, hl, hg⟩ := WellFormed_chain m id hw
  have hb : m.str.begin_ = ⟨0, m.size⟩ := by
    simp only [const_message.begin_, message.str, Nat.zero_add]
  have he : m.str.end_ = ⟨m.size, m.size⟩ := by
    simp only [const_message.end_, message.str, Nat.zero_add]
  have hpos : const_message.position m.buf_ m.str hs.length = ⟨m.size, m.size⟩ := by
    have := position_of_linked m.buf_ m.str m.size hs 0 0 hl hb
    rwa [Nat.zero_add] at this
  refine ⟨hs, fun fuel hf => ?_, hg, ?_, ?_, ?_⟩
  · unfold const_message.records
    rw [hb, he]
    exact loop_of_linked m.buf_ m.size hs 0 fuel hl hf
  · rw [hpos, he]
  · rw [hpos]
  · exact Linked_mod8 m.buf_ id hs 0 m.size hl hg rfl

theorem C20_witness :
    ((message.new 1 zero_mem 64).run [call.begin_request 1 1, call.add_param [65] [49],
      call.append FCGI_STDIN [120], call.end_stream FCGI_STDIN]).size % 8 = 0 :=
  (C20_well_formed_chain 1 zero_mem 64 [call.begin_request 1 1, call.add_param [65] [49],
      call.append FCGI_STDIN [120], call.end_stream FCGI_STDIN] (by decide)
    (by decide)).elim fun _ h => h.2.2.2.2


/-! ## Claim C13: `end_stream` -/

namespace message

theorem add_header_opens (m : message) (t : Nat) (force : Bool) (s : Nat)
    (hg : m.good_ = true) (hnt : m.terminated_ = false)
    (hc : header.type m.buf_ m.cur_header_ ≠ t ∨ force = true)
    (hroom : if t = FCGI_END_REQUEST ∨ t = FCGI_STDIN then m.size + m.reserve ≤ m.capacity_
      else m.size + 8 + s + m.reserve ≤ m.capacity_) :
    m.add_header t force s = open_header { m with cur_header_ := m.size } t s := by
  rw [add_header_eq]
  have hg' : ¬ m.good_ = false := by rw [hg]; decide
  have hnt' : ¬ m.terminated_ = true := by rw [hnt]; decide
  rw [if_neg hg', if_neg hnt', if_pos hc]
  by_cases h0 : header.type m.buf_ m.cur_header_ ≠ 0
  · have hsz : m.size = header.next m.buf_ m.cur_header_ := by
      unfold size
      rw [if_pos h0]
    rw [hsz] at hroom ⊢
    rw [if_pos h0]
    by_cases hs : t = FCGI_END_REQUEST ∨ t = FCGI_STDIN
    · rw [if_pos hs] at hroom ⊢
      rw [if_neg (by omega)]
    · rw [if_neg hs] at hroom ⊢
      rw [if_neg (by omega)]
  · have hsz : m.size = m.cur_header_ := by
      unfold size
      rw [if_neg h0]
    rw [hsz, if_neg h0]

theorem set_terminated (m1 : message) (t : Nat) (h1 : m1.terminated_ = false) :
    (if t = FCGI_STDIN then { m1 with terminated_ := true } else m1)
      = { m1 with terminated_ := decide (t = FCGI_STDIN) } := by
  obtain ⟨a, b, c, d, e, f⟩ := m1
  simp only at h1
  subst h1
  by_cases h : t = FCGI_STDIN <;> simp [h]

theorem end_stream_of_room (m : message) (t : Nat)
    (hg : m.good_ = true) (hnt : m.terminated_ = false)
    (hroom : if t = FCGI_END_REQUEST ∨ t = FCGI_STDIN then m.size + m.reserve ≤ m.capacity_
      else m.size + 8 + m.reserve ≤ m.capacity_) :
    m.end_stream t =
      { (if header.type m.buf_ m.cur_header_ = t ∧ header.size m.buf_ m.cur_header_ = 0 then m
          else (open_header { m with cur_header_ := m.size } t 0).1) with
        terminated_ := decide (t = FCGI_STDIN) } := by
  have hroom' : if t = FCGI_END_REQUEST ∨ t = FCGI_STDIN then m.size + m.reserve ≤ m.capacity_
      else m.size + 8 + 0 + m.reserve ≤ m.capacity_ := hroom
  have hopen : ∀ force, (header.type m.buf_ m.cur_header_ ≠ t ∨ force = true) →
      m.add_header t force 0 = open_header { m with cur_header_ := m.size } t 0 :=
    fun force hc => add_header_opens m t force 0 hg hnt hc hroom'
  rw [end_stream_eq]
  by_cases hty : header.type m.buf_ m.cur_header_ = t
  · rw [add_header_same m t hg hnt hty]
    by_cases hsz : header.size m.buf_ m.cur_header_ = 0
    · simp only [if_neg (not_not.2 hsz), if_pos (And.intro hty hsz)]
      exact set_terminated m t hnt
    · simp only [if_pos hsz, if_neg (fun h : header.type m.buf_ m.cur_header_ = t ∧
        header.size m.buf_ m.cur_header_ = 0 => hsz h.2), hopen true (Or.inr rfl), open_header_snd]
      exact set_terminated _ t hnt
  · have hz : header.size (open_header { m with cur_header_ := m.size } t 0).1.buf_ m.size = 0 :=
      open_header_size { m with cur_header_ := m.size } t 0
    simp only [if_neg (fun h : header.type m.buf_ m.cur_header_ = t ∧
        header.size m.buf_ m.cur_header_ = 0 => hty h.1), hopen false (Or.inl hty), open_header_snd,
      if_neg (not_not.2 hz)]
    exact set_terminated _ t hnt

end message


theorem records_of_linked (mem : Mem) (hs : List Nat) (e fuel : Nat) (hl : Linked mem 0 hs e)
    (hf : hs.length + 1 ≤ fuel) : const_message.records mem ⟨0, e⟩ fuel = some hs := by
  unfold const_message.records
  have hb : (⟨0, e⟩ : const_message).begin_ = ⟨0, e⟩ := by
    simp only [const_message.begin_, Nat.zero_add]
  have he : (⟨0, e⟩ : const_message).end_ = ⟨e, e⟩ := by
    simp only [const_message.end_, Nat.zero_add]
  rw [hb, he]
  exact loop_of_linked mem e hs 0 fuel hl hf

theorem opened_record (m : message) (t s : Nat) (ht0 : t ≠ 0) (ht : t < 256) (hs : s < 65536) :
    header.type (m.open_header t s).1.buf_ m.cur_header_ = t ∧
    header.size (m.open_header t s).1.buf_ m.cur_header_ = s ∧
    header.next (m.open_header t s).1.buf_ m.cur_header_ = m.cur_header_ + 8 + s + (8 - s % 8) % 8 ∧
    (m.open_header t s).1.size = m.cur_header_ + 8 + s + (8 - s % 8) % 8 ∧
    (∀ hs, Linked m.buf_ 0 hs m.cur_header_ → ∀ fuel, hs.length + 2 ≤ fuel →
      const_message.records (m.open_header t s).1.buf_ (m.open_header t s).1.str fuel
        = some (hs ++ [m.cur_header_])) := by
  have h1 : header.type (m.open_header t s).1.buf_ m.cur_header_ = t := by
    rw [message.open_header_type, Nat.mod_eq_of_lt ht]
  have h2 : header.size (m.open_header t s).1.buf_ m.cur_header_ = s := by
    rw [message.open_header_size, Nat.mod_eq_of_lt hs]
  have h3 : header.next (m.open_header t s).1.buf_ m.cur_header_
      = m.cur_header_ + 8 + s + (8 - s % 8) % 8 := by
    unfold header.next header.data
    rw [h2, message.open_header_padding, Nat.mod_eq_of_lt hs]
  have h4 : (m.open_header t s).1.size = m.cur_header_ + 8 + s + (8 - s % 8) % 8 := by
    unfold message.size
    rw [message.open_header_cur, h1, if_pos ht0, h3]
  refine ⟨h1, h2, h3, h4, fun hs hl fuel hf => ?_⟩
  have hl' : Linked (m.open_header t s).1.buf_ 0 (hs ++ [m.cur_header_])
      (header.next (m.open_header t s).1.buf_ m.cur_header_) :=
    Linked_snoc _ _ _ _ (Linked_congr _ _ _ _ _ hl
      (fun i hi => message.open_header_frame m t s i (Or.inl hi)))
  rw [h3, ← h4] at hl'
  exact records_of_linked _ _ _ fuel hl' (by rw [List.length_append]; exact hf)

/-- C13: on a good, non-terminated message with room for one more header below the
reservation (for `FCGI_STDIN` and `FCGI_END_REQUEST` the check of `add_header` is
`size() <= terminator()`, for the other types `size() + 8 <= terminator()`), and for
every type `t` in `1..255`: after `end_stream(t)` the message is still good and its
current record, which ends at `size()`, has type `t` and content length 0.  When the
current record was already an empty record of type `t` nothing is written and `size()`
is unchanged; otherwise a new empty record is written at the old `size()` (the bytes
before it unchanged, the traversal of `str()` lists it last) and `size()` grows by 8.
The terminated flag is true afterwards exactly when `t` is `FCGI_STDIN`. -/
theorem C13_end_stream (m : message) (t : Nat) (ht0 : t ≠ 0) (ht : t < 256)
    (hg : m.good = true) (hnt : m.terminated_ = false)
    (hroom : if t = FCGI_END_REQUEST ∨ t = FCGI_STDIN then m.size + m.reserve ≤ m.capacity_
      else m.size + 8 + m.reserve ≤ m.capacity_) :
    (m.end_stream t).good = true ∧
    header.type (m.end_stream t).buf_ (m.end_stream t).cur_header_ = t ∧
    header.size (m.end_stream t).buf_ (m.end_stream t).cur_header_ = 0 ∧
    header.next (m.end_stream t).buf_ (m.end_stream t).cur_header_ = (m.end_stream t).size ∧
    (header.type m.buf_ m.cur_header_ = t ∧ header.size m.buf_ m.cur_header_ = 0 →
      (m.end_stream t).buf_ = m.buf_ ∧ (m.end_stream t).cur_header_ = m.cur_header_ ∧
      (m.end_stream t).size = m.size) ∧
    (¬(header.type m.buf_ m.cur_header_ = t ∧ header.size m.buf_ m.cur_header_ = 0) →
      (m.end_stream t).cur_header_ = m.size ∧ (m.end_stream t).size = m.size + 8 ∧
      (∀ i, i < m.size → (m.end_stream t).buf_ i = m.buf_ i) ∧
      ∀ hs, Linked m.buf_ 0 hs m.size → ∀ fuel, hs.length + 2 ≤ fuel →
        const_message.records (m.end_stream t).buf_ (m.end_stream t).str fuel
          = some (hs ++ [m.size])) ∧
    ((m.end_stream t).terminated_ = true ↔ t = FCGI_STDIN) := by
  have hE := message.end_stream_of_room m t hg hnt hroom
  have hterm : (m.end_stream t).terminated_ = true ↔ t = FCGI_STDIN := by
    rw [hE]
    exact decide_eq_true_iff
  by_cases hsame : header.type m.buf_ m.cur_header_ = t ∧ header.size m.buf_ m.cur_header_ = 0
  · rw [if_pos hsame] at hE
    have hb : (m.end_stream t).buf_ = m.buf_ := by rw [hE]
    have hc : (m.end_stream t).cur_header_ = m.cur_header_ := by rw [hE]
    have hgd : (m.end_stream t).good = true := by rw [hE]; exact hg
    have hsz : (m.end_stream t).size = m.size := by
      unfold message.size
      rw [hb, hc]
    have hn : header.next m.buf_ m.cur_header_ = m.size := by
      unfold message.size
      rw [hsame.1, if_pos ht0]
    refine ⟨hgd, ?_, ?_, ?_, fun _ => ⟨hb, hc, hsz⟩, fun h => absurd hsame h, hterm⟩
    · rw [hb, hc]
      exact hsame.1
    · rw [hb, hc]
      exact hsame.2
    · rw [hb, hc, hsz]
      exact hn
  · rw [if_neg hsame] at hE
    obtain ⟨o1, o2, o3, o4, o5⟩ :=
      opened_record { m with cur_header_ := m.size } t 0 ht0 ht (by decide)
    have hb : (m.end_stream t).buf_
        = (message.open_header { m with cur_header_ := m.size } t 0).1.buf_ := by rw [hE]
    have hc : (m.end_stream t).cur_header_ = m.size := by rw [hE]; rfl
    have hgd : (m.end_stream t).good = true := by rw [hE]; exact hg
    have hsz : (m.end_stream t).size = m.size + 8 := by
      have : (m.end_stream t).size
          = (message.open_header { m with cur_header_ := m.size } t 0).1.size := by
        unfold message.size
        rw [hb, hc]
        rfl
      rw [this, o4]
    have hstr : (m.end_stream t).str
        = (message.open_header { m with cur_header_ := m.size } t 0).1.str := by
      unfold message.str
      rw [hsz, o4]
    refine ⟨hgd, ?_, ?_, ?_, fun h => absurd h hsame, fun _ => ⟨hc, hsz, fun i hi => ?_, ?_⟩,
      hterm⟩
    · rw [hb, hc]
      exact o1
    · rw [hb, hc]
      exact o2
    · rw [hb, hc, hsz]
      exact o3
    · rw [hb]
      exact message.open_header_frame { m with cur_header_ := m.size } t 0 i (Or.inl hi)
    · intro hs hl fuel hf
      rw [hb, hstr]
      exact o5 hs hl fuel hf

theorem C13_witness :
    ((message.new 1 zero_mem 64).append FCGI_STDOUT [120]).good = true ∧
    (((message.new 1 zero_mem 64).append FCGI_STDOUT [120]).end_stream FCGI_STDOUT).size
      = ((message.new 1 zero_mem 64).append FCGI_STDOUT [120]).size + 8 ∧
    ((((message.new 1 zero_mem 64).append FCGI_STDOUT [120]).end_stream FCGI_STDOUT).terminated_
      = true ↔ FCGI_STDOUT = FCGI_STDIN) :=
  ⟨by decide,
   ((C13_end_stream ((message.new 1 zero_mem 64).append FCGI_STDOUT [120]) FCGI_STDOUT (by decide)
      (by decide) (by decide) (by decide) (by decide)).2.2.2.2.2.1 (by decide)).2.1,
   (C13_end_stream ((message.new 1 zero_mem 64).append FCGI_STDOUT [120]) FCGI_STDOUT (by decide)
      (by decide) (by decide) (by decide) (by decide)).2.2.2.2.2.2⟩


/-! ## Claim C12: `end_request` -/

/-- On a good, non-terminated message that passes the check of `add_header` (`size() <=
terminator()`), `end_request` opens a fresh `FCGI_END_REQUEST` record at the old
`size()`: `size()` grows by 16, the record has content length 8 and its body decodes to
the given statuses, and the traversal of `str()` lists it last. -/
theorem end_request_of_room (m : message) (a p : Nat) (ha : a < 2 ^ 32) (hp : p < 256)
    (hg : m.good_ = true) (hnt : m.terminated_ = false)
    (hroom : m.size + m.reserve ≤ m.capacity_) :
    (m.end_request a p).good = true ∧
    (m.end_request a p).cur_header_ = m.size ∧
    (m.end_request a p).size = m.size + 16 ∧
    header.type (m.end_request a p).buf_ m.size = FCGI_END_REQUEST ∧
    header.size (m.end_request a p).buf_ m.size = 8 ∧
    end_request_body.app_status (m.end_request a p).buf_ (header.data m.size) = a ∧
    end_request_body.protocolStatus (m.end_request a p).buf_ (header.data m.size) = p ∧
    (∀ i, i < m.size → (m.end_request a p).buf_ i = m.buf_ i) ∧
    (∀ hs, Linked m.buf_ 0 hs m.size → ∀ fuel, hs.length + 2 ≤ fuel →
      const_message.records (m.end_request a p).buf_ (m.end_request a p).str fuel
        = some (hs ++ [m.size])) := by
  have hopen := message.add_header_opens m FCGI_END_REQUEST true sizeof_FCGI_EndRequestBody hg hnt
    (Or.inr rfl) (by rw [if_pos (Or.inl rfl)]; exact hroom)
  have hrec :=
    opened_record { m with cur_header_ := m.size } FCGI_END_REQUEST 8 (by decide) (by decide)
      (by decide)
  have hfr0 := message.open_header_frame { m with cur_header_ := m.size } FCGI_END_REQUEST 8
  generalize hm1 : (message.open_header { m with cur_header_ := m.size } FCGI_END_REQUEST 8).1 = m1
    at hrec hfr0
  have hgc : m1.good_ = true ∧ m1.cur_header_ = m.size := by
    rw [← hm1]
    exact ⟨hg, rfl⟩
  obtain ⟨hg1, hc1⟩ := hgc
  have o1 : header.type m1.buf_ m.size = FCGI_END_REQUEST := hrec.1
  have o2 : header.size m1.buf_ m.size = 8 := hrec.2.1
  have o3 : header.next m1.buf_ m.size = m.size + 16 := hrec.2.2.1
  have o4 : m1.size = m.size + 16 := hrec.2.2.2.1
  have o5 : ∀ hs, Linked m.buf_ 0 hs m.size → ∀ fuel, hs.length + 2 ≤ fuel →
      const_message.records m1.buf_ m1.str fuel = some (hs ++ [m.size]) := hrec.2.2.2.2
  have hfr : ∀ i, i < m.size → m1.buf_ i = m.buf_ i := fun i hi => hfr0 i (Or.inl hi)
  have hE : m.end_request a p =
      { m1 with buf_ := (store (end_request_body.set_app_status m1.buf_ (header.data m.size) a)
          (header.data m.size + 4) p) } := by
    rw [message.end_request_eq, hopen]
    simp only [message.open_header_snd, sizeof_FCGI_EndRequestBody, hm1]
  obtain ⟨s0, s1, s2, s3, sfr, sapp⟩ :=
    set_app_status_bytes m1.buf_ (header.data m.size) a ha
  have hbuf : ∀ i, i < m.size + 8 → (m.end_request a p).buf_ i = m1.buf_ i := by
    intro i hi
    rw [hE]
    simp only [store_apply, header.data, sizeof_FCGI_Header] at sfr ⊢
    rw [if_neg (by omega), sfr i (Or.inl (by omega))]
  have hty : header.type (m.end_request a p).buf_ m.size = FCGI_END_REQUEST := by
    rw [← o1]
    unfold header.type
    exact hbuf _ (by omega)
  have hsz : header.size (m.end_request a p).buf_ m.size = 8 := by
    rw [← o2]
    exact header.size_congr _ _ _ (hbuf _ (by omega)) (hbuf _ (by omega))
  have hnx : header.next (m.end_request a p).buf_ m.size = m.size + 16 := by
    rw [← o3]
    exact header_next_congr _ _ _ (fun i hi => hbuf i (by omega))
  have hcur : (m.end_request a p).cur_header_ = m.size := by rw [hE]; exact hc1
  have hsize : (m.end_request a p).size = m.size + 16 := by
    have h0 : header.type (m.end_request a p).buf_ (m.end_request a p).cur_header_ ≠ 0 := by
      rw [hcur, hty]
      decide
    rw [show (m.end_request a p).size
      = header.next (m.end_request a p).buf_ (m.end_request a p).cur_header_ from if_pos h0,
      hcur, hnx]
  refine ⟨by rw [hE]; exact hg1, hcur, hsize, hty, hsz, ?_, ?_, fun i hi => ?_, ?_⟩
  · rw [hE]
    simp only [end_request_body.app_status, store_apply] at sapp ⊢
    rw [if_neg (by omega), if_neg (by omega), if_neg (by omega), if_neg (by omega)]
    exact sapp
  · rw [hE]
    simp only [end_request_body.protocolStatus, store_apply, if_true]
    exact Nat.mod_eq_of_lt hp
  · rw [hbuf i (by omega), hfr i hi]
  · intro hs hl fuel hf
    have hl1 : Linked (m.end_request a p).buf_ 0 (hs ++ [m.size]) (m.size + 16) := by
      have h1 : Linked (m.end_request a p).buf_ 0 hs m.size :=
        Linked_congr _ _ _ _ _ hl (fun i hi => by rw [hbuf i (by omega), hfr i hi])
      have h2 := Linked_snoc _ _ _ _ h1
      rw [hnx] at h2
      exact h2
    rw [← hsize] at hl1
    exact records_of_linked _ _ _ fuel hl1 (by rw [List.length_append]; exact hf)

/-- C12: runs in which `end_request` does not open a record.  On the good, terminated
message `begin_request(1, 0); end_stream(FCGI_STDIN)` in a 64 byte buffer (size 24,
capacity 64) the call `end_request(7, 3)` leaves `good()` true and `size()` at 24: the
traversal of `str()` still ends with the empty `FCGI_STDIN` record at offset 16, and
the status bytes are stored behind it, at offsets 27 and 28, outside `str()`.  The same
happens after `append(FCGI_STDOUT, "x"); end_stream(FCGI_STDIN)`. -/
theorem C12_end_request_after_termination :
    ((((message.new 1 zero_mem 64).begin_request 1 0).end_stream FCGI_STDIN).good = true ∧
      (((message.new 1 zero_mem 64).begin_request 1 0).end_stream FCGI_STDIN).terminated_ = true ∧
      (((message.new 1 zero_mem 64).begin_request 1 0).end_stream FCGI_STDIN).size = 24 ∧
      ((((message.new 1 zero_mem 64).begin_request 1 0).end_stream FCGI_STDIN).end_request
        7 3).good = true ∧
      ((((message.new 1 zero_mem 64).begin_request 1 0).end_stream FCGI_STDIN).end_request
        7 3).size = 24 ∧
      const_message.records
        ((((message.new 1 zero_mem 64).begin_request 1 0).end_stream FCGI_STDIN).end_request
          7 3).buf_
        ((((message.new 1 zero_mem 64).begin_request 1 0).end_stream FCGI_STDIN).end_request
          7 3).str 4 = some [0, 16] ∧
      header.type
        ((((message.new 1 zero_mem 64).begin_request 1 0).end_stream FCGI_STDIN).end_request
          7 3).buf_ 16 = FCGI_STDIN ∧
      ((((message.new 1 zero_mem 64).begin_request 1 0).end_stream FCGI_STDIN).end_request
        7 3).buf_ 27 = 7 ∧
      ((((message.new 1 zero_mem 64).begin_request 1 0).end_stream FCGI_STDIN).end_request
        7 3).buf_ 28 = 3) ∧
    ((((message.new 1 zero_mem 64).append FCGI_STDOUT [120]).end_stream FCGI_STDIN).good = true ∧
      (((message.new 1 zero_mem 64).append FCGI_STDOUT [120]).end_stream FCGI_STDIN).size = 24 ∧
      ((((message.new 1 zero_mem 64).append FCGI_STDOUT [120]).end_stream FCGI_STDIN).end_request
        7 3).good = true ∧
      ((((message.new 1 zero_mem 64).append FCGI_STDOUT [120]).end_stream FCGI_STDIN).end_request
        7 3).size = 24 ∧
      const_message.records
        ((((message.new 1 zero_mem 64).append FCGI_STDOUT [120]).end_stream FCGI_STDIN).end_request
          7 3).buf_
        ((((message.new 1 zero_mem 64).append FCGI_STDOUT [120]).end_stream FCGI_STDIN).end_request
          7 3).str 4 = some [0, 16] ∧
      header.type
        ((((message.new 1 zero_mem 64).append FCGI_STDOUT [120]).end_stream FCGI_STDIN).end_request
          7 3).buf_ 16 = FCGI_STDIN) := by
  decide


/-! ## Claim C21: `merge_next` -/

theorem memmove_apply (mem : Mem) (dst src n i : Nat) :
    memmove mem dst src n i = if dst ≤ i ∧ i < dst + n then mem (src + (i - dst)) else mem i :=
  rfl

theorem string_ref_shift (mem mem' : Mem) (d d' n : Nat)
    (h : ∀ j, j < n → mem' (d' + j) = mem (d + j)) :
    string_ref mem' d' n = string_ref mem d n := by
  unfold string_ref
  apply List.map_congr_left
  intro j hj
  exact h j (List.mem_range.1 hj)

/-- C21: for the record at `h` with content length `l` and padding `p` and the record
that follows it (at `next()`) with content length `nl` and padding `np`, where `l + nl
<= 65535` and `p + np + 8 <= 255`: after `merge_next()` the record at `h` has content
length `l + nl`, its content is the old content of the first record followed by the
old content of the second, its padding is `p + np + 8`, and its `next()` is what
`next()` of the second record was; version, type and request id are untouched. -/
theorem C21_merge_next (mem : Mem) (h : Nat)
    (hlen : header.size mem h + header.size mem (header.next mem h) ≤ 65535)
    (hpad : header.paddingLength mem h + header.paddingLength mem (header.next mem h) + 8 ≤ 255) :
    header.size (header.merge_next mem h) h
      = header.size mem h + header.size mem (header.next mem h) ∧
    header.str (header.merge_next mem h) h
      = header.str mem h ++ header.str mem (header.next mem h) ∧
    header.paddingLength (header.merge_next mem h) h
      = header.paddingLength mem h + header.paddingLength mem (header.next mem h) + 8 ∧
    header.next (header.merge_next mem h) h = header.next mem (header.next mem h) ∧
    (∀ i, i < h + 4 → header.merge_next mem h i = mem i) := by
  have hsize : header.size (header.merge_next mem h) h
      = header.size mem h + header.size mem (header.next mem h) := by
    unfold header.merge_next
    rw [header.size_set_size_p, Nat.mod_eq_of_lt (by omega)]
  have hp : header.paddingLength (header.merge_next mem h) h
      = header.paddingLength mem h + header.paddingLength mem (header.next mem h) + 8 := by
    unfold header.merge_next
    simp only [sizeof_FCGI_Header]
    rw [header.paddingLength_set_size_p, Nat.mod_mod, Nat.mod_eq_of_lt (by omega)]
  have hfr : ∀ i, i < h + 4 ∨ h + 7 ≤ i → header.merge_next mem h i
      = memmove mem (header.data h + header.size mem h) (header.data (header.next mem h))
          (header.size mem (header.next mem h)) i := by
    intro i hi
    unfold header.merge_next
    exact header.set_size_p_frame _ _ _ _ _ hi
  have hd : ∀ x, header.data x = x + 8 := fun _ => rfl
  refine ⟨hsize, ?_, hp, ?_, fun i hi => ?_⟩
  · unfold header.str
    rw [hsize, string_ref_add]
    congr 1
    · apply string_ref_congr
      intro i hi hi'
      rw [hd] at hi hi'
      have hno : ¬(header.data h + header.size mem h ≤ i ∧
          i < header.data h + header.size mem h + header.size mem (header.next mem h)) := by
        rw [hd]
        omega
      rw [hfr i (Or.inr (by omega)), memmove_apply, if_neg hno]
    · apply string_ref_shift
      intro j hj
      have hge : h + 7 ≤ header.data h + header.size mem h + j := by
        rw [hd]
        omega
      rw [hfr _ (Or.inr hge), memmove_apply, if_pos (by omega)]
      congr 1
      omega
  · unfold header.next
    rw [hsize, hp]
    simp only [hd]
    unfold header.next
    simp only [hd]
    omega
  · have hno : ¬(header.data h + header.size mem h ≤ i ∧
        i < header.data h + header.size mem h + header.size mem (header.next mem h)) := by
      rw [hd]
      omega
    rw [hfr i (Or.inl hi), memmove_apply, if_neg hno]

theorem C21_witness :
    header.str (header.merge_next (header.set_str (header.set_str zero_mem 16 [3, 4, 5]) 0 [1, 2])
        0) 0 = [1, 2, 3, 4, 5] :=
  (C21_merge_next (header.set_str (header.set_str zero_mem 16 [3, 4, 5]) 0 [1, 2]) 0
    (by decide) (by decide)).2.1.trans (by decide)


/-! ## Traversals over a range of bytes terminate when no `size_t` sum wraps -/

theorem read_len_snd_le (mem : Mem) (d : Nat) :
    d + 1 ≤ (param.read_len mem d).2 ∧ (param.read_len mem d).2 ≤ d + 4 := by
  unfold param.read_len
  split_ifs <;> simp only <;> omega

theorem read_len_lt (mem : Mem) (hb : ByteMem mem) (d : Nat) :
    (param.read_len mem d).1 < 2 ^ 31 := by
  have h0 := hb d
  have h1 := hb (d + 1)
  have h2 := hb (d + 2)
  have h3 := hb (d + 3)
  unfold param.read_len
  split_ifs <;> simp only <;> omega

theorem size_w_of_bytes (w : Nat) (hw : 33 ≤ w) (mem : Mem) (hb : ByteMem mem) (d : Nat) :
    param.size_w w mem d
      = (param.read_len mem (param.read_len mem d).2).2 - d + (param.read_len mem d).1
        + (param.read_len mem (param.read_len mem d).2).1 := by
  have a := read_len_snd_le mem d
  have b := read_len_snd_le mem (param.read_len mem d).2
  have c := read_len_lt mem hb d
  have e := read_len_lt mem hb (param.read_len mem d).2
  have hpow : 2 ^ 33 ≤ 2 ^ w := Nat.pow_le_pow_right (by decide) hw
  show (_ : Nat) % 2 ^ w = _
  apply Nat.mod_eq_of_lt
  norm_num at c e hpow ⊢
  omega

theorem size_of_bytes (mem : Mem) (hb : ByteMem mem) (d : Nat) :
    param.size mem d
      = (param.read_len mem (param.read_len mem d).2).2 - d + (param.read_len mem d).1
        + (param.read_len mem (param.read_len mem d).2).1 :=
  size_w_of_bytes 64 (by decide) mem hb d

theorem param_next_ge (mem : Mem) (hb : ByteMem mem) (d : Nat) : d + 2 ≤ param.next mem d := by
  unfold param.next
  rw [size_of_bytes mem hb d]
  have a := read_len_snd_le mem d
  have b := read_len_snd_le mem (param.read_len mem d).2
  omega

theorem const_message_valid_step (mem : Mem) (i : const_message.iterator)
    (hv : i.valid mem = true) :
    i.h_ + 8 ≤ (i.incr mem).h_ ∧ (i.incr mem).h_ ≤ i.e_ ∧ (i.incr mem).e_ = i.e_ := by
  have hn := header_next_ge mem i.h_
  simp only [const_message.iterator.valid, const_message.iterator.not_valid, Bool.not_eq_true',
    Bool.or_eq_false_iff, decide_eq_false_iff_not] at hv
  refine ⟨hn, ?_, rfl⟩
  show header.next mem i.h_ ≤ i.e_
  omega

theorem const_params_valid_step (mem : Mem) (hb : ByteMem mem) (i : const_params.iterator)
    (hv : i.valid mem = true) :
    i.p_ + 2 ≤ (i.incr mem).p_ ∧ (i.incr mem).p_ ≤ i.e_ ∧ (i.incr mem).e_ = i.e_ := by
  have hn := param_next_ge mem hb i.p_
  simp only [const_params.iterator.valid, const_params.iterator.not_valid, Bool.not_eq_true',
    Bool.or_eq_false_iff, decide_eq_false_iff_not] at hv
  refine ⟨hn, ?_, rfl⟩
  show param.next mem i.p_ ≤ i.e_
  omega

theorem const_message_position_ge (mem : Mem) (c : const_message) (n : Nat)
    (hv : ∀ k, k < n → (const_message.position mem c k).valid mem = true) :
    c.buf_data + 8 * n ≤ (const_message.position mem c n).h_ := by
  induction n with
  | zero => exact Nat.le_refl _
  | succ n ih =>
    have h1 := ih (fun k hk => hv k (by omega))
    have h2 := (const_message_valid_step mem _ (hv n (by omega))).1
    show c.buf_data + 8 * (n + 1) ≤ ((const_message.position mem c n).incr mem).h_
    omega

theorem const_params_position_ge (mem : Mem) (hb : ByteMem mem) (c : const_params) (n : Nat)
    (hv : ∀ k, k < n → (const_params.position mem c k).valid mem = true) :
    c.buf_data + 2 * n ≤ (const_params.position mem c n).p_ := by
  induction n with
  | zero => exact Nat.le_refl _
  | succ n ih =>
    have h1 := ih (fun k hk => hv k (by omega))
    have h2 := (const_params_valid_step mem hb _ (hv n (by omega))).1
    show c.buf_data + 2 * (n + 1) ≤ ((const_params.position mem c n).incr mem).p_
    omega

theorem const_message_stops (mem : Mem) (c : const_message) :
    ∃ n, n ≤ c.buf_size / 8 ∧ (const_message.position mem c n).valid mem = false ∧
      ∀ k, k < n → (const_message.position mem c k).valid mem = true := by
  have hex : ∃ n, (const_message.position mem c n).valid mem = false := by
    by_contra hne
    have hall : ∀ k, (const_message.position mem c k).valid mem = true := by
      intro k
      by_contra hk
      exact hne ⟨k, by simpa using hk⟩
    have h1 := const_message_position_ge mem c (c.buf_size / 8) (fun k _ => hall k)
    have h2 := const_message_valid_step mem _ (hall (c.buf_size / 8))
    have h3 := const_message_position_e mem c (c.buf_size / 8)
    omega
  refine ⟨Nat.find hex, ?_, Nat.find_spec hex, fun k hk => ?_⟩
  · by_contra hgt
    have hall : ∀ k, k < c.buf_size / 8 + 1 →
        (const_message.position mem c k).valid mem = true := by
      intro k hk
      have := Nat.find_min hex (show k < Nat.find hex by omega)
      simpa using this
    have h1 := const_message_position_ge mem c (c.buf_size / 8) (fun k hk => hall k (by omega))
    have h2 := const_message_valid_step mem _ (hall (c.buf_size / 8) (by omega))
    have h3 := const_message_position_e mem c (c.buf_size / 8)
    omega
  · have := Nat.find_min hex hk
    simpa using this

theorem const_params_stops (mem : Mem) (hb : ByteMem mem) (c : const_params) :
    ∃ n, n ≤ c.buf_size / 2 ∧ (const_params.position mem c n).valid mem = false ∧
      ∀ k, k < n → (const_params.position mem c k).valid mem = true := by
  have hex : ∃ n, (const_params.position mem c n).valid mem = false := by
    by_contra hne
    have hall : ∀ k, (const_params.position mem c k).valid mem = true := by
      intro k
      by_contra hk
      exact hne ⟨k, by simpa using hk⟩
    have h1 := const_params_position_ge mem hb c (c.buf_size / 2) (fun k _ => hall k)
    have h2 := const_params_valid_step mem hb _ (hall (c.buf_size / 2))
    have h3 := const_params_position_e mem c (c.buf_size / 2)
    omega
  refine ⟨Nat.find hex, ?_, Nat.find_spec hex, fun k hk => ?_⟩
  · by_contra hgt
    have hall : ∀ k, k < c.buf_size / 2 + 1 →
        (const_params.position mem c k).valid mem = true := by
      intro k hk
      have := Nat.find_min hex (show k < Nat.find hex by omega)
      simpa using this
    have h1 := const_params_position_ge mem hb c (c.buf_size / 2) (fun k hk => hall k (by omega))
    have h2 := const_params_valid_step mem hb _ (hall (c.buf_size / 2) (by omega))
    have h3 := const_params_position_e mem c (c.buf_size / 2)
    omega
  · have := Nat.find_min hex hk
    simpa using this


theorem const_message_loop_positions (mem : Mem) (c : const_message) (n : Nat)
    (hstop : (const_message.position mem c n).valid mem = false)
    (hv : ∀ k, k < n → (const_message.position mem c k).valid mem = true) :
    ∀ d k fuel, k + d = n → d + 1 ≤ fuel →
      ∃ hs, const_message.loop mem c.end_ fuel (const_message.position mem c k) = some hs ∧
        hs.length = d := by
  intro d
  induction d with
  | zero =>
    intro k fuel hk hf
    obtain ⟨f, rfl⟩ : ∃ f, fuel = f + 1 := ⟨fuel - 1, by omega⟩
    have hkn : k = n := by omega
    subst hkn
    have hne := (const_message_end_compare mem (const_message.position mem c k) _
      (const_message_position_e mem c k)).1
    refine ⟨[], ?_, rfl⟩
    unfold const_message.loop
    rw [show const_message.iterator.ne mem (const_message.position mem c k) c.end_ = false from
      hne.trans hstop]
    rfl
  | succ d ih =>
    intro k fuel hk hf
    obtain ⟨f, rfl⟩ : ∃ f, fuel = f + 1 := ⟨fuel - 1, by omega⟩
    have hne := (const_message_end_compare mem (const_message.position mem c k) _
      (const_message_position_e mem c k)).1
    obtain ⟨hs, h1, h2⟩ := ih (k + 1) f (by omega) (by omega)
    refine ⟨(const_message.position mem c k).h_ :: hs, ?_, by rw [List.length_cons, h2]⟩
    unfold const_message.loop
    rw [show const_message.iterator.ne mem (const_message.position mem c k) c.end_ = true from
      hne.trans (hv k (by omega)), if_pos rfl]
    show Option.map _ (const_message.loop mem c.end_ f (const_message.position mem c (k + 1))) = _
    rw [h1]
    rfl

theorem const_params_loop_positions (mem : Mem) (c : const_params) (n : Nat)
    (hstop : (const_params.position mem c n).valid mem = false)
    (hv : ∀ k, k < n → (const_params.position mem c k).valid mem = true) :
    ∀ d k fuel, k + d = n → d + 1 ≤ fuel →
      ∃ ps, const_params.loop mem c.end_ fuel (const_params.position mem c k) = some ps ∧
        ps.length = d := by
  intro d
  induction d with
  | zero =>
    intro k fuel hk hf
    obtain ⟨f, rfl⟩ : ∃ f, fuel = f + 1 := ⟨fuel - 1, by omega⟩
    have hkn : k = n := by omega
    subst hkn
    have hne := (const_params_end_compare mem (const_params.position mem c k) _
      (const_params_position_e mem c k)).1
    refine ⟨[], ?_, rfl⟩
    unfold const_params.loop
    rw [show const_params.iterator.ne mem (const_params.position mem c k) c.end_ = false from
      hne.trans hstop]
    rfl
  | succ d ih =>
    intro k fuel hk hf
    obtain ⟨f, rfl⟩ : ∃ f, fuel = f + 1 := ⟨fuel - 1, by omega⟩
    have hne := (const_params_end_compare mem (const_params.position mem c k) _
      (const_params_position_e mem c k)).1
    obtain ⟨ps, h1, h2⟩ := ih (k + 1) f (by omega) (by omega)
    refine ⟨((param.read mem (const_params.position mem c k).p_).1,
      (param.read mem (const_params.position mem c k).p_).2.1) :: ps, ?_,
      by rw [List.length_cons, h2]⟩
    unfold const_params.loop
    rw [show const_params.iterator.ne mem (const_params.position mem c k) c.end_ = true from
      hne.trans (hv k (by omega)), if_pos rfl]
    show Option.map _ (const_params.loop mem c.end_ f (const_params.position mem c (k + 1))) = _
    rw [h1]
    rfl

/-- On a range of bytes and with a 64 bit `size_t`: a step over a valid `const_message`
position advances by at least 8 bytes and a step over a valid `const_params` position
by at least 2 bytes, and neither passes the end; the traversal from `begin()` reaches
a position that is not valid after at most `len / 8` (respectively `len / 2`)
increments, and the loops `for (i = begin(); i != end(); ++i)` finish. -/
theorem traversal_terminates_of_bytes (mem : Mem) (hb : ByteMem mem) :
    (∀ i : const_message.iterator, i.valid mem = true →
      i.h_ + 8 ≤ (i.incr mem).h_ ∧ (i.incr mem).h_ ≤ i.e_ ∧ (i.incr mem).e_ = i.e_) ∧
    (∀ i : const_params.iterator, i.valid mem = true →
      i.p_ + 2 ≤ (i.incr mem).p_ ∧ (i.incr mem).p_ ≤ i.e_ ∧ (i.incr mem).e_ = i.e_) ∧
    (∀ c : const_message, ∃ n, n ≤ c.buf_size / 8 ∧
      (const_message.position mem c n).valid mem = false ∧
      (∀ k, k < n → (const_message.position mem c k).valid mem = true) ∧
      ∀ fuel, n + 1 ≤ fuel →
        ∃ hs, const_message.records mem c fuel = some hs ∧ hs.length = n) ∧
    (∀ c : const_params, ∃ n, n ≤ c.buf_size / 2 ∧
      (const_params.position mem c n).valid mem = false ∧
      (∀ k, k < n → (const_params.position mem c k).valid mem = true) ∧
      ∀ fuel, n + 1 ≤ fuel →
        ∃ ps, const_params.read_all mem c fuel = some ps ∧ ps.length = n) := by
  refine ⟨const_message_valid_step mem, const_params_valid_step mem hb, fun c => ?_,
    fun c => ?_⟩
  · obtain ⟨n, hn, hstop, hv⟩ := const_message_stops mem c
    exact ⟨n, hn, hstop, hv, fun fuel hf =>
      const_message_loop_positions mem c n hstop hv n 0 fuel (Nat.zero_add n) hf⟩
  · obtain ⟨n, hn, hstop, hv⟩ := const_params_stops mem hb c
    exact ⟨n, hn, hstop, hv, fun fuel hf =>
      const_params_loop_positions mem c n hstop hv n 0 fuel (Nat.zero_add n) hf⟩


/-! ## Claim C22: a traversal that does not terminate -/

/-- C22: with a 32 bit `size_t` the eight bytes `FF FF FF FC FF FF FF FC` decode to
two lengths `0x7FFFFFFC`, and the sum of `param::size()` wraps to 0.  On the range of
these eight bytes `begin()` is then valid, `++` leaves the position where it is, and
the loop `for (i = begin(); i != end(); ++i)` never reaches `end()`, whatever the
number of iterations.  With a 64 bit `size_t` the same position is not valid and the
loop ends at once. -/
theorem C22_params_traversal_wraps :
    param.read_len (bytes_mem [255, 255, 255, 252, 255, 255, 255, 252]) 0 = (0x7FFFFFFC, 4) ∧
    param.read_len (bytes_mem [255, 255, 255, 252, 255, 255, 255, 252]) 4 = (0x7FFFFFFC, 8) ∧
    param.size_w 32 (bytes_mem [255, 255, 255, 252, 255, 255, 255, 252]) 0 = 0 ∧
    (const_params.mk 0 8).begin_.valid_w 32 (bytes_mem [255, 255, 255, 252, 255, 255, 255, 252])
      = true ∧
    (const_params.mk 0 8).begin_.incr_w 32 (bytes_mem [255, 255, 255, 252, 255, 255, 255, 252])
      = (const_params.mk 0 8).begin_ ∧
    (∀ fuel, const_params.read_all_w 32 (bytes_mem [255, 255, 255, 252, 255, 255, 255, 252])
      (const_params.mk 0 8) fuel = none) ∧
    (const_params.mk 0 8).begin_.valid (bytes_mem [255, 255, 255, 252, 255, 255, 255, 252])
      = false ∧
    const_params.read_all (bytes_mem [255, 255, 255, 252, 255, 255, 255, 252])
      (const_params.mk 0 8) 1 = some [] := by
  have hne : (const_params.mk 0 8).begin_.ne_w 32
      (bytes_mem [255, 255, 255, 252, 255, 255, 255, 252]) (const_params.mk 0 8).end_ = true := by
    decide
  have hincr : (const_params.mk 0 8).begin_.incr_w 32
      (bytes_mem [255, 255, 255, 252, 255, 255, 255, 252]) = (const_params.mk 0 8).begin_ := by
    decide
  refine ⟨by decide, by decide, by decide, by decide, hincr, fun fuel => ?_, by decide,
    by decide⟩
  unfold const_params.read_all_w
  induction fuel with
  | zero => rfl
  | succ k ih =>
    unfold const_params.loop_w
    rw [hne, if_pos rfl, hincr, ih]
    rfl


/-! ## Validity of a parameter position and the bytes behind the range -/

theorem read_len_congr (mem mem' : Mem) (d e : Nat) (hd : d < e)
    (h : ∀ i, d ≤ i → i < e → mem' i = mem i) :
    (param.read_len mem' d).2 = (param.read_len mem d).2 ∧
    ((param.read_len mem d).2 ≤ e → (param.read_len mem' d).1 = (param.read_len mem d).1) := by
  have h0 := h d (Nat.le_refl d) hd
  unfold param.read_len
  rw [h0]
  by_cases hb : mem d / 128 ≠ 0
  · simp only [if_pos hb]
    refine ⟨trivial, fun he => ?_⟩
    rw [h (d + 1) (by omega) (by omega), h (d + 2) (by omega) (by omega),
      h (d + 3) (by omega) (by omega)]
  · simp only [if_neg hb]
    exact ⟨trivial, fun _ => trivial⟩

theorem param_next_congr (mem mem' : Mem) (hb : ByteMem mem) (hb' : ByteMem mem') (p e : Nat)
    (hp : p < e) (h : ∀ i, p ≤ i → i < e → mem' i = mem i) :
    (param.next mem' p > e ↔ param.next mem p > e) := by
  obtain ⟨a1, a2⟩ := read_len_congr mem mem' p e hp h
  have b1 := read_len_snd_le mem p
  have hnext : ∀ m : Mem, ByteMem m → param.next m p
      = p + ((param.read_len m (param.read_len m p).2).2 - p + (param.read_len m p).1
        + (param.read_len m (param.read_len m p).2).1) := by
    intro m hm
    unfold param.next
    rw [size_of_bytes m hm p]
  rw [hnext mem hb, hnext mem' hb', a1]
  have c1 := read_len_snd_le mem (param.read_len mem p).2
  have c1' := read_len_snd_le mem' (param.read_len mem p).2
  by_cases hq : (param.read_len mem p).2 < e
  · obtain ⟨d1, d2⟩ := read_len_congr mem mem' (param.read_len mem p).2 e hq
      (fun i hi hi' => h i (by omega) hi')
    rw [d1, a2 (by omega)]
    by_cases hr : (param.read_len mem (param.read_len mem p).2).2 ≤ e
    · rw [d2 hr]
    · constructor <;> intro _ <;> omega
  · constructor <;> intro _ <;> omega

/-- With a 64 bit `size_t`, whether a `const_params` position is valid depends only on
the bytes of the range: two memories of bytes that agree on `[p, e)` give the same
`valid()`. -/
theorem valid_depends_on_range_of_bytes (mem mem' : Mem) (hb : ByteMem mem)
    (hb' : ByteMem mem') (i : const_params.iterator)
    (hagree : ∀ j, i.p_ ≤ j → j < i.e_ → mem' j = mem j) :
    i.valid mem' = i.valid mem := by
  unfold const_params.iterator.valid const_params.iterator.not_valid
  by_cases hp : i.p_ < i.e_
  · have := param_next_congr mem mem' hb hb' i.p_ i.e_ hp hagree
    simp only [this]
  · have hge : i.p_ ≥ i.e_ := by omega
    simp only [hge, decide_True, Bool.true_or, Bool.not_true]

/-! ## Claim C23: validity decided by bytes behind the range -/

namespace message

theorem size_of_type_ne (m : message) (h : header.type m.buf_ m.cur_header_ ≠ 0) :
    m.size = header.next m.buf_ m.cur_header_ := if_pos h

theorem size_of_type_zero (m : message) (h : header.type m.buf_ m.cur_header_ = 0) :
    m.size = m.cur_header_ := if_neg (not_not.2 h)

theorem size_ne_zero (m : message) (h : header.type m.buf_ m.cur_header_ ≠ 0) : m.size ≠ 0 := by
  rw [size_of_type_ne m h]
  have := header_next_ge m.buf_ m.cur_header_
  omega

theorem reserve_congr (m m' : message) (h : m'.buf_ 1 = m.buf_ 1) : m'.reserve = m.reserve := by
  unfold reserve header.type
  rw [Nat.zero_add, h]

theorem reserve_open_header (m : message) (t s : Nat) (ht : t < 256) :
    (m.open_header t s).1.reserve ≤
      if m.cur_header_ = 0 then
        if t ≠ FCGI_BEGIN_REQUEST then sizeof_FCGI_Header + sizeof_FCGI_EndRequestBody
        else sizeof_FCGI_Header
      else m.reserve := by
  by_cases h0 : m.cur_header_ = 0
  · rw [if_pos h0]
    have hty := open_header_type m t s
    rw [h0, Nat.mod_eq_of_lt ht] at hty
    unfold reserve
    rw [hty]
  · rw [if_neg h0]
    by_cases h1 : m.cur_header_ = 1
    · have hv := open_header_version m t s
      rw [h1] at hv
      have h8 : (m.open_header t s).1.reserve = 8 := by
        unfold reserve header.type
        unfold header.version at hv
        rw [Nat.zero_add, hv]
        rfl
      rw [h8]
      exact (reserve_le m).1
    · exact Nat.le_of_eq (reserve_congr m _ (open_header_frame m t s 1 (Or.inl (by omega))))

end message


namespace message

theorem fits_iff (m : message) (t n : Nat) :
    m.fits t n = true ↔
      header.data (m.record_of t)
        + (if header.type m.buf_ m.cur_header_ = t then header.size m.buf_ m.cur_header_ else 0)
        + n + m.reserve_for t ≤ m.capacity_ := by
  unfold fits
  rw [decide_eq_true_iff, prior_content_length]

theorem append_fits (m : message) (t : Nat) (s : List Nat) (ht0 : t ≠ 0) (ht : t < 256)
    (hg : m.good_ = true)
    (htt : m.terminated_ = true →
      header.type m.buf_ m.cur_header_ = t ∧ (t = FCGI_END_REQUEST ∨ t = FCGI_STDIN))
    (hfit : m.fits t s.length = true) :
    (m.append t s).good_ = true ∧ (m.append t s).capacity_ = m.capacity_ ∧
    (m.append t s).reserve ≤ m.reserve_for t := by
  rw [fits_iff] at hfit
  have key : ∀ (m' : message) (h : Nat), m.add_header t false 0 = (m', some h) →
      m'.good_ = true → m'.capacity_ = m.capacity_ → m'.reserve ≤ m.reserve_for t →
      header.data h + header.size m'.buf_ h + s.length + m.reserve_for t ≤ m.capacity_ →
      (m.append t s).good_ = true ∧ (m.append t s).capacity_ = m.capacity_ ∧
      (m.append t s).reserve ≤ m.reserve_for t := by
    intro m' h hah hg' hc' hr' hineq
    rw [append_of_add_header m m' h t s hah (by omega)]
    refine ⟨hg', hc', ?_⟩
    have hd : header.data h = h + 8 := rfl
    have hres : ({ m' with buf_ := header.append m'.buf_ h s } : message).reserve = m'.reserve :=
      reserve_congr m' _
        (header.append_frame m'.buf_ h s 1 (Or.inl (by omega)) (Or.inl (by omega)))
    rw [hres]
    exact hr'
  by_cases hty : header.type m.buf_ m.cur_header_ = t
  · have hsz_ne : m.size ≠ 0 := size_ne_zero m (by rw [hty]; exact ht0)
    have hah : m.add_header t false 0 = (m, some m.cur_header_) := by
      by_cases hterm : m.terminated_ = true
      · rw [add_header_eq]
        have hg' : ¬ m.good_ = false := by rw [hg]; decide
        rw [if_neg hg', if_pos hterm, if_pos (htt hterm).2]
      · exact add_header_same m t hg (by simpa using hterm) hty
    refine key m m.cur_header_ hah hg rfl ?_ ?_
    · unfold reserve_for
      rw [if_neg hsz_ne]
    · unfold record_of at hfit
      rw [if_pos hty, if_pos hty] at hfit
      exact hfit
  · have hnt : m.terminated_ = false := by
      by_contra h
      exact hty (htt (by simpa using h)).1
    unfold record_of at hfit
    rw [if_neg hty, if_neg hty] at hfit
    have hd : ∀ x, header.data x = x + 8 := fun _ => rfl
    rw [hd] at hfit
    by_cases h0 : header.type m.buf_ m.cur_header_ = 0
    · have hah := add_header_init m t false 0 hg hnt h0 (Or.inl ht0)
      have hsz := size_of_type_zero m h0
      have hr := reserve_open_header m t 0 ht
      have hah' : m.add_header t false 0 = ((m.open_header t 0).1, some m.cur_header_) := by
        rw [hah]
        rfl
      refine key _ _ hah' hg rfl ?_ ?_
      · unfold reserve_for
        by_cases hc : m.cur_header_ = 0
        · rw [if_pos hc] at hr
          rw [if_pos (by rw [hsz, hc])]
          exact hr
        · rw [if_neg hc] at hr
          rw [if_neg (by rw [hsz]; exact hc)]
          exact hr
      · rw [open_header_size, hd]
        rw [hsz] at hfit
        simpa using hfit
    · have hsz := size_of_type_ne m h0
      have hn := header_next_ge m.buf_ m.cur_header_
      have hsz_ne : m.size ≠ 0 := by omega
      have hrf : m.reserve_for t = m.reserve := by
        unfold reserve_for
        rw [if_neg hsz_ne]
      rw [hrf] at hfit
      have hah := add_header_opens m t false 0 hg hnt (Or.inl hty)
        (by split_ifs <;> omega)
      have hah' : m.add_header t false 0
          = ((open_header { m with cur_header_ := m.size } t 0).1, some m.size) := by
        rw [hah]
        rfl
      refine key _ _ hah' hg rfl ?_ ?_
      · rw [hrf]
        exact Nat.le_of_eq (reserve_congr m _
          (open_header_frame { m with cur_header_ := m.size } t 0 1 (Or.inl (by
            show 1 < m.size
            omega))))
      · have := open_header_size { m with cur_header_ := m.size } t 0
        rw [show header.size (open_header { m with cur_header_ := m.size } t 0).1.buf_ m.size
          = 0 from this, hd, hrf]
        omega

end message


namespace message

theorem room_iff (m : message) (t n : Nat) :
    m.room t n = true ↔
      if t = FCGI_END_REQUEST ∨ t = FCGI_STDIN then m.size + m.reserve ≤ m.capacity_
      else m.size + 8 + n + m.reserve ≤ m.capacity_ := by
  unfold room
  split_ifs <;> exact decide_eq_true_iff

theorem begin_request_room (m : message) (role flags : Nat) (hg : m.good_ = true)
    (hnt : m.terminated_ = false) (hroom : m.room FCGI_BEGIN_REQUEST 8 = true) :
    (m.begin_request role flags).good_ = true := by
  have hopen := add_header_opens m FCGI_BEGIN_REQUEST true sizeof_FCGI_BeginRequestBody hg hnt
    (Or.inr rfl) ((room_iff m _ _).1 hroom)
  rw [begin_request_eq, hopen]
  exact hg

theorem end_request_room (m : message) (app_status proto_status : Nat) (hg : m.good_ = true)
    (hnt : m.terminated_ = false) (hroom : m.room FCGI_END_REQUEST 8 = true) :
    (m.end_request app_status proto_status).good_ = true := by
  have hopen := add_header_opens m FCGI_END_REQUEST true sizeof_FCGI_EndRequestBody hg hnt
    (Or.inr rfl) ((room_iff m _ _).1 hroom)
  rw [end_request_eq, hopen]
  exact hg

theorem end_stream_room (m : message) (t : Nat) (ht0 : t ≠ 0) (ht : t < 256)
    (hg : m.good_ = true) (hnt : m.terminated_ = false) (hroom : m.room t 0 = true) :
    (m.end_stream t).good_ = true ∧
    ((m.end_stream t).terminated_ = true → t = FCGI_STDIN) ∧
    header.type (m.end_stream t).buf_ (m.end_stream t).cur_header_ = t := by
  have hE := end_stream_of_room m t hg hnt ((room_iff m t 0).1 hroom)
  rw [hE]
  refine ⟨?_, fun h => of_decide_eq_true h, ?_⟩
  · split_ifs
    · exact hg
    · exact hg
  · split_ifs with hsame
    · exact hsame.1
    · exact (opened_record { m with cur_header_ := m.size } t 0 ht0 ht (by decide)).1

theorem append_cur (m : message) (t : Nat) (s : List Nat) (ht : t < 256)
    (hg : (m.append t s).good_ = true)
    (htt : m.terminated_ = true → header.type m.buf_ m.cur_header_ = t) :
    (m.append t s).cur_header_ = m.record_of t := by
  rw [(append_tail m t s ht hg htt).2.2.1]
  unfold record_of size
  split_ifs <;> rfl

end message


/-! ## Claim C4: coalescing -/

/-- C4, amended: let `m` be a good, non-terminated message, `t` a record type (1 to
255), `prior` the content the current record already holds if it has type `t`
(nothing otherwise), and let `prior`, `a`, `b` together have at most 65535 bytes and
`a` fit below the reservation (`fits`: the end of the payload is not beyond
`terminator()`).  If `a` and `b` together fit, `append(t,a)` immediately followed by
`append(t,b)` leaves `good()` true and puts both into one record: the current header
does not move between the two calls, and the record has type `t`, content length
`|prior|+|a|+|b|` and content `prior`, `a`, `b` in this order.  With `append(u,c)`,
`u ≠ t`, `u ≠ 0`, between the two calls, or a forced open between them
(`end_stream(t)` on the non-empty record, `begin_request`, `end_request`), each call
fitting below the reservation when it is made (`fits` for an `append`, `room` for a
new header), `good()` stays true, the record holding `prior`, `a` stays as it is and
`b` is in a later record of type `t`, whose content is `b` (after the 8-byte body, when
`begin_request` or `end_request` opened that record with type `t`). -/
theorem C4_coalescing (m : message) (t : Nat) (a b : List Nat) (ht0 : t ≠ 0) (ht : t < 256)
    (hg : m.good = true) (hnt : m.terminated_ = false)
    (hlen : (prior_content m t).length + a.length + b.length ≤ 65535)
    (hfa : m.fits t a.length = true) :
    (m.fits t (a.length + b.length) = true →
      ((m.append t a).append t b).good = true ∧
      ((m.append t a).append t b).cur_header_ = (m.append t a).cur_header_ ∧
      header.type ((m.append t a).append t b).buf_ ((m.append t a).append t b).cur_header_ = t ∧
      header.size ((m.append t a).append t b).buf_ ((m.append t a).append t b).cur_header_
        = (prior_content m t).length + a.length + b.length ∧
      header.str ((m.append t a).append t b).buf_ ((m.append t a).append t b).cur_header_
        = prior_content m t ++ a ++ b) ∧
    (∀ u c, u ≠ 0 → u < 256 → u ≠ t →
      (m.append t a).fits u c.length = true →
      ((m.append t a).append u c).fits t b.length = true →
      (((m.append t a).append u c).append t b).good = true ∧
      separate_records (m.append t a) (((m.append t a).append u c).append t b) t
        (prior_content m t ++ a) b) ∧
    (prior_content m t ++ a ≠ [] →
      (m.append t a).room t 0 = true →
      ((m.append t a).end_stream t).fits t b.length = true →
      (((m.append t a).end_stream t).append t b).good = true ∧
      separate_records (m.append t a) (((m.append t a).end_stream t).append t b) t
        (prior_content m t ++ a) b) ∧
    (∀ role flags, b.length + 8 ≤ 65535 →
      (m.append t a).room FCGI_BEGIN_REQUEST 8 = true →
      ((m.append t a).begin_request role flags).fits t b.length = true →
      (((m.append t a).begin_request role flags).append t b).good = true ∧
      separate_records (m.append t a) (((m.append t a).begin_request role flags).append t b) t
        (prior_content m t ++ a)
        (prior_content ((m.append t a).begin_request role flags) t ++ b)) ∧
    (∀ app_status proto_status, b.length + 8 ≤ 65535 →
      (m.append t a).room FCGI_END_REQUEST 8 = true →
      ((m.append t a).end_request app_status proto_status).fits t b.length = true →
      (((m.append t a).end_request app_status proto_status).append t b).good = true ∧
      separate_records (m.append t a)
        (((m.append t a).end_request app_status proto_status).append t b) t
        (prior_content m t ++ a)
        (prior_content ((m.append t a).end_request app_status proto_status) t ++ b)) := by
  have hshape := coalescing_of_good m t a b ht0 ht hnt hlen
  have hnt' : m.terminated_ = true →
      header.type m.buf_ m.cur_header_ = t ∧ (t = FCGI_END_REQUEST ∨ t = FCGI_STDIN) := by
    intro h
    rw [hnt] at h
    exact absurd h (by decide)
  -- the first append
  obtain ⟨hg1, hcap1, hres1⟩ := message.append_fits m t a ht0 ht hg hnt' hfa
  obtain ⟨-, hterm1, -, -, hty1, hsz1, -⟩ :=
    append_tail m t a ht hg1 (fun h => (hnt' h).1)
  rw [hnt] at hterm1
  have hcur1 := message.append_cur m t a ht hg1 (fun h => (hnt' h).1)
  have hnt1 : ∀ x : Nat, (m.append t a).terminated_ = true →
      header.type (m.append t a).buf_ (m.append t a).cur_header_ = x ∧
        (x = FCGI_END_REQUEST ∨ x = FCGI_STDIN) := by
    intro x h
    rw [hterm1] at h
    exact absurd h (by decide)
  have h01 : header.type (m.append t a).buf_ (m.append t a).cur_header_ ≠ 0 := by
    rw [hty1]
    exact ht0
  refine ⟨fun hfab => ?_, fun u c hu0 hu hut hfc hfb => ?_, fun hne hroom hfb => ?_,
    fun role flags hb8 hroom hfb => ?_, fun app_status proto_status hb8 hroom hfb => ?_⟩
  · have hfb : (m.append t a).fits t b.length = true := by
      rw [message.fits_iff] at hfab ⊢
      have hrec : (m.append t a).record_of t = m.record_of t := by
        unfold message.record_of
        rw [if_pos hty1, hcur1]
        rfl
      have hrf : (m.append t a).reserve_for t = (m.append t a).reserve := by
        unfold message.reserve_for
        rw [if_neg (message.size_ne_zero _ h01)]
      rw [hrec, if_pos hty1, hsz1, hrf, hcap1, prior_content_length,
        Nat.mod_eq_of_lt (by rw [prior_content_length] at hlen; omega)]
      omega
    obtain ⟨hg2, -, -⟩ := message.append_fits _ t b ht0 ht hg1 (hnt1 t) hfb
    exact ⟨hg2, hshape.1 hg2⟩
  · obtain ⟨hg2, -, -⟩ := message.append_fits _ u c hu0 hu hg1 (hnt1 u) hfc
    have hterm2 : ((m.append t a).append u c).terminated_ = false := by
      rw [(append_tail _ u c hu hg2 (fun h => (hnt1 u h).1)).2.1, hterm1]
    obtain ⟨hg3, -, -⟩ := message.append_fits _ t b ht0 ht hg2
      (fun h => by rw [hterm2] at h; exact absurd h (by decide)) hfb
    exact ⟨hg3, hshape.2.1 u c hu0 hu hut hg3⟩
  · obtain ⟨hg2, hterm2, hty2⟩ := message.end_stream_room _ t ht0 ht hg1 hterm1 hroom
    obtain ⟨hg3, -, -⟩ := message.append_fits _ t b ht0 ht hg2
      (fun h => ⟨hty2, Or.inr (hterm2 h)⟩) hfb
    exact ⟨hg3, hshape.2.2.1 hne hg3⟩
  · have hg2 := message.begin_request_room _ role flags hg1 hterm1 hroom
    have hterm2 := (message.begin_request_forced _ role flags hg2 hterm1 h01).2.1
    obtain ⟨hg3, -, -⟩ := message.append_fits _ t b ht0 ht hg2
      (fun h => by rw [hterm2] at h; exact absurd h (by decide)) hfb
    exact ⟨hg3, hshape.2.2.2.1 role flags hb8 hg3⟩
  · have hg2 := message.end_request_room _ app_status proto_status hg1 hterm1 hroom
    have hterm2 := (message.end_request_forced _ app_status proto_status hg2 hterm1 h01).2.1
    obtain ⟨hg3, -, -⟩ := message.append_fits _ t b ht0 ht hg2
      (fun h => by rw [hterm2] at h; exact absurd h (by decide)) hfb
    exact ⟨hg3, hshape.2.2.2.2 app_status proto_status hb8 hg3⟩


/-- C4 on a fresh message of capacity 64 with `t` = STDOUT, `a` = [1], `b` = [2]: the
strings fit, the calls succeed, and the two bytes are coalesced when the appends are
adjacent and in separate records with `append(STDERR, [9])` or `end_stream(STDOUT)` in
between. -/
theorem C4_witness :
    (message.new 1 zero_mem 64).fits FCGI_STDOUT ([1].length + [2].length) = true ∧
    (((message.new 1 zero_mem 64).append FCGI_STDOUT [1]).append FCGI_STDOUT [2]).good = true ∧
    header.str (((message.new 1 zero_mem 64).append FCGI_STDOUT [1]).append FCGI_STDOUT [2]).buf_
        (((message.new 1 zero_mem 64).append FCGI_STDOUT [1]).append FCGI_STDOUT [2]).cur_header_
      = prior_content (message.new 1 zero_mem 64) FCGI_STDOUT ++ [1] ++ [2] ∧
    separate_records ((message.new 1 zero_mem 64).append FCGI_STDOUT [1])
      ((((message.new 1 zero_mem 64).append FCGI_STDOUT [1]).append FCGI_STDERR [9]).append
        FCGI_STDOUT [2])
      FCGI_STDOUT (prior_content (message.new 1 zero_mem 64) FCGI_STDOUT ++ [1]) [2] ∧
    separate_records ((message.new 1 zero_mem 64).append FCGI_STDOUT [1])
      ((((message.new 1 zero_mem 64).append FCGI_STDOUT [1]).end_stream FCGI_STDOUT).append
        FCGI_STDOUT [2])
      FCGI_STDOUT (prior_content (message.new 1 zero_mem 64) FCGI_STDOUT ++ [1]) [2] :=
  ⟨by decide,
   ((C4_coalescing (message.new 1 zero_mem 64) FCGI_STDOUT [1] [2] (by decide) (by decide)
      (by decide) rfl (by decide) (by decide)).1 (by decide)).1,
   ((C4_coalescing (message.new 1 zero_mem 64) FCGI_STDOUT [1] [2] (by decide) (by decide)
      (by decide) rfl (by decide) (by decide)).1 (by decide)).2.2.2.2,
   ((C4_coalescing (message.new 1 zero_mem 64) FCGI_STDOUT [1] [2] (by decide) (by decide)
      (by decide) rfl (by decide) (by decide)).2.1 FCGI_STDERR [9] (by decide) (by decide)
      (by decide) (by decide) (by decide)).2,
   ((C4_coalescing (message.new 1 zero_mem 64) FCGI_STDOUT [1] [2] (by decide) (by decide)
      (by decide) rfl (by decide) (by decide)).2.2.1 (by decide) (by decide) (by decide)).2⟩

end tinyfcgi
